import Mathlib

/-!
# kuperparser: resilient request pipeline and catalog traversal

A shallow embedding of the Go sources

* `internal/client/transport/transport.go` (retry and concurrency decorators, `Build`),
* `internal/client/proxy/proxy.go` (static list and rotation proxy providers),
* `internal/apis/kuper/usecases/categoryproducts.go` (category resolver, paginated collector),
* `internal/apis/kuper/mapper/mapper.go` (normalization of a raw product),
* `internal/apis/kuper/endpoints/products.go` (the response shapes of a product listing),

followed by theorems about them.

Conventions of the embedding.

* A Go `error` value is a `GoError`: its message together with the three facts the code ever
  asks of an error (`errors.Is(err, context.Canceled)`, `errors.Is(err, context.DeadlineExceeded)`
  and `errors.As(err, &netErr)`).  A nil error is `none`.
* `time.Duration` is an `Int` number of nanoseconds; `int` is `Int`, and 64-bit wrap-around is
  written out where the code can reach it (`shl64`, the `uint64` counter of the list provider).
* Everything a function obtains from outside (the base transport, the context, the random
  source, the upstream catalogue, the clock) is an explicit argument, indexed by the attempt or
  page at which the code asks for it; every function returns, next to its Go results, the trace
  of the outside calls it made.
-/

namespace kuperparser

/-- A Go `error`, reduced to what the code observes of it. -/
structure GoError where
  /-- the text of `err.Error()` -/
  msg : String
  /-- Go `errors.Is(err, context.Canceled)` -/
  isCanceled : Bool
  /-- Go `errors.Is(err, context.DeadlineExceeded)` -/
  isDeadlineExceeded : Bool
  /-- Go `errors.As(err, &netErr)` for `var netErr net.Error` -/
  isNetError : Bool
deriving DecidableEq, Repr

/-- The error made by `fmt.Errorf` / `errors.New` from a plain message: it wraps nothing. -/
def errorf (msg : String) : GoError := ⟨msg, false, false, false⟩

/-- The error made by `fmt.Errorf("...: %w", err)`: a new message around `err`, through which
`errors.Is` and `errors.As` still see `err`. -/
def wrapf (msg : String) (err : GoError) : GoError :=
  ⟨msg ++ err.msg, err.isCanceled, err.isDeadlineExceeded, err.isNetError⟩

/-- Go `context.Canceled`. -/
def ctxCanceled : GoError := ⟨"context canceled", true, false, false⟩

/-- Go `context.DeadlineExceeded` (it also implements `net.Error`). -/
def ctxDeadlineExceeded : GoError := ⟨"context deadline exceeded", false, true, true⟩

/-! ## Durations and machine integers -/

/-- Go `time.Millisecond`, in nanoseconds. -/
def millisecond : Int := 1000000

/-- Go `time.Second`, in nanoseconds. -/
def second : Int := 1000000000

/-- The value of an integer as a two's-complement `int64`. -/
def wrapInt64 (x : Int) : Int := (x + 2 ^ 63) % 2 ^ 64 - 2 ^ 63

/-- Go's `x << s` on `int64` for a shift count `s >= 0`. -/
def shl64 (x : Int) (s : Nat) : Int := wrapInt64 (x * 2 ^ s)

/-- Truncation toward zero. -/
def truncToInt (q : ℚ) : Int := if 0 ≤ q then ⌊q⌋ else -⌊-q⌋

/-! ## `float64`

A `float64` value is the rational number it stands for; an operation on `float64` values is
the exact operation followed by the rounding `float64`. -/

/-- The integer nearest to a rational, a tie going to the even one. -/
def roundHalfEven (q : ℚ) : Int :=
  let f := ⌊q⌋
  if q - f < 1 / 2 then f
  else if 1 / 2 < q - f then f + 1
  else if f % 2 = 0 then f else f + 1

/-- The `float64` nearest to a rational: IEEE 754 binary64 rounding to nearest, ties to even,
which keeps 53 significant bits.  It is the rounding of every `float64` operation and of the
conversion `float64(d)`, for a result that is zero or of a magnitude between `2^-1022` and
`2^1024` (no subnormal result, no overflow to infinity), as every value computed here is. -/
def float64 (q : ℚ) : ℚ :=
  if q = 0 then 0 else
  let ulp : ℚ := 2 ^ (Int.log 2 |q| - 52)
  roundHalfEven (q / ulp) * ulp

/-- Go's conversion of a `float64` to `int64`, as in `time.Duration(f)`: truncation toward
zero.  For a value outside `int64` the language leaves the result to the implementation; this
is amd64, whose conversion instruction then gives the smallest `int64`. -/
def float64ToInt64 (q : ℚ) : Int :=
  let t := truncToInt q
  if -2 ^ 63 ≤ t ∧ t < 2 ^ 63 then t else -2 ^ 63

/-! ## `strconv.Atoi` -/

/-- The value of a string of ASCII decimal digits; `none` if another byte occurs. -/
def parseDigits : List Char → Nat → Option Nat
  | [], acc => some acc
  | c :: cs, acc =>
    if '0' ≤ c ∧ c ≤ '9' then parseDigits cs (acc * 10 + (c.toNat - '0'.toNat)) else none

/-- Go `strconv.Atoi` on a 64-bit platform: an optional sign, then one or more decimal digits,
the value within `int64`; anything else is an error (`none`). -/
def atoi (s : String) : Option Int :=
  match s.toList with
  | [] => none
  | '-' :: ds =>
    if ds.isEmpty then none else
    match parseDigits ds 0 with
    | some n => if n ≤ 2 ^ 63 then some (-(n : Int)) else none
    | none => none
  | '+' :: ds =>
    if ds.isEmpty then none else
    match parseDigits ds 0 with
    | some n => if n < 2 ^ 63 then some (n : Int) else none
    | none => none
  | ds =>
    match parseDigits ds 0 with
    | some n => if n < 2 ^ 63 then some (n : Int) else none
    | none => none

/-! ## `strings` and decoded JSON -/

/-- Go `unicode.IsSpace`. -/
def isSpace (c : Char) : Bool :=
  let n := c.toNat
  (9 ≤ n && n ≤ 13) || n == 32 || n == 0x85 || n == 0xA0 || n == 0x1680 ||
    (0x2000 ≤ n && n ≤ 0x200A) || n == 0x2028 || n == 0x2029 || n == 0x202F || n == 0x205F ||
    n == 0x3000

/-- Go `strings.TrimSpace`. -/
def TrimSpace (s : String) : String :=
  String.mk ((s.toList.dropWhile isSpace).rdropWhile isSpace)

/-- Go `strings.HasPrefix`. -/
def HasPrefix (s pre : String) : Bool := pre.toList.isPrefixOf s.toList

/-- The scan of `strings.ReplaceAll` for a non-empty `old`: `skip` counts the characters of a
match that are still to be passed over. -/
def replaceScan (old new : List Char) : List Char → Nat → List Char
  | [], _ => []
  | _ :: cs, skip + 1 => replaceScan old new cs skip
  | c :: cs, 0 =>
    if old.isPrefixOf (c :: cs) then new ++ replaceScan old new cs (old.length - 1)
    else c :: replaceScan old new cs 0

/-- Go `strings.ReplaceAll(s, old, new)` for a non-empty `old`. -/
def ReplaceAll (s old new : String) : String :=
  String.mk (replaceScan old.toList new.toList s.toList 0)

/-- A value that `encoding/json` decodes into an `any`: nil, `bool`, `float64` (by its exact
value), `string`, `[]any` or `map[string]any` (a list of bindings with distinct keys). -/
inductive JSON where
  | null
  | bool (b : Bool)
  | number (v : ℚ)
  | string (s : String)
  | array (xs : List JSON)
  | object (kvs : List (String × JSON))

/-- The type assertion `v.(string)` on the result of a map lookup (`none` for a missing key,
whose value is nil). -/
def asString (v : Option JSON) : Option String :=
  match v with
  | some (JSON.string s) => some s
  | _ => none

/-- The lookup `m[k]` in a `map[string]any` that may be nil: `none` when the key is missing. -/
def mapIndex (m : Option (List (String × JSON))) (k : String) : Option JSON :=
  match m with
  | none => none
  | some kvs => kvs.lookup k

namespace proxy

/-! ## `internal/client/proxy/proxy.go` -/

/-- The loop of `NewListProvider`: the trimmed entries that are not empty. -/
def cleanList : List String → List String
  | [] => []
  | s :: rest =>
    let s := TrimSpace s
    if s = "" then cleanList rest else s :: cleanList rest

/-- Go `listProvider`; `idx` is a `uint64`.  The only constructor, `NewListProvider`, never makes
one with an empty list, which `nonempty` records. -/
structure listProvider where
  items : List String
  idx : Nat
  nonempty : 0 < items.length

/-- Go `NewListProvider`. -/
def NewListProvider (list : List String) : Except GoError listProvider :=
  if h : 0 < (cleanList list).length then Except.ok ⟨cleanList list, 0, h⟩
  else Except.error (errorf "proxy list is empty")

/-- Go `listProvider.Next`, on the value of `ctx.Err()`: the result and the provider afterwards.
`atomic.AddUint64(&p.idx, 1) - 1` is computed in `uint64`. -/
def listProvider.Next (p : listProvider) (ctxErr : Option GoError) :
    Except GoError String × listProvider :=
  match ctxErr with
  | some err => (Except.error err, p)
  | none =>
    let added := (p.idx + 1) % 2 ^ 64
    let i := (added + 2 ^ 64 - 1) % 2 ^ 64
    (Except.ok (p.items.get ⟨i % p.items.length, Nat.mod_lt _ p.nonempty⟩),
      ⟨p.items, added, p.nonempty⟩)

/-- The results of `count` successive calls of `Next`, the `j`-th of them on the context error
`ctx j`, and the provider after them. -/
def listProvider.calls (ctx : Nat → Option GoError) :
    Nat → listProvider → List (Except GoError String) × listProvider
  | 0, p => ([], p)
  | count + 1, p =>
    let (r, p1) := p.Next (ctx 0)
    let (rs, p2) := listProvider.calls (fun j => ctx (j + 1)) count p1
    (r :: rs, p2)

/-- Go `rotationProvider`: its configuration and the cache that `mu` guards.  `expires` is a
`time.Time`, as nanoseconds on the clock that `time.Now` reads. -/
structure rotationProvider where
  url : String
  ttl : Int
  cached : String
  expires : Int
deriving DecidableEq, Repr

/-- Go `NewRotationProvider`: nothing is cached. -/
def NewRotationProvider (rotationURL : String) (ttl : Int) : rotationProvider :=
  ⟨rotationURL, ttl, "", 0⟩

/-- What `p.client.Do(req)` and the reading of the body come to. -/
inductive Fetch where
  /-- Go `p.client.Do` returns an error -/
  | doFailed (err : GoError)
  /-- Go `io.ReadAll` returns an error -/
  | readFailed (err : GoError)
  /-- a response with this status code and body -/
  | response (StatusCode : Int) (body : String)
deriving DecidableEq, Repr

/-- What happens outside one call of `rotationProvider.Next`. -/
structure NextEnv where
  /-- Go `ctx.Err()` on entry -/
  ctxErr : Option GoError
  /-- Go `time.Now()` on entry -/
  now : Int
  /-- the outcome of the request to the rotation URL, if it is made -/
  fetch : Fetch
  /-- Go `time.Now()` when the fetched address is stored -/
  nowStored : Int
deriving DecidableEq, Repr

/-- The loop of `parseRotationBody` over the keys `proxy`, `url`, `data`. -/
def firstStringField (m : List (String × JSON)) : List String → String
  | [] => ""
  | k :: ks =>
    match asString (m.lookup k) with
    | some vs => vs
    | none => firstStringField m ks

/-- Go `parseRotationBody`; `unmarshal` is `json.Unmarshal` into an `any` (`none` for a body
that is not valid JSON). -/
def parseRotationBody (unmarshal : String → Option JSON) (b : String) : String :=
  let s := TrimSpace b
  if s = "" then ""
  else if HasPrefix s "\x7b" then
    match unmarshal s with
    | some (JSON.object m) => firstStringField m ["proxy", "url", "data"]
    | _ => ""
  else if HasPrefix s "[" then
    match unmarshal s with
    | some (JSON.array (JSON.string vs :: _)) => vs
    | _ => ""
  else s

/-- The results of `rotationProvider.Next`: what it returns, the provider afterwards, and
whether `p.client.Do` was invoked. -/
structure NextResult where
  out : Except GoError String
  provider : rotationProvider
  fetched : Bool

/-- Go `rotationProvider.Next`; `newRequest` gives the error, if any, of
`http.NewRequestWithContext(ctx, http.MethodGet, url, nil)` for a URL. -/
def rotationProvider.Next (unmarshal : String → Option JSON)
    (newRequest : String → Option GoError) (p : rotationProvider) (env : NextEnv) :
    NextResult :=
  match env.ctxErr with
  | some err => ⟨Except.error err, p, false⟩
  | none =>
    if p.cached ≠ "" ∧ env.now < p.expires then ⟨Except.ok p.cached, p, false⟩
    else
      match newRequest p.url with
      | some err => ⟨Except.error err, p, false⟩
      | none =>
        match env.fetch with
        | Fetch.doFailed err => ⟨Except.error err, p, true⟩
        | Fetch.readFailed err => ⟨Except.error err, p, true⟩
        | Fetch.response code b =>
          if code < 200 ∨ code ≥ 300 then
            ⟨Except.error (errorf ("rotation_url status=" ++ toString code ++ " body=" ++
              TrimSpace b)), p, true⟩
          else
            let proxyStr := TrimSpace (parseRotationBody unmarshal b)
            if proxyStr = "" then
              ⟨Except.error (errorf "rotation_url returned empty proxy"), p, true⟩
            else
              ⟨Except.ok proxyStr, ⟨p.url, p.ttl, proxyStr, env.nowStored + p.ttl⟩, true⟩

/-- Sequential calls of `Next`, one for each element of `envs`, each on the provider that the
call before it has left. -/
def rotationProvider.run (unmarshal : String → Option JSON)
    (newRequest : String → Option GoError) : rotationProvider → List NextEnv → List NextResult
  | _, [] => []
  | p, env :: envs =>
    (p.Next unmarshal newRequest env) ::
      rotationProvider.run unmarshal newRequest (p.Next unmarshal newRequest env).provider envs

end proxy

namespace transport

/-! ## `internal/client/transport/transport.go` -/

/-- What the retry decorator reads of an `*http.Response`. -/
structure Response where
  /-- Go `resp.StatusCode` -/
  StatusCode : Int
  /-- Go `resp.Header.Get("Retry-After")`, the empty string when the header is absent -/
  RetryAfter : String
deriving DecidableEq, Repr

/-- What the retry decorator reads of an `*http.Request`. -/
structure Request where
  /-- Go `req.Body != nil && req.Body != http.NoBody` -/
  hasBody : Bool
  /-- Go `req.GetBody != nil` -/
  hasGetBody : Bool
deriving DecidableEq, Repr

/-- The pair `(resp, err)` a `Transport.Do` returns. -/
structure Result where
  resp : Option Response
  err : Option GoError
deriving DecidableEq, Repr

/-- What happens outside `RetryTransport.Do` during one call of it, by attempt index. -/
structure Env where
  /-- Go `req.Context().Err()` at the start of the attempt -/
  ctxErr : Nat → Option GoError
  /-- the error of `req.GetBody()` in the attempt, if it is called and fails -/
  getBodyErr : Nat → Option GoError
  /-- what `r.Base.Do(curReq)` returns in the attempt -/
  base : Nat → Result
  /-- the context's error if the context ends during the sleep of the attempt -/
  sleepErr : Nat → Option GoError
  /-- the value of `rand.Float64()` drawn in the attempt, in `[0, 1)` -/
  rnd : Nat → ℚ

/-- An outside call made by `RetryTransport.Do`. -/
inductive Event where
  /-- Go `r.Base.Do` was invoked in the given attempt -/
  | call (attempt : Nat)
  /-- Go `sleepCtx` was invoked with the given duration -/
  | sleep (d : Int)
deriving DecidableEq, Repr

/-- The results of `RetryTransport.Do` with the trace of its outside calls. -/
structure DoResult where
  resp : Option Response
  err : Option GoError
  trace : List Event
deriving DecidableEq, Repr

/-- The same result, reached after the events `evs`. -/
def DoResult.after (evs : List Event) (r : DoResult) : DoResult :=
  ⟨r.resp, r.err, evs ++ r.trace⟩

/-- The number of invocations of the base transport in a trace. -/
def baseCalls (tr : List Event) : Nat :=
  (tr.filter (fun e => match e with | Event.call _ => true | Event.sleep _ => false)).length

/-- The durations passed to `sleepCtx` in a trace, in order. -/
def sleeps : List Event → List Int
  | [] => []
  | Event.call _ :: tr => sleeps tr
  | Event.sleep d :: tr => d :: sleeps tr

/-- The time that a trace asks `sleepCtx` to wait for, in nanoseconds: a call with `d <= 0`
returns at once. -/
def slept (tr : List Event) : Int := ((sleeps tr).map (fun d => max d 0)).sum

/-- Go `shouldRetryStatus`. -/
def shouldRetryStatus (code : Int) : Bool :=
  if code = 429 then true else decide (500 ≤ code ∧ code ≤ 599)

/-- Go `shouldRetryError`. -/
def shouldRetryError (err : Option GoError) : Bool :=
  match err with
  | none => false
  | some e => if e.isCanceled || e.isDeadlineExceeded then false else e.isNetError

/-- Go `backoff`, on the value `u` of `rand.Float64()`, a `float64` in `[0, 1)`: the sum
`0.5 + u`, the conversion `float64(d)` and the product are each rounded to `float64`, and the
product is converted to `int64`. -/
def backoff (base max : Int) (attempt : Nat) (u : ℚ) : Int :=
  let base := if base ≤ 0 then 300 * millisecond else base
  let max := if max ≤ 0 then 8 * second else max
  let d := shl64 base attempt
  let d := if d > max then max else d
  let j : ℚ := float64 (1 / 2 + u)
  float64ToInt64 (float64 (float64 (d : ℚ) * j))

/-- Go `retryAfterDelay`. -/
def retryAfterDelay (resp : Response) : Int :=
  let ra := resp.RetryAfter
  if ra = "" then 0 else
  match atoi ra with
  | none => 0
  | some sec =>
    if sec ≤ 0 then 0 else
    let sec := if sec > 60 then 60 else sec
    sec * second

/-- Go `sleepCtx`: no wait at all for `d <= 0`; otherwise the timer fires (`none`) unless the
context ends first (`interrupt`). -/
def sleepCtx (interrupt : Option GoError) (d : Int) : Option GoError :=
  if d ≤ 0 then none else interrupt

/-- Go `cloneForRetry`, reduced to its error. -/
def cloneForRetry (req : Request) (getBodyErr : Option GoError) : Option GoError :=
  if !req.hasBody then none
  else if !req.hasGetBody then some (errorf "cannot retry request with body: GetBody is nil")
  else match getBodyErr with
    | some e => some (wrapf "cannot retry request with body: GetBody failed: " e)
    | none => none

/-- The retry decorator. -/
structure RetryTransport where
  MaxRetries : Int
  BaseDelay : Int
  MaxDelay : Int
deriving DecidableEq, Repr

/-- How one pass through the body of the loop of `RetryTransport.Do` ends. -/
inductive Step where
  /-- the function returns `(resp, err)` (a `return`, or the `break` followed by
  `return nil, lastErr`) -/
  | done (resp : Option Response) (err : Option GoError) (trace : List Event)
  /-- the loop goes on to the next attempt (the `continue`, or the end of the body) with the
  given `lastErr` -/
  | again (lastErr : Option GoError) (trace : List Event)
deriving DecidableEq, Repr

/-- The outside calls made in one pass through the loop body. -/
def Step.trace : Step → List Event
  | Step.done _ _ tr => tr
  | Step.again _ tr => tr

/-- The end of the loop body of `RetryTransport.Do`, from `if attempt == r.MaxRetries` on. -/
def RetryTransport.backoffStep (r : RetryTransport) (env : Env) (attempt : Nat)
    (lastErr : Option GoError) : Step :=
  if (attempt : Int) = r.MaxRetries then Step.done none lastErr [Event.call attempt] else
  let d := backoff r.BaseDelay r.MaxDelay attempt (env.rnd attempt)
  match sleepCtx (env.sleepErr attempt) d with
  | some e => Step.done none (some e) [Event.call attempt, Event.sleep d]
  | none => Step.again lastErr [Event.call attempt, Event.sleep d]

/-- The body of the loop of `RetryTransport.Do` for one value of `attempt`. -/
def RetryTransport.attempt (r : RetryTransport) (env : Env) (req : Request) (attempt : Nat) :
    Step :=
  match env.ctxErr attempt with
  | some e => Step.done none (some e) []
  | none =>
  match cloneForRetry req (env.getBodyErr attempt) with
  | some e => Step.done none (some e) []
  | none =>
  match (env.base attempt).err, (env.base attempt).resp with
  | none, some resp =>
    if !shouldRetryStatus resp.StatusCode then Step.done (some resp) none [Event.call attempt]
    else
      let lastErr := some (errorf ("retryable status=" ++ toString resp.StatusCode))
      if resp.StatusCode = 429 ∧ (attempt : Int) < r.MaxRetries ∧ retryAfterDelay resp > 0 then
        let d := retryAfterDelay resp
        match sleepCtx (env.sleepErr attempt) d with
        | some e => Step.done none (some e) [Event.call attempt, Event.sleep d]
        | none => Step.again lastErr [Event.call attempt, Event.sleep d]
      else r.backoffStep env attempt lastErr
  | err, _ =>
    if err.isSome ∧ !shouldRetryError err then Step.done none err [Event.call attempt]
    else r.backoffStep env attempt err

/-- The loop of `RetryTransport.Do`: `remaining` is the number of values of `attempt`, from the
current one on, for which the loop condition `attempt <= r.MaxRetries` holds. -/
def RetryTransport.loop (r : RetryTransport) (env : Env) (req : Request) :
    Nat → Nat → Option GoError → DoResult
  | 0, _, lastErr => ⟨none, lastErr, []⟩
  | remaining + 1, attempt, _ =>
    match r.attempt env req attempt with
    | Step.done resp err tr => ⟨resp, err, tr⟩
    | Step.again lastErr tr => (r.loop env req remaining (attempt + 1) lastErr).after tr

/-- The value that the loop body assigns to `lastErr` for a result of the base that it does not
return: the `retryable status` error for a response, the error of the base otherwise. -/
def recordedErr (res : Result) : Option GoError :=
  match res.err, res.resp with
  | none, some resp => some (errorf ("retryable status=" ++ toString resp.StatusCode))
  | err, _ => err

/-- The specification's retryable outcome of an attempt: a response with a retryable status, or
an error that `shouldRetryError` accepts. -/
def retryableOutcome (res : Result) : Prop :=
  (∃ resp, res = ⟨some resp, none⟩ ∧ shouldRetryStatus resp.StatusCode = true) ∨
  (∃ e, res.err = some e ∧ shouldRetryError (some e) = true)

/-- Go `RetryTransport.Do`: the loop runs for `attempt = 0, ..., r.MaxRetries`. -/
def RetryTransport.Do (r : RetryTransport) (env : Env) (req : Request) : DoResult :=
  r.loop env req (r.MaxRetries + 1).toNat 0 none

/-! ### The transport chain and `Build` -/

/-- What `Build` reads of an `*http.Client`. -/
structure HTTPClient where
  /-- Go `Client.Timeout`, in nanoseconds -/
  Timeout : Int
deriving DecidableEq, Repr

/-- Go `Options` (the `Logger` field, which only receives log records, is left out). -/
structure Options where
  /-- Go `nil` is `none` -/
  HTTPClient : Option HTTPClient
  Retries : Int
  Concurrency : Int
  BaseDelay : Int
  MaxDelay : Int
deriving DecidableEq, Repr

/-- Go `semaphore`: the capacity of its channel `ch` and the number of elements buffered in it. -/
structure semaphore where
  cap : Nat
  len : Nat
deriving DecidableEq, Repr

/-- Go `newSemaphore`. -/
def newSemaphore (n : Int) : semaphore :=
  let n := if n ≤ 0 then 1 else n
  ⟨n.toNat, 0⟩

/-- The values of the interface `Transport` that `Build` makes: `HTTPTransport`, and the two
decorators around a `Base`. -/
inductive Transport where
  | HTTPTransport (Client : HTTPClient)
  | RetryTransport (Base : Transport) (cfg : RetryTransport)
  | ConcurrencyTransport (Base : Transport) (sem : semaphore)
deriving DecidableEq, Repr

/-- Whether a chain contains a `ConcurrencyTransport` decorator. -/
def Transport.hasConcurrency : Transport → Bool
  | Transport.HTTPTransport _ => false
  | Transport.RetryTransport base _ => base.hasConcurrency
  | Transport.ConcurrencyTransport _ _ => true

/-- Go `Options.validate`, with the client it has found to be non-nil. -/
def Options.validate (o : Options) : Except GoError transport.HTTPClient :=
  match o.HTTPClient with
  | none => Except.error (errorf "HTTPClient is nil")
  | some c =>
    if o.Concurrency < 0 then Except.error (errorf "Concurrency must be >= 0")
    else if o.Retries < 0 then Except.error (errorf "Retries must be >= 0")
    else Except.ok c

/-- Go `Build`. -/
def Build (opts : Options) : Except GoError Transport :=
  match opts.validate with
  | Except.error err => Except.error err
  | Except.ok client =>
    let baseDelay := if opts.BaseDelay ≤ 0 then 300 * millisecond else opts.BaseDelay
    let maxDelay := if opts.MaxDelay ≤ 0 then 8 * second else opts.MaxDelay
    let t := Transport.HTTPTransport client
    let t := if opts.Retries > 0 then Transport.RetryTransport t ⟨opts.Retries, baseDelay, maxDelay⟩
      else t
    let t := if opts.Concurrency > 0 then
        Transport.ConcurrencyTransport t (newSemaphore opts.Concurrency)
      else t
    Except.ok t

/-! ### `ConcurrencyTransport.Do` under interleaving

Each call of `ConcurrencyTransport.Do` passes through three points at which it interacts with
the other calls: the `select` in `acquire`, the return of `t.Base.Do(req)`, and the deferred
`release`.  A system of concurrent calls is the semaphore together with the position of every
call; one step moves one call past its next point, if the channel lets it. -/

/-- Where a call of `ConcurrencyTransport.Do` stands. -/
inductive Pos where
  /-- at the `select` of `t.sem.acquire` (or before it) -/
  | acquiring
  /-- Go `acquire` has returned nil and `t.Base.Do(req)` is executing -/
  | inner
  /-- Go `t.Base.Do(req)` has returned; the deferred `t.sem.release()` has not run yet -/
  | releasing
  /-- Go `Do` has returned after calling the base -/
  | returned
  /-- Go `Do` has returned the context's error without calling the base -/
  | cancelled
deriving DecidableEq, Repr

/-- A system of concurrent `ConcurrencyTransport.Do` calls on one transport. -/
structure Gate where
  sem : semaphore
  calls : List Pos
deriving DecidableEq, Repr

/-- A step of one call. -/
inductive Action where
  /-- the call `i` completes the send `s.ch <- struct{}{}` -/
  | send (i : Nat)
  /-- the call `i` takes the case `<-ctx.Done()` -/
  | ctxDone (i : Nat)
  /-- the base transport returns to the call `i` -/
  | baseReturns (i : Nat)
  /-- the call `i` completes the receive `<-s.ch` -/
  | receive (i : Nat)
deriving DecidableEq, Repr

/-- One step; `none` when the call is not at that point or the channel operation blocks (a
send on a full buffer, a receive from an empty one). -/
def Gate.step (g : Gate) : Action → Option Gate
  | Action.send i =>
    if g.calls.get? i = some Pos.acquiring ∧ g.sem.len < g.sem.cap then
      some ⟨⟨g.sem.cap, g.sem.len + 1⟩, g.calls.set i Pos.inner⟩
    else none
  | Action.ctxDone i =>
    if g.calls.get? i = some Pos.acquiring then some ⟨g.sem, g.calls.set i Pos.cancelled⟩
    else none
  | Action.baseReturns i =>
    if g.calls.get? i = some Pos.inner then some ⟨g.sem, g.calls.set i Pos.releasing⟩
    else none
  | Action.receive i =>
    if g.calls.get? i = some Pos.releasing ∧ 0 < g.sem.len then
      some ⟨⟨g.sem.cap, g.sem.len - 1⟩, g.calls.set i Pos.returned⟩
    else none

/-- A schedule: the steps are taken in order; `none` if one of them cannot be taken. -/
def Gate.run (g : Gate) : List Action → Option Gate
  | [] => some g
  | a :: as =>
    match g.step a with
    | none => none
    | some g1 => g1.run as

/-- The system of `n` calls, none of which has started, on the transport that `Build` makes for
`Concurrency = c`. -/
def Gate.init (c : Int) (n : Nat) : Gate := ⟨newSemaphore c, List.replicate n Pos.acquiring⟩

/-- The number of calls whose inner `Do` is executing. -/
def Gate.executing (g : Gate) : Nat := g.calls.count Pos.inner

/-- The slots taken in the channel are those of the calls between `acquire` and
`release`. -/
def Gate.consistent (g : Gate) : Prop :=
  g.calls.count Pos.inner + g.calls.count Pos.releasing = g.sem.len ∧ g.sem.len ≤ g.sem.cap

end transport

namespace usecases

/-! ## `internal/apis/kuper/responses`, `mapper` and `usecases/categoryproducts.go` -/

/-- Go `responses.Category` (the fields `Type` and `CategoryType`, which no code reads, are left
out). -/
inductive Category where
  | mk (ID ParentID : Int) (Name Slug : String) (ProductsCount : Int) (HasChildren : Bool)
      (Children : List Category)

/-- The field `ID`. -/
def Category.ID : Category → Int
  | Category.mk id _ _ _ _ _ _ => id

/-- The field `Slug`. -/
def Category.Slug : Category → String
  | Category.mk _ _ _ slug _ _ _ => slug

/-- The field `HasChildren`. -/
def Category.HasChildren : Category → Bool
  | Category.mk _ _ _ _ _ hc _ => hc

/-- The field `Children`. -/
def Category.Children : Category → List Category
  | Category.mk _ _ _ _ _ _ cs => cs

mutual
/-- Go `findPathByID`: `none` is the result `(nil, false)`. -/
def findPathByID : List Category → Int → Option (List Category)
  | [], _ => none
  | c :: rest, id =>
    match findPathFrom c id with
    | some path => some path
    | none => findPathByID rest id
/-- The body of the loop of `findPathByID` for the element `c`: `none` when the loop goes on
to the next element. -/
def findPathFrom : Category → Int → Option (List Category)
  | Category.mk cid pid name slug count hc children, id =>
    if cid = id then some [Category.mk cid pid name slug count hc children]
    else if children.length > 0 then
      match findPathByID children id with
      | some p => some (Category.mk cid pid name slug count hc children :: p)
      | none => none
    else none
end

mutual
/-- The specification's view of the tree: the paths from a root to every node of the forest, in
the depth-first pre-order of the nodes they end in. -/
def preorderPaths : List Category → List (List Category)
  | [] => []
  | c :: rest => pathsFrom c ++ preorderPaths rest
/-- The paths from the node `c` to every node of its subtree, `c` first. -/
def pathsFrom : Category → List (List Category)
  | Category.mk cid pid name slug count hc children =>
    [Category.mk cid pid name slug count hc children] ::
      (preorderPaths children).map (fun p => Category.mk cid pid name slug count hc children :: p)
end

/-- Whether a path ends in a node with the given ID. -/
def endsAt (id : Int) (path : List Category) : Bool :=
  match path.getLast? with
  | some c => c.ID == id
  | none => false

/-- The specification's matched node: the path to the first node, in depth-first pre-order,
with the given ID; `none` when no node of the forest has it. -/
def firstMatch (cats : List Category) (id : Int) : Option (List Category) :=
  (preorderPaths cats).find? (endsAt id)

/-- The closure `isDept` of `ResolveDepartmentAndLeafSlug`. -/
def isDept (c : Category) : Bool := c.HasChildren || decide (c.Children.length > 0)

/-- The last loop of `ResolveDepartmentAndLeafSlug`, over `path[len(path)-2]`, ..., `path[0]`
in this order: the slug of the first of them that is a department with a non-empty slug. -/
def scanUp : List Category → Option String
  | [] => none
  | c :: above => if isDept c ∧ c.Slug ≠ "" then some c.Slug else scanUp above

/-- Go `ResolveDepartmentAndLeafSlug`, on what `s.kuper.ListCategories(ctx, storeID)` returns. -/
def ResolveDepartmentAndLeafSlug (listCategories : Except GoError (List Category))
    (storeID categoryID : Int) : String × String × Option GoError :=
  if storeID ≤ 0 then ("", "", some (errorf "storeID must be > 0"))
  else if categoryID ≤ 0 then ("", "", some (errorf "categoryID must be > 0"))
  else
    match listCategories with
    | Except.error err => ("", "", some (wrapf "list categories: " err))
    | Except.ok cats =>
      match findPathByID cats categoryID with
      | none =>
        ("", "", some (errorf ("categoryID=" ++ toString categoryID ++ " not found for storeID=" ++
          toString storeID)))
      | some path =>
        match path.getLast? with
        | none =>
          ("", "", some (errorf ("categoryID=" ++ toString categoryID ++
            " not found for storeID=" ++ toString storeID)))
        | some target =>
          if target.Slug = "" then
            ("", "", some (errorf ("categoryID=" ++ toString categoryID ++ " found but slug empty")))
          else if isDept target then (target.Slug, "", none)
          else
            match scanUp path.dropLast.reverse with
            | some dept => (dept, target.Slug, none)
            | none => (target.Slug, "", none)

/-- Go `responses.Product`: the field `Raw`, a `map[string]any` that may be nil. -/
structure Product where
  Raw : Option (List (String × JSON))

/-- Go `models.Product`. -/
structure ModelsProduct where
  Name : String
  Price : String
  URL : String
deriving DecidableEq, Repr

/-- Go `mapper.normalizePrice`. -/
def normalizePrice (s : String) : String :=
  let s := TrimSpace s
  let s := ReplaceAll s "\u00A0" " "
  let s := ReplaceAll s "₽" ""
  let s := ReplaceAll s "руб." ""
  let s := ReplaceAll s "руб" ""
  let s := TrimSpace s
  let s := ReplaceAll s " " ""
  let s := ReplaceAll s "," "."
  s

/-- Go `mapper.asNumberString` on a decoded JSON value, where a number is a `float64`: an integral
value within `int64` is printed in decimal, any other by `sprintV`, which is
`fmt.Sprintf("%v", t)`. -/
def asNumberString (sprintV : ℚ → String) (v : Option JSON) : Option String :=
  match v with
  | some (JSON.number t) =>
    if t.den = 1 ∧ -(2 : Int) ^ 63 ≤ t.num ∧ t.num < 2 ^ 63 then some (toString t.num)
    else some (sprintV t)
  | some (JSON.string t) => if t ≠ "" then some t else none
  | _ => none

/-- A result `(v, ok)` of `asString` or `asNumberString` that passes `ok && v != ""`. -/
def nonEmpty (r : Option String) : Option String := r.filter (fun v => v ≠ "")

/-- Go `mapper.extractName`. -/
def extractName (p : Product) : String :=
  match nonEmpty (asString (mapIndex p.Raw "name")) with
  | some v => v
  | none =>
    match nonEmpty (asString (mapIndex p.Raw "title")) with
    | some v => v
    | none => ""

/-- The third case of `mapper.extractURL`, on the key `permalink`. -/
def extractPermalink (baseURL : String) (p : Product) : String :=
  match asString (mapIndex p.Raw "permalink") with
  | some v =>
    if v ≠ "" then
      if HasPrefix v "http" then v
      else if HasPrefix v "/" then baseURL ++ v
      else baseURL ++ "/" ++ v
    else ""
  | none => ""

/-- Go `mapper.extractURL`. -/
def extractURL (baseURL : String) (p : Product) : String :=
  match (asString (mapIndex p.Raw "canonical_url")).filter (fun v => HasPrefix v "http") with
  | some v => v
  | none =>
    match (asString (mapIndex p.Raw "url")).filter (fun v => HasPrefix v "http") with
    | some v => v
    | none => extractPermalink baseURL p

/-- The part of `mapper.extractPrice` on the key `offers`: the price found in the first
offer, if any. -/
def extractOfferPrice (sprintV : ℚ → String) (p : Product) : Option String :=
  match mapIndex p.Raw "offers" with
  | some (JSON.array (JSON.object m :: _)) =>
    match nonEmpty (asNumberString sprintV (m.lookup "price")) with
    | some v => some v
    | none =>
      match m.lookup "price" with
      | some (JSON.object pm) =>
        match nonEmpty (asNumberString sprintV (pm.lookup "amount")) with
        | some v => some v
        | none => nonEmpty (asNumberString sprintV (pm.lookup "value"))
      | _ => none
  | _ => none

/-- Go `mapper.extractPrice`. -/
def extractPrice (sprintV : ℚ → String) (p : Product) : String :=
  match nonEmpty (asString (mapIndex p.Raw "price")) with
  | some v => normalizePrice v
  | none =>
  match nonEmpty (asNumberString sprintV (mapIndex p.Raw "price")) with
  | some v => normalizePrice v
  | none =>
  match extractOfferPrice sprintV p with
  | some v => normalizePrice v
  | none =>
  match nonEmpty (asNumberString sprintV (mapIndex p.Raw "current_price")) with
  | some v => normalizePrice v
  | none =>
  match nonEmpty (asNumberString sprintV (mapIndex p.Raw "price_current")) with
  | some v => normalizePrice v
  | none => ""

/-- Go `mapper.FromProduct`. -/
def FromProduct (sprintV : ℚ → String) (baseURL : String) (p : Product) : ModelsProduct :=
  ⟨extractName p, extractPrice sprintV p, extractURL baseURL p⟩

/-- Go `CategoryProductsService`: the fields that `GetByDepartmentSlug` reads. -/
structure CategoryProductsService where
  baseURL : String
  perPage : Int
  offersLimit : Int
  maxPages : Int
deriving DecidableEq, Repr

/-- Go `NewCategoryProductsService`. -/
def NewCategoryProductsService (baseURL : String) (perPage offersLimit maxPages : Int) :
    CategoryProductsService :=
  let perPage := if perPage ≤ 0 then 5 else perPage
  let perPage := if perPage > 5 then 5 else perPage
  let offersLimit := if offersLimit ≤ 0 then 10 else offersLimit
  let maxPages := if maxPages ≤ 0 then 500 else maxPages
  ⟨baseURL, perPage, offersLimit, maxPages⟩

/-- What happens outside one call of `GetByDepartmentSlug`, by page. -/
structure FetchEnv where
  /-- Go `ctx.Err()` at the start of the iteration for the page -/
  ctxErr : Nat → Option GoError
  /-- Go `s.kuper.ListProducts(ctx, storeID, departmentSlug, page, perPage, offersLimit)` -/
  ListProducts : Int → String → Nat → Int → Int → Except GoError (List Product)

/-- The test of the leaf filter on one entry: `p.Raw` is not nil and holds a string equal to
`onlyChildSlug` under `_department_slug`. -/
def tagged (onlyChildSlug : String) (p : Product) : Bool :=
  match p.Raw with
  | none => false
  | some raw =>
    match asString (raw.lookup "_department_slug") with
    | some v => v == onlyChildSlug
    | none => false

/-- The filtering loop `for _, p := range raw` with `filtered := raw[:0]`, which shares the
array of `raw`: `arr` is that array, `i` the index the range has reached, `todo` the number of
elements it still has to visit and `w` the length of `filtered`.  An `append` stores into
`arr[w]`. -/
def filterLoop (onlyChildSlug : String) : Nat → Nat → Nat → List Product → List Product
  | 0, _, w, arr => arr.take w
  | todo + 1, i, w, arr =>
    match arr.get? i with
    | none => arr.take w
    | some p =>
      if tagged onlyChildSlug p then filterLoop onlyChildSlug todo (i + 1) (w + 1) (arr.set w p)
      else filterLoop onlyChildSlug todo (i + 1) w arr

/-- The leaf filter of `GetByDepartmentSlug`: the value of `raw` after the block
`if onlyChildSlug != "" { ... }`. -/
def leafFilter (onlyChildSlug : String) (raw : List Product) : List Product :=
  if onlyChildSlug ≠ "" then filterLoop onlyChildSlug raw.length 0 0 raw else raw

/-- The normalization loop of `GetByDepartmentSlug` over the entries of one page, from the
products `out` accumulated so far (`total` is their number); the error is that of the ceiling
on `total`. -/
def appendPage (sprintV : ℚ → String) (baseURL : String) :
    List Product → List ModelsProduct → Nat → Except GoError (List ModelsProduct × Nat)
  | [], out, total => Except.ok (out, total)
  | p :: rest, out, total =>
    let dp := FromProduct sprintV baseURL p
    if dp.Name = "" ∧ dp.URL = "" ∧ dp.Price = "" then appendPage sprintV baseURL rest out total
    else if total + 1 > 200000 then
      Except.error (errorf "too many products parsed: possible infinite pagination")
    else appendPage sprintV baseURL rest (out ++ [dp]) (total + 1)

/-- The results of `GetByDepartmentSlug`, with the pages for which it called `ListProducts`,
in the order of the calls. -/
structure GetResult where
  products : Option (List ModelsProduct)
  err : Option GoError
  pages : List Nat
deriving DecidableEq, Repr

/-- The same result, reached after a call for `page`. -/
def GetResult.afterPage (page : Nat) (r : GetResult) : GetResult :=
  ⟨r.products, r.err, page :: r.pages⟩

/-- The page loop of `GetByDepartmentSlug`: `remaining` is the number of values of `page`,
from the current one on, for which `page <= s.maxPages` holds. -/
def pageLoop (sprintV : ℚ → String) (s : CategoryProductsService) (env : FetchEnv)
    (storeID : Int) (departmentSlug onlyChildSlug : String) :
    Nat → Nat → List ModelsProduct → Nat → GetResult
  | 0, _, out, _ => ⟨some out, none, []⟩
  | remaining + 1, page, out, total =>
    match env.ctxErr page with
    | some err => ⟨none, some err, []⟩
    | none =>
      GetResult.afterPage page <|
      match env.ListProducts storeID departmentSlug page s.perPage s.offersLimit with
      | Except.error err =>
        ⟨none, some (wrapf ("list products slug=" ++ departmentSlug ++ " page=" ++
          toString page ++ ": ") err), []⟩
      | Except.ok raw =>
        let rawLen := raw.length
        if rawLen = 0 then ⟨some out, none, []⟩
        else
          match appendPage sprintV s.baseURL (leafFilter onlyChildSlug raw) out total with
          | Except.error err => ⟨none, some err, []⟩
          | Except.ok (out, total) =>
            if (rawLen : Int) < s.perPage then ⟨some out, none, []⟩
            else pageLoop sprintV s env storeID departmentSlug onlyChildSlug remaining (page + 1)
              out total

/-- Go `GetByDepartmentSlug`: the loop runs for `page = 1, ..., s.maxPages`. -/
def GetByDepartmentSlug (sprintV : ℚ → String) (s : CategoryProductsService) (env : FetchEnv)
    (storeID : Int) (departmentSlug onlyChildSlug : String) : GetResult :=
  if storeID ≤ 0 then ⟨none, some (errorf "storeID must be > 0"), []⟩
  else if departmentSlug = "" then ⟨none, some (errorf "departmentSlug must not be empty"), []⟩
  else pageLoop sprintV s env storeID departmentSlug onlyChildSlug s.maxPages.toNat 1 [] 0

end usecases

namespace usecases

/-- The specification's last page: a fetched page that is empty or whose raw length is smaller
than the requested page size. -/
def shortPage (s : CategoryProductsService) (raw : List Product) : Prop :=
  raw.length = 0 ∨ (raw.length : Int) < s.perPage

end usecases

/-! # Inputs of the examples -/

namespace transport

/-- A base transport that always answers 429 with `Retry-After: 60`, under a context that never
ends. -/
def alwaysRetryAfter60 : Env :=
  ⟨fun _ => none, fun _ => none, fun _ => ⟨some ⟨429, "60"⟩, none⟩, fun _ => none, fun _ => 0⟩

/-- A base transport that answers 429 with `Retry-After: 2` on even attempts and 503 on odd
ones, under a context that never ends. -/
def alwaysRetryable : Env :=
  ⟨fun _ => none, fun _ => none,
    fun i => if i % 2 = 0 then ⟨some ⟨429, "2"⟩, none⟩ else ⟨some ⟨503, ""⟩, none⟩,
    fun _ => none, fun _ => 0⟩

end transport

namespace proxy

/-- The provider that `NewListProvider` makes from the addresses `a`, `b`, `c`. -/
def abc : listProvider := ⟨["a", "b", "c"], 0, by decide⟩

end proxy

namespace proxy

/-- A rotation provider with a time-to-live of ten seconds and nothing cached. -/
def rot : rotationProvider := NewRotationProvider "http://rotation.test/next" (10 * second)

/-- The provider `rot` after it has fetched `10.0.0.7:3128` and stored it at clock reading
`105`. -/
def rotFetched : rotationProvider :=
  ⟨"http://rotation.test/next", 10 * second, "10.0.0.7:3128", 105 + 10 * second⟩

/-- A call at clock reading `clock` whose request, if made, is answered `200` with the body
`address`, the result being stored at `clock + 5`. -/
def callAt (clock : Int) (address : String) : NextEnv :=
  ⟨none, clock, Fetch.response 200 address, clock + 5⟩

end proxy

namespace usecases

/-- A raw entry with the given name, tagged with the department slug `tag`. -/
def entry (name tag : String) : Product :=
  ⟨some [("name", JSON.string name), ("_department_slug", JSON.string tag)]⟩

/-- A raw entry with the given name and no tag. -/
def untagged (name : String) : Product := ⟨some [("name", JSON.string name)]⟩

/-- A raw entry whose tag is a number, not a string. -/
def numberTagged (name : String) : Product :=
  ⟨some [("name", JSON.string name), ("_department_slug", JSON.number 7)]⟩

/-- A raw entry whose `Raw` map is nil. -/
def nilEntry : Product := ⟨none⟩

end usecases

namespace usecases

/-- A leaf category with ID 5. -/
def bread : Category := Category.mk 5 3 "Bread" "bread" 12 false []

/-- A branch without a slug, parent of `bread`. -/
def unnamedShelf : Category := Category.mk 3 2 "Shelf" "" 12 false [bread]

/-- The department `bakery`; its `has_children` flag is set. -/
def bakery : Category :=
  Category.mk 2 0 "Bakery" "bakery" 15 true [Category.mk 4 2 "Buns" "" 3 false [], unnamedShelf]

/-- A category forest with the department `bakery` as its second root. -/
def forest : List Category := [Category.mk 1 0 "Dairy" "dairy" 0 false [], bakery]

end usecases

namespace usecases

/-- The service that `NewCategoryProductsService` makes for a page size of 5 and at most
`maxPages` pages. -/
def service (maxPages : Int) : CategoryProductsService :=
  NewCategoryProductsService "https://kuper.ru" 5 10 maxPages

/-- An upstream that answers page `i + 1` with `sizes[i]` entries named `x` and every page past
the list with none, under a context that is not cancelled. -/
def upstream (sizes : List Nat) : FetchEnv :=
  ⟨fun _ => none, fun _ _ page _ _ =>
    Except.ok (List.replicate (sizes.getD (page - 1) 0) (untagged "x"))⟩

/-- An upstream that answers every page with 200001 entries named `x`, under a context that is
not cancelled. -/
def hugeUpstream : FetchEnv :=
  ⟨fun _ => none, fun _ _ _ _ _ => Except.ok (List.replicate 200001 (untagged "x"))⟩

end usecases

namespace transport

/-- A base transport that answers 503 on attempt 0 and 404 afterwards, under a context that
never ends. -/
def thenNotFound : Env :=
  ⟨fun _ => none, fun _ => none,
    fun i => if i = 0 then ⟨some ⟨503, ""⟩, none⟩ else ⟨some ⟨404, ""⟩, none⟩,
    fun _ => none, fun _ => 0⟩

end transport

/-- Go `strings.Contains`. -/
def Contains (s sub : String) : Bool := s.toList.tails.any (fun t => sub.toList.isPrefixOf t)

namespace proxy

/-- Go `FromProvider` for a non-nil provider (for a nil one it returns no function): the
function it builds, on the result `next` of `p.Next(ctx)`; `parse` is `url.Parse`, into a type
`U` of URLs.  The result is the pair `(*url.URL, error)`. -/
def FromProvider {U : Type} (parse : String → Except GoError U) (failOpen : Bool)
    (next : Except GoError String) : Option U × Option GoError :=
  match next with
  | Except.error err => if failOpen then (none, none) else (none, some err)
  | Except.ok raw =>
    let raw := TrimSpace raw
    if raw = "" then
      if failOpen then (none, none) else (none, some (errorf "empty proxy string"))
    else
      let raw := if !Contains raw "://" then "http://" ++ raw else raw
      match parse raw with
      | Except.error err => if failOpen then (none, none) else (none, some err)
      | Except.ok u => (some u, none)

/-- The string that `FromProvider` hands to `url.Parse` for a provider result `raw`: the
trimmed address, with `http://` in front when it contains no `://`. -/
def proxyAddress (raw : String) : String :=
  if Contains (TrimSpace raw) "://" then TrimSpace raw else "http://" ++ TrimSpace raw

/-- A stand-in for `url.Parse` in the examples: strings with a blank in them are rejected,
every other string is its own URL. -/
def parseNoBlank (s : String) : Except GoError String :=
  if Contains s " " then Except.error (errorf "invalid character in host name") else Except.ok s

end proxy

namespace usecases

/-- A leaf category with ID 7. -/
def tea : Category := Category.mk 7 6 "Tea" "tea" 4 false []

/-- A forest whose only root has children but no slug. -/
def unnamedForest : List Category := [Category.mk 6 0 "Drinks" "" 4 true [tea]]

end usecases

namespace proxy

/-- A stand-in for `json.Unmarshal` in the examples: it decodes one object and one array, and
rejects every other body. -/
def decodeTwo (s : String) : Option JSON :=
  if s = "\x7b\"proxy\": 1, \"url\": \"10.0.0.8:3128\"\x7d" then
    some (JSON.object [("proxy", JSON.number 1), ("url", JSON.string "10.0.0.8:3128")])
  else if s = "[\"10.0.0.9:3128\"]" then some (JSON.array [JSON.string "10.0.0.9:3128"])
  else none

end proxy

namespace usecases

/-- The specification's empty product: no name, no URL and no price. -/
def entirelyEmpty (dp : ModelsProduct) : Bool :=
  decide (dp.Name = "" ∧ dp.URL = "" ∧ dp.Price = "")

/-- The specification's filtered page: with a leaf filter, the entries tagged with it; without
one, every entry. -/
def passing (onlyChildSlug : String) (raw : List Product) : List Product :=
  if onlyChildSlug = "" then raw else raw.filter (tagged onlyChildSlug)

/-- The specification's contribution of one page: `mapper.FromProduct` applied to the entries
that pass the leaf filter, without the results that are entirely empty. -/
def normalizedPage (sprintV : ℚ → String) (baseURL onlyChildSlug : String)
    (raw : List Product) : List ModelsProduct :=
  ((passing onlyChildSlug raw).map (FromProduct sprintV baseURL)).filter
    (fun dp => !entirelyEmpty dp)

/-- The raw entries that `ListProducts` returns for a page (none if the call fails). -/
def rawAt (s : CategoryProductsService) (env : FetchEnv) (storeID : Int)
    (departmentSlug : String) (page : Nat) : List Product :=
  match env.ListProducts storeID departmentSlug page s.perPage s.offersLimit with
  | Except.ok raw => raw
  | Except.error _ => []

end usecases

namespace usecases

/-- An entry tagged `apples` that carries no name, no URL and no price. -/
def bareApple : Product := ⟨some [("_department_slug", JSON.string "apples")]⟩

/-- An upstream with a first page of five entries and a second, short page of two, under a
context that is not cancelled. -/
def produceUpstream : FetchEnv :=
  ⟨fun _ => none, fun _ _ page _ _ =>
    Except.ok (
      if page = 1 then
        [entry "Gala" "apples", entry "Pear" "pears", bareApple, entry "Fuji" "apples",
          untagged "Kiwi"]
      else if page = 2 then [entry "Golden" "apples", entry "Plum" "plums"]
      else [])⟩

end usecases

namespace endpoints

/-! ## `internal/apis/kuper/endpoints/products.go` -/

open usecases

/-- The assignment `m[k] = v` in a `map[string]any`. -/
def mapSet (m : List (String × JSON)) (k : String) (v : JSON) : List (String × JSON) :=
  if (m.lookup k).isSome then m.map (fun kv => if kv.1 = k then (k, v) else kv)
  else m ++ [(k, v)]

/-- Go `toProducts`. -/
def toProducts : List JSON → String → List Product
  | [], _ => []
  | JSON.object m :: rest, depSlug =>
    (if depSlug ≠ "" then ⟨some (mapSet m "_department_slug" (JSON.string depSlug))⟩
      else ⟨some m⟩) :: toProducts rest depSlug
  | _ :: rest, depSlug => toProducts rest depSlug

/-- Go `pickString`. -/
def pickString (m : List (String × JSON)) : List String → String
  | [] => ""
  | k :: keys =>
    match m.lookup k with
    | some (JSON.string s) => if s ≠ "" then s else pickString m keys
    | _ => pickString m keys

/-- The loop of `ListProducts` over the elements of `departments`: the products of the
departments that are objects with a non-empty array under `products`, tagged with the slug of
their department. -/
def departmentProducts : List JSON → List Product
  | [] => []
  | JSON.object dep :: rest =>
    match dep.lookup "products" with
    | some (JSON.array prods) =>
      if prods.length = 0 then departmentProducts rest
      else
        toProducts prods (pickString dep ["slug", "department_slug", "category_slug"]) ++
          departmentProducts rest
    | _ => departmentProducts rest
  | _ :: rest => departmentProducts rest

/-- The part of `ListProducts` after the shape `departments`. -/
def flatShapes (sprintV : JSON → String) (raw : Option (List (String × JSON))) :
    Except GoError (List Product) :=
  match mapIndex raw "deals" with
  | some (JSON.array (d :: ds)) => Except.ok (toProducts (d :: ds) "")
  | _ =>
  match mapIndex raw "products" with
  | some (JSON.array arr) => Except.ok (toProducts arr "")
  | _ =>
  match mapIndex raw "items" with
  | some (JSON.array arr) => Except.ok (toProducts arr "")
  | _ =>
  match
    (match mapIndex raw "data" with
    | some (JSON.object data) =>
      (match data.lookup "products" with
      | some (JSON.array arr) => some arr
      | _ => none)
    | _ => none) with
  | some arr => Except.ok (toProducts arr "")
  | none =>
  match mapIndex raw "code" with
  | some code =>
    Except.error (errorf ("ListProducts: api error code=" ++ sprintV code ++ " message=" ++
      (asString (mapIndex raw "message")).getD ""))
  | none => Except.ok []

/-- Go `ListProducts`, from the decoded body on: `raw` is the `map[string]any` into which
`json.Unmarshal` has decoded the body of a response with status 200 (nil for the body `null`);
`sprintV` is `fmt.Sprintf("%v", code)`. -/
def ListProducts (sprintV : JSON → String) (raw : Option (List (String × JSON))) :
    Except GoError (List Product) :=
  match mapIndex raw "departments" with
  | some (JSON.array deps) =>
    if (departmentProducts deps).length > 0 then Except.ok (departmentProducts deps)
    else flatShapes sprintV raw
  | _ => flatShapes sprintV raw

/-- The body `{"products": [], "items": [{"name": "x"}]}`, decoded. -/
def emptyProductsThenItems : Option (List (String × JSON)) :=
  some [("products", JSON.array []), ("items", JSON.array [JSON.object [("name", JSON.string "x")]])]

/-- The body `{"deals": [], "items": [{"name": "x"}]}`, decoded. -/
def emptyDealsThenItems : Option (List (String × JSON)) :=
  some [("deals", JSON.array []), ("items", JSON.array [JSON.object [("name", JSON.string "x")]])]

/-- The body `{"departments": [{"slug": "tea", "products": []}], "items": [{"name": "x"}]}`,
decoded. -/
def emptyDepartmentThenItems : Option (List (String × JSON)) :=
  some [("departments", JSON.array [JSON.object [("slug", JSON.string "tea"),
      ("products", JSON.array [])]]),
    ("items", JSON.array [JSON.object [("name", JSON.string "x")]])]

end endpoints

namespace transport

/-- A base transport that always fails with an error that is neither a context error nor a
`net.Error`, under a context that never ends. -/
def alwaysPlainError : Env :=
  ⟨fun _ => none, fun _ => none, fun _ => ⟨none, some (errorf "malformed HTTP response")⟩,
    fun _ => none, fun _ => 0⟩

/-- A base transport that always fails with a `net.Error` (a connection that is refused), under
a context that never ends. -/
def alwaysNetError : Env :=
  ⟨fun _ => none, fun _ => none,
    fun _ => ⟨none, some ⟨"dial tcp: connection refused", false, false, true⟩⟩,
    fun _ => none, fun _ => 0⟩

end transport

namespace transport

/-- A base transport that answers 503 on attempt 0 and then fails with an error that wraps
`context.DeadlineExceeded`, under a context that is not observed to end at the start of an
attempt or during a sleep. -/
def thenDeadline : Env :=
  ⟨fun _ => none, fun _ => none,
    fun i => if i = 0 then ⟨some ⟨503, ""⟩, none⟩
      else ⟨none, some (wrapf "Get \"https://kuper.ru/api\": " ctxDeadlineExceeded)⟩,
    fun _ => none, fun _ => 0⟩

/-- A base transport that always answers 503, under a context that is cancelled from attempt
`n` on. -/
def cancelledFrom (n : Nat) : Env :=
  ⟨fun i => if n ≤ i then some ctxCanceled else none, fun _ => none,
    fun _ => ⟨some ⟨503, ""⟩, none⟩, fun _ => none, fun _ => 0⟩

end transport

namespace transport

/-- A base transport that always answers 200, under a context that never ends. -/
def alwaysOK : Env :=
  ⟨fun _ => none, fun _ => none, fun _ => ⟨some ⟨200, ""⟩, none⟩, fun _ => none, fun _ => 0⟩

end transport

namespace transport

/-! ### `ConcurrencyTransport.Do`, one call

The call is followed through `acquire`, the base call and the deferred `release`, for a
semaphore that no other call touches meanwhile. -/

/-- A channel operation or an outside call made by a `ConcurrencyTransport.Do` call. -/
inductive GateEvent where
  /-- the send `s.ch <- struct{}{}` completed -/
  | send
  /-- Go `t.Base.Do(req)` was invoked -/
  | call
  /-- the receive `<-s.ch` completed -/
  | receive
deriving DecidableEq, Repr

/-- Go `semaphore.acquire`.  `ctxErr` is the error of the context if the context is done at the
`select` or ends while the call waits there, `preferDone` is the choice of the `select` when
both of its cases are ready.  The result is the semaphore after the call and the error
returned; `none` when no case is ever ready: the buffer is full and the context does not
end. -/
def semaphore.acquire (s : semaphore) (ctxErr : Option GoError) (preferDone : Bool) :
    Option (semaphore × Option GoError) :=
  match ctxErr with
  | none => if s.len < s.cap then some (⟨s.cap, s.len + 1⟩, none) else none
  | some e =>
    if s.len < s.cap ∧ preferDone = false then some (⟨s.cap, s.len + 1⟩, none)
    else some (s, some e)

/-- Go `semaphore.release`: `none` when the receive blocks, on an empty buffer. -/
def semaphore.release (s : semaphore) : Option semaphore :=
  if 0 < s.len then some ⟨s.cap, s.len - 1⟩ else none

/-- What a `ConcurrencyTransport.Do` call leaves: the returned pair, the semaphore, and the
channel operations and base calls it made, in order. -/
structure GateResult where
  res : Result
  sem : semaphore
  trace : List GateEvent
deriving DecidableEq, Repr

/-- Go `ConcurrencyTransport.Do` on the semaphore `sem`; `base` is what `t.Base.Do(req)`
returns if it is called.  The deferred `release` runs after the base call has returned,
whatever it returned. -/
def ConcurrencyTransport.Do (sem : semaphore) (ctxErr : Option GoError) (preferDone : Bool)
    (base : Result) : Option GateResult :=
  match sem.acquire ctxErr preferDone with
  | none => none
  | some (s1, some err) => some ⟨⟨none, some err⟩, s1, []⟩
  | some (s1, none) =>
    match s1.release with
    | none => none
    | some s2 => some ⟨base, s2, [GateEvent.send, GateEvent.call, GateEvent.receive]⟩

end transport

namespace usecases

mutual
/-- The specification's nodes of a forest, in depth-first pre-order: every root followed by the
nodes below it, the roots in their order. -/
def allNodes : List Category → List Category
  | [] => []
  | c :: rest => nodesOf c ++ allNodes rest
/-- The node `c` and then the nodes below it. -/
def nodesOf : Category → List Category
  | Category.mk cid pid name slug count hc children =>
    Category.mk cid pid name slug count hc children :: allNodes children
end

end usecases

namespace transport

/-- The events of the passes of the loop for the attempts before `a`, in order. -/
def RetryTransport.before (r : RetryTransport) (env : Env) (req : Request) : Nat → List Event
  | 0 => []
  | a + 1 => r.before env req a ++ (r.attempt env req a).trace

end transport

namespace transport

/-- A base transport that always answers 503, under a context that never ends, with the largest
value of `rand.Float64()`, `1 - 2^-53`, drawn in every attempt. -/
def unavailableTopJitter : Env :=
  ⟨fun _ => none, fun _ => none, fun _ => ⟨some ⟨503, ""⟩, none⟩, fun _ => none,
    fun _ => 1 - 1 / 2 ^ 53⟩

end transport

namespace usecases

/-- An upstream whose first page holds entries tagged `a` and `b`, an entry without a tag, one
with a number as tag and one with a nil map, and whose second page is empty, under a context
that is not cancelled. -/
def tagsUpstream : FetchEnv :=
  ⟨fun _ => none, fun _ _ page _ _ =>
    Except.ok (
      if page = 1 then
        [entry "1" "a", entry "2" "b", untagged "3", numberTagged "4", nilEntry, entry "5" "b",
          entry "6" "a"]
      else [])⟩

end usecases

/-! # Theorems -/

namespace transport

theorem baseCalls_append (a b : List Event) : baseCalls (a ++ b) = baseCalls a + baseCalls b := by
  simp [baseCalls, List.filter_append]

theorem backoffStep_baseCalls (r : RetryTransport) (env : Env) (attempt : Nat)
    (lastErr : Option GoError) :
    baseCalls (r.backoffStep env attempt lastErr).trace = 1 := by
  unfold RetryTransport.backoffStep
  split
  · rfl
  · simp only; split <;> rfl

/-- The end of the loop body before the last attempt, under a context that does not end during
the sleep: it sleeps the backoff delay and goes on with the recorded error. -/
theorem backoffStep_sleeps (r : RetryTransport) (env : Env) (attempt : Nat)
    (lastErr : Option GoError) (hsleep : env.sleepErr attempt = none)
    (hne : (attempt : Int) ≠ r.MaxRetries) :
    r.backoffStep env attempt lastErr = Step.again lastErr [Event.call attempt,
      Event.sleep (backoff r.BaseDelay r.MaxDelay attempt (env.rnd attempt))] := by
  unfold RetryTransport.backoffStep
  rw [if_neg hne]
  simp only [sleepCtx, hsleep, ite_self]

/-- The end of the loop body before the last attempt, when the context ends during the sleep:
it returns the context's error, unless the delay is not positive. -/
theorem backoffStep_interrupted (r : RetryTransport) (env : Env) (attempt : Nat)
    (lastErr : Option GoError) (e : GoError) (hsleep : env.sleepErr attempt = some e)
    (hne : (attempt : Int) ≠ r.MaxRetries)
    (hpos : 0 < backoff r.BaseDelay r.MaxDelay attempt (env.rnd attempt)) :
    r.backoffStep env attempt lastErr = Step.done none (some e) [Event.call attempt,
      Event.sleep (backoff r.BaseDelay r.MaxDelay attempt (env.rnd attempt))] := by
  unfold RetryTransport.backoffStep
  rw [if_neg hne]
  simp only [sleepCtx, hsleep, if_neg (not_le.mpr hpos)]

theorem backoffStep_again (r : RetryTransport) (env : Env) (attempt : Nat)
    (lastErr le : Option GoError) (tr : List Event)
    (h : r.backoffStep env attempt lastErr = Step.again le tr) :
    baseCalls tr = 1 ∧ (attempt : Int) ≠ r.MaxRetries ∧ le = lastErr := by
  unfold RetryTransport.backoffStep at h
  split at h
  · cases h
  · rename_i hne
    simp only at h
    split at h
    · cases h
    · cases h; exact ⟨rfl, hne, rfl⟩

/-- One pass through the loop body invokes the base at most once. -/
theorem attempt_baseCalls_le (r : RetryTransport) (env : Env) (req : Request) (attempt : Nat) :
    baseCalls (r.attempt env req attempt).trace ≤ 1 := by
  unfold RetryTransport.attempt
  split
  · simp [Step.trace, baseCalls]
  · split
    · simp [Step.trace, baseCalls]
    · split
      · split
        · simp [Step.trace, baseCalls]
        · simp only
          split
          · split <;> simp [Step.trace, baseCalls]
          · exact le_of_eq (backoffStep_baseCalls _ _ _ _)
      · split
        · simp [Step.trace, baseCalls]
        · exact le_of_eq (backoffStep_baseCalls _ _ _ _)

/-- A pass that goes on to a further attempt has invoked the base exactly once, and
`attempt` is not yet `MaxRetries`. -/
theorem attempt_again (r : RetryTransport) (env : Env) (req : Request) (attempt : Nat)
    (le : Option GoError) (tr : List Event)
    (h : r.attempt env req attempt = Step.again le tr) :
    baseCalls tr = 1 ∧ (attempt : Int) ≠ r.MaxRetries := by
  unfold RetryTransport.attempt at h
  split at h
  · cases h
  · split at h
    · cases h
    · split at h
      · split at h
        · cases h
        · simp only at h
          split at h
          · rename_i h429
            split at h
            · cases h
            · cases h; exact ⟨rfl, by omega⟩
          · have h1 := backoffStep_again _ _ _ _ _ _ h
            exact ⟨h1.1, h1.2.1⟩
      · split at h
        · cases h
        · have h1 := backoffStep_again _ _ _ _ _ _ h
          exact ⟨h1.1, h1.2.1⟩

theorem loop_baseCalls_le (r : RetryTransport) (env : Env) (req : Request) :
    ∀ (remaining attempt : Nat) (lastErr : Option GoError),
      baseCalls (r.loop env req remaining attempt lastErr).trace ≤ remaining := by
  intro remaining
  induction remaining with
  | zero => intro attempt lastErr; simp [RetryTransport.loop, baseCalls]
  | succ n ih =>
    intro attempt lastErr
    unfold RetryTransport.loop
    have h1 := attempt_baseCalls_le r env req attempt
    cases h : r.attempt env req attempt with
    | done resp err tr =>
      rw [h] at h1; simp only [Step.trace] at h1 ⊢; omega
    | again le tr =>
      have h2 := (attempt_again r env req attempt le tr h).1
      simp only [DoResult.after, baseCalls_append]
      have := ih (attempt + 1) le
      omega


/-- With a context that never ends, a request without a body and a base that returns a
retryable status, a pass through the loop body invokes the base once and goes on to the next
attempt unless `attempt = MaxRetries`. -/
theorem attempt_retryable (r : RetryTransport) (env : Env) (req : Request) (attempt : Nat)
    (hbody : req.hasBody = false) (hctx : env.ctxErr attempt = none)
    (hsleep : env.sleepErr attempt = none)
    (hbase : ∃ resp, env.base attempt = ⟨some resp, none⟩ ∧ shouldRetryStatus resp.StatusCode = true)
    (hne : (attempt : Int) ≠ r.MaxRetries) :
    ∃ le tr, r.attempt env req attempt = Step.again le tr := by
  obtain ⟨resp, hb, hs⟩ := hbase
  unfold RetryTransport.attempt
  simp only [hctx, cloneForRetry, hbody, hb, hs, RetryTransport.backoffStep, sleepCtx, hsleep, hne]
  simp
  split <;> simp

/-- Under the same conditions the pass invokes the base exactly once. -/
theorem attempt_retryable_calls (r : RetryTransport) (env : Env) (req : Request) (attempt : Nat)
    (hbody : req.hasBody = false) (hctx : env.ctxErr attempt = none)
    (hbase : ∃ resp, env.base attempt = ⟨some resp, none⟩ ∧ shouldRetryStatus resp.StatusCode = true) :
    baseCalls (r.attempt env req attempt).trace = 1 := by
  obtain ⟨resp, hb, hs⟩ := hbase
  unfold RetryTransport.attempt
  have hcl : cloneForRetry req (env.getBodyErr attempt) = none := by simp [cloneForRetry, hbody]
  simp only [hctx, hcl, hb, hs, Bool.not_true, Bool.false_eq_true, if_false]
  split
  · split <;> rfl
  · exact backoffStep_baseCalls _ _ _ _

theorem loop_baseCalls_eq (r : RetryTransport) (env : Env) (req : Request)
    (hbody : req.hasBody = false) (hctx : ∀ i, env.ctxErr i = none)
    (hsleep : ∀ i, env.sleepErr i = none)
    (hbase : ∀ i, ∃ resp, env.base i = ⟨some resp, none⟩ ∧
      shouldRetryStatus resp.StatusCode = true) :
    ∀ (remaining attempt : Nat) (lastErr : Option GoError),
      (attempt : Int) + remaining = r.MaxRetries + 1 →
      baseCalls (r.loop env req remaining attempt lastErr).trace = remaining := by
  intro remaining
  induction remaining with
  | zero => intro attempt lastErr _; simp [RetryTransport.loop, baseCalls]
  | succ n ih =>
    intro attempt lastErr hsum
    unfold RetryTransport.loop
    cases h : r.attempt env req attempt with
    | done resp err tr =>
      simp only
      by_cases hne : (attempt : Int) = r.MaxRetries
      · have hn : n = 0 := by omega
        subst hn
        have h1 := attempt_retryable_calls r env req attempt hbody (hctx _) (hbase _)
        rw [h] at h1
        simpa [Step.trace] using h1
      · obtain ⟨le, tr2, h2⟩ := attempt_retryable r env req attempt hbody (hctx _) (hsleep _)
          (hbase _) hne
        rw [h] at h2; cases h2
    | again le tr =>
      have h2 := attempt_again r env req attempt le tr h
      simp only [DoResult.after, baseCalls_append]
      have := ih (attempt + 1) le (by push_cast; omega)
      omega


/-- C1: for `MaxRetries = R >= 0`, a request without a body and a context that never ends
(neither at the start of an attempt nor during a sleep), `RetryTransport.Do` invokes the base
transport at most `R + 1` times whatever the base returns, and exactly `R + 1` times when the
base always returns a response with a retryable status, whatever its `Retry-After` header. -/
theorem retry_invokes_base_at_most_R_plus_one (r : RetryTransport) (env : Env) (req : Request)
    (hR : 0 ≤ r.MaxRetries) (hbody : req.hasBody = false)
    (hctx : ∀ i, env.ctxErr i = none ∧ env.sleepErr i = none) :
    (baseCalls (r.Do env req).trace : Int) ≤ r.MaxRetries + 1 ∧
    ((∀ i, ∃ resp, env.base i = ⟨some resp, none⟩ ∧ shouldRetryStatus resp.StatusCode = true) →
      (baseCalls (r.Do env req).trace : Int) = r.MaxRetries + 1) := by
  have hfuel : (((r.MaxRetries + 1).toNat : Nat) : Int) = r.MaxRetries + 1 :=
    Int.toNat_of_nonneg (by omega)
  constructor
  · have := loop_baseCalls_le r env req (r.MaxRetries + 1).toNat 0 none
    unfold RetryTransport.Do
    omega
  · intro hbase
    have := loop_baseCalls_eq r env req hbody (fun i => (hctx i).1) (fun i => (hctx i).2) hbase
      (r.MaxRetries + 1).toNat 0 none (by omega)
    unfold RetryTransport.Do
    omega

/-- C1 at `R = 3` with a base that alternates 429 (`Retry-After: 2`) and 503: four base
calls. -/
theorem retry_invokes_base_at_most_R_plus_one_witness :
    baseCalls ((RetryTransport.Do ⟨3, 0, 0⟩ alwaysRetryable ⟨false, false⟩).trace) = 4 ∧
    (baseCalls ((RetryTransport.Do ⟨3, 0, 0⟩ alwaysRetryable ⟨false, false⟩).trace) : Int)
      ≤ 3 + 1 := by
  have h := retry_invokes_base_at_most_R_plus_one ⟨3, 0, 0⟩ alwaysRetryable ⟨false, false⟩
    (by decide) rfl (fun _ => ⟨rfl, rfl⟩)
  refine ⟨?_, h.1⟩
  have h2 := h.2 (fun i => by
    by_cases hi : i % 2 = 0
    · exact ⟨⟨429, "2"⟩, by simp [alwaysRetryable, hi], by decide⟩
    · exact ⟨⟨503, ""⟩, by simp [alwaysRetryable, hi], by decide⟩)
  have h3 : ((RetryTransport.mk 3 0 0).MaxRetries : Int) = 3 := rfl
  rw [h3] at h2
  omega

end transport

namespace transport

/-- C10, as amended: for an `Options` value with a non-nil HTTP client and `Retries >= 0`,
`Build` with `Concurrency = 0` succeeds and returns a chain without a `ConcurrencyTransport`
decorator (no limit), while with `Concurrency < 0` it fails with the error of `validate` and
returns no chain. -/
theorem build_zero_concurrency_no_limit (opts : Options) (client : HTTPClient)
    (hclient : opts.HTTPClient = some client) (hretries : 0 ≤ opts.Retries) :
    (opts.Concurrency = 0 →
      ∃ t, Build opts = Except.ok t ∧ t.hasConcurrency = false) ∧
    (opts.Concurrency < 0 →
      Build opts = Except.error (errorf "Concurrency must be >= 0")) := by
  constructor
  · intro hc
    have hv : opts.validate = Except.ok client := by
      simp [Options.validate, hclient, hc]; omega
    unfold Build
    rw [hv]
    refine ⟨_, rfl, ?_⟩
    simp only [hc, gt_iff_lt, lt_self_iff_false, if_false]
    split <;> rfl
  · intro hc
    have hv : opts.validate = Except.error (errorf "Concurrency must be >= 0") := by
      simp [Options.validate, hclient, hc]
    unfold Build
    rw [hv]

/-- C10, as amended, at `Concurrency = 0` with three retries: the chain is the retry decorator
around the HTTP transport. -/
theorem build_zero_concurrency_no_limit_witness :
    Build ⟨some ⟨0⟩, 3, 0, 0, 0⟩ =
      Except.ok (Transport.RetryTransport (Transport.HTTPTransport ⟨0⟩)
        ⟨3, 300 * millisecond, 8 * second⟩) ∧
    ∃ t, Build ⟨some ⟨0⟩, 3, 0, 0, 0⟩ = Except.ok t ∧ t.hasConcurrency = false :=
  ⟨rfl, (build_zero_concurrency_no_limit ⟨some ⟨0⟩, 3, 0, 0, 0⟩ ⟨0⟩ rfl (by decide)).1 rfl⟩

/-- C10 fails as stated: with a non-nil client, `Retries = 0` and `Concurrency = -1` (a ceiling
of "zero or less"), `Build` does not succeed. -/
theorem build_negative_concurrency_fails :
    (Options.mk (some ⟨0⟩) 0 (-1) 0 0).HTTPClient ≠ none ∧
    0 ≤ (Options.mk (some ⟨0⟩) 0 (-1) 0 0).Retries ∧
    (Options.mk (some ⟨0⟩) 0 (-1) 0 0).Concurrency ≤ 0 ∧
    ¬ ∃ t, Build (Options.mk (some ⟨0⟩) 0 (-1) 0 0) = Except.ok t := by
  refine ⟨by decide, by decide, by decide, ?_⟩
  rintro ⟨t, ht⟩
  have h : Build (Options.mk (some ⟨0⟩) 0 (-1) 0 0) =
      Except.error (errorf "Concurrency must be >= 0") := rfl
  rw [h] at ht
  cases ht

end transport

namespace proxy

/-- The address that `Next` returns when the counter stands at `idx`. -/
theorem next_ok (p : listProvider) :
    p.Next none =
      (Except.ok (p.items.getD (p.idx % 2 ^ 64 % p.items.length) ""),
        ⟨p.items, (p.idx + 1) % 2 ^ 64, p.nonempty⟩) := by
  have hi : ((p.idx + 1) % 2 ^ 64 + 2 ^ 64 - 1) % 2 ^ 64 = p.idx % 2 ^ 64 := by omega
  simp only [listProvider.Next, hi, List.get_eq_getElem]
  rw [List.getD_eq_getElem _ _ (Nat.mod_lt _ p.nonempty)]

/-- The results of `count` successive calls under a context that never ends. -/
theorem calls_results (count : Nat) :
    ∀ p : listProvider, (p.calls (fun _ => none) count).1 =
      (List.range count).map (fun j =>
        Except.ok (p.items.getD ((p.idx + j) % 2 ^ 64 % p.items.length) "")) := by
  induction count with
  | zero => intro p; rfl
  | succ n ih =>
    intro p
    rw [listProvider.calls, next_ok]
    simp only [ih, List.range_succ_eq_map, List.map_cons, List.map_map]
    congr 1
    apply List.map_congr_left
    intro j _
    simp only [Function.comp]
    congr 3
    omega


theorem cleanList_of_nonblank (list : List String) (h : ∀ s ∈ list, TrimSpace s ≠ "") :
    cleanList list = list.map TrimSpace := by
  induction list with
  | nil => rfl
  | cons s rest ih =>
    have hs : TrimSpace s ≠ "" := h s (List.mem_cons_self _ _)
    have hrest := ih (fun t ht => h t (List.mem_cons_of_mem _ ht))
    simp [cleanList, hs, hrest]

theorem newListProvider_ok (list : List String) (p : listProvider)
    (h : NewListProvider list = Except.ok p) : p.items = cleanList list ∧ p.idx = 0 := by
  unfold NewListProvider at h
  split at h
  · cases h; exact ⟨rfl, rfl⟩
  · cases h

/-- The result of the call number `k` (from 0) of a fresh provider. -/
theorem calls_getElem (p : listProvider) (hidx : p.idx = 0) (k : Nat) :
    (p.calls (fun _ => none) (k + 1)).1[k]? =
      some (Except.ok (p.items.getD (k % 2 ^ 64 % p.items.length) "")) := by
  rw [calls_results, List.getElem?_map, List.getElem?_range (Nat.lt_succ_self k), hidx]
  simp only [Option.map_some', Nat.zero_add]

/-- C7, as amended: for a list provider built from a list of `N` non-blank addresses and a
context that is not cancelled, the provider holds the trimmed addresses in list order, the call
number `k` of `Next` (counted from 0) returns the address at index `k mod N` for every
`k < 2^64`, and the `N` consecutive calls that start at a multiple `m * N` of `N`, as long as
they end within the first `2^64` calls, return the addresses of the list one after another in
list order (each position exactly once), block after block. -/
theorem list_provider_round_robin (list : List String) (p : listProvider)
    (hnonblank : ∀ s ∈ list, TrimSpace s ≠ "")
    (hnew : NewListProvider list = Except.ok p) :
    p.items = list.map TrimSpace ∧
    (∀ k, k < 2 ^ 64 →
      (p.calls (fun _ => none) (k + 1)).1[k]? =
        (p.items[k % list.length]?).map Except.ok ∧ k % list.length < p.items.length) ∧
    (∀ m, (m + 1) * list.length ≤ 2 ^ 64 →
      (p.calls (fun _ => none) ((m + 1) * list.length)).1.drop (m * list.length) =
        p.items.map Except.ok) := by
  obtain ⟨hitems, hidx⟩ := newListProvider_ok list p hnew
  rw [cleanList_of_nonblank list hnonblank] at hitems
  have hlen : p.items.length = list.length := by rw [hitems, List.length_map]
  have hpos : 0 < list.length := by rw [← hlen]; exact p.nonempty
  refine ⟨hitems, ?_, ?_⟩
  · intro k hk
    have hlt : k % list.length < p.items.length := by rw [hlen]; exact Nat.mod_lt _ hpos
    refine ⟨?_, hlt⟩
    rw [calls_getElem p hidx k, Nat.mod_eq_of_lt hk, hlen, List.getElem?_eq_getElem hlt,
      List.getD_eq_getElem _ _ hlt]
    rfl
  · intro m hm
    rw [calls_results, hidx]
    apply List.ext_getElem?
    intro j
    rw [List.getElem?_drop, List.getElem?_map, List.getElem?_map]
    by_cases hj : j < list.length
    · have h1 : m * list.length + j < (m + 1) * list.length := by
        rw [Nat.add_mul, Nat.one_mul]; omega
      have hjl : j < p.items.length := by rw [hlen]; exact hj
      rw [List.getElem?_range h1, List.getElem?_eq_getElem hjl]
      simp only [Option.map_some', Nat.zero_add]
      have h2 : (m * list.length + j) % 2 ^ 64 = m * list.length + j :=
        Nat.mod_eq_of_lt (by omega)
      have h3 : (m * list.length + j) % list.length = j := by
        rw [Nat.mul_add_mod_of_lt hj]
      rw [h2, hlen, h3, List.getD_eq_getElem _ _ hjl]
    · have h1 : ¬ m * list.length + j < (m + 1) * list.length := by
        rw [Nat.add_mul, Nat.one_mul]; omega
      have hjl : ¬ j < p.items.length := by rw [hlen]; exact hj
      rw [List.getElem?_eq_none (by simpa using h1), List.getElem?_eq_none (by omega)]
      rfl


/-- C7, as amended, on the list `a`, ` b `, `c`: call number 4 returns `b`, and the calls
3, 4, 5 return `a`, `b`, `c`. -/
theorem list_provider_round_robin_witness :
    NewListProvider ["a", " b ", "c"] = Except.ok abc ∧
    (abc.calls (fun _ => none) (4 + 1)).1[4]? = some (Except.ok "b") ∧
    (abc.calls (fun _ => none) ((1 + 1) * 3)).1.drop (1 * 3) =
      [Except.ok "a", Except.ok "b", Except.ok "c"] := by
  have h := list_provider_round_robin ["a", " b ", "c"] abc (by decide) rfl
  exact ⟨rfl, (h.2.1 4 (by norm_num)).1, h.2.2 1 (by norm_num)⟩

/-- C7 fails as stated: on the list `a`, `b`, `c` the call number `k = 2^64`, at which the
`uint64` counter has wrapped to 0, returns `a`, while the address at index `k mod 3 = 1` is
`b`. -/
theorem list_provider_counter_wraps :
    NewListProvider ["a", "b", "c"] = Except.ok abc ∧
    (abc.calls (fun _ => none) (2 ^ 64 + 1)).1[2 ^ 64]? = some (Except.ok "a") ∧
    abc.items[2 ^ 64 % 3]? = some "b" ∧
    (abc.calls (fun _ => none) (2 ^ 64 + 1)).1[2 ^ 64]? ≠
      (abc.items[2 ^ 64 % 3]?).map Except.ok := by
  have h1 : (abc.calls (fun _ => none) (2 ^ 64 + 1)).1[2 ^ 64]? = some (Except.ok "a") := by
    rw [calls_getElem abc rfl (2 ^ 64), Nat.mod_self]
    rfl
  have h2 : abc.items[2 ^ 64 % 3]? = some "b" := by
    have h : 2 ^ 64 % 3 = 1 := by norm_num
    rw [h]; rfl
  refine ⟨rfl, h1, h2, ?_⟩
  rw [h1, h2]
  simp

end proxy

namespace proxy

/-- A call of `Next` that has fetched and returned an address has stored it, with the expiry
one time-to-live after the clock reading of the store. -/
theorem next_fetched_ok (unmarshal : String → Option JSON) (newRequest : String → Option GoError)
    (p p1 : rotationProvider) (env : NextEnv) (a : String)
    (h : p.Next unmarshal newRequest env = ⟨Except.ok a, p1, true⟩) :
    a ≠ "" ∧ newRequest p.url = none ∧ p1 = ⟨p.url, p.ttl, a, env.nowStored + p.ttl⟩ := by
  unfold rotationProvider.Next at h
  split at h
  · cases h
  · split at h
    · cases h
    · split at h
      · cases h
      · rename_i hreq
        split at h
        · cases h
        · cases h
        · split at h
          · cases h
          · simp only at h
            split at h
            · cases h
            · rename_i hne
              injection h with h1 h2 h3
              injection h1 with h1
              subst h1
              exact ⟨hne, hreq, h2.symm⟩

/-- A call before the expiry, with a context that is not cancelled, returns the cached address
without a fetch and leaves the provider as it is. -/
theorem next_cached (unmarshal : String → Option JSON) (newRequest : String → Option GoError)
    (p : rotationProvider) (env : NextEnv) (hc : p.cached ≠ "") (hctx : env.ctxErr = none)
    (hnow : env.now < p.expires) :
    p.Next unmarshal newRequest env = ⟨Except.ok p.cached, p, false⟩ := by
  unfold rotationProvider.Next
  rw [hctx]
  simp only [hc, hnow, ne_eq, not_false_eq_true, and_self, if_true]

/-- A call at or after the expiry, with a context that is not cancelled and a URL from which a
request can be made, invokes the client. -/
theorem next_expired (unmarshal : String → Option JSON) (newRequest : String → Option GoError)
    (p : rotationProvider) (env : NextEnv) (hctx : env.ctxErr = none)
    (hreq : newRequest p.url = none) (hnow : p.expires ≤ env.now) :
    (p.Next unmarshal newRequest env).fetched = true := by
  unfold rotationProvider.Next
  rw [hctx]
  have : ¬ (p.cached ≠ "" ∧ env.now < p.expires) := fun h => absurd h.2 (not_lt.mpr hnow)
  simp only [this, if_false, hreq]
  split
  · rfl
  · rfl
  · split
    · rfl
    · split <;> rfl

/-- Sequential calls before the expiry all return the cached address without a fetch. -/
theorem run_cached (unmarshal : String → Option JSON) (newRequest : String → Option GoError)
    (p : rotationProvider) (hc : p.cached ≠ "") :
    ∀ envs : List NextEnv, (∀ e ∈ envs, e.ctxErr = none ∧ e.now < p.expires) →
      ∀ r ∈ p.run unmarshal newRequest envs,
        r.out = Except.ok p.cached ∧ r.fetched = false ∧ r.provider = p := by
  intro envs
  induction envs with
  | nil => intro _ r hr; simp [rotationProvider.run] at hr
  | cons e es ih =>
    intro h r hr
    have he := h e (List.mem_cons_self _ _)
    have hn := next_cached unmarshal newRequest p e hc he.1 he.2
    rw [rotationProvider.run, hn] at hr
    rcases List.mem_cons.mp hr with hr | hr
    · subst hr; exact ⟨rfl, rfl, rfl⟩
    · exact ih (fun e1 h1 => h e1 (List.mem_cons_of_mem _ h1)) r hr

/-- C8: for a rotation provider with time-to-live `t > 0`, over an explicit clock and the
`(cached, expires)` state: after a `Next` call that fetched address `a`, the state holds `a`
with the expiry `t` after the clock reading of the store (so a call at that very reading is
within the window); every call of a sequence of later calls, each made with a live context at
a time before the stored expiry, returns `a`, performs no upstream fetch and leaves the state
as it is, so calls within the window cause no fetch beyond the first; and a call made with a
live context at or after the expiry performs a new upstream fetch. -/
theorem rotation_cache_within_ttl (unmarshal : String → Option JSON)
    (newRequest : String → Option GoError) (p p1 : rotationProvider) (env0 : NextEnv)
    (a : String) (httl : 0 < p.ttl)
    (hfirst : p.Next unmarshal newRequest env0 = ⟨Except.ok a, p1, true⟩) :
    (p1.cached = a ∧ p1.expires = env0.nowStored + p.ttl ∧ env0.nowStored < p1.expires) ∧
    (∀ envs : List NextEnv, (∀ e ∈ envs, e.ctxErr = none ∧ e.now < p1.expires) →
      ∀ r ∈ p1.run unmarshal newRequest envs,
        r.out = Except.ok a ∧ r.fetched = false ∧ r.provider = p1) ∧
    (∀ e : NextEnv, e.ctxErr = none → p1.expires ≤ e.now →
      (p1.Next unmarshal newRequest e).fetched = true) := by
  obtain ⟨hne, hreq, hp1⟩ := next_fetched_ok unmarshal newRequest p p1 env0 a hfirst
  subst hp1
  refine ⟨⟨rfl, rfl, ?_⟩, ?_, ?_⟩
  · show env0.nowStored < env0.nowStored + p.ttl
    omega
  · exact run_cached unmarshal newRequest _ hne
  · intro e hctx hnow
    exact next_expired unmarshal newRequest _ e hctx hreq hnow


/-- C8 on a provider with a time-to-live of ten seconds: the call at clock reading 100 fetches
`10.0.0.7:3128`; the calls at 200 and at 105 + 10 s - 1 return it without a fetch; the call at
105 + 10 s fetches again. -/
theorem rotation_cache_within_ttl_witness :
    rot.Next (fun _ => none) (fun _ => none) (callAt 100 " 10.0.0.7:3128\n") =
      ⟨Except.ok "10.0.0.7:3128", rotFetched, true⟩ ∧
    (∀ r ∈ rotFetched.run (fun _ => none) (fun _ => none)
        [callAt 200 "10.0.0.8:3128", callAt (105 + 10 * second - 1) "10.0.0.9:3128"],
      r.out = Except.ok "10.0.0.7:3128" ∧ r.fetched = false ∧ r.provider = rotFetched) ∧
    (rotFetched.Next (fun _ => none) (fun _ => none)
      (callAt (105 + 10 * second) "10.0.0.8:3128")).fetched = true := by
  have h := rotation_cache_within_ttl (fun _ => none) (fun _ => none) rot rotFetched
    (callAt 100 " 10.0.0.7:3128\n") "10.0.0.7:3128" (by decide) rfl
  refine ⟨rfl, h.2.1 _ ?_, h.2.2 _ rfl (by decide)⟩
  intro e he
  simp only [List.mem_cons, List.mem_singleton, List.not_mem_nil, or_false] at he
  rcases he with he | he <;> subst he <;> exact ⟨rfl, by decide⟩

end proxy

namespace usecases

theorem filterLoop_eq (f : String) (orig : List Product) :
    ∀ (todo i w : Nat) (arr : List Product),
      arr.length = orig.length → i + todo = orig.length → w ≤ i →
      arr.take w = (orig.take i).filter (tagged f) → arr.drop i = orig.drop i →
      filterLoop f todo i w arr = orig.filter (tagged f) := by
  intro todo
  induction todo with
  | zero =>
    intro i w arr hlen hi hw htake hdrop
    have : i = orig.length := by omega
    subst this
    simp only [filterLoop, htake, List.take_length]
  | succ n ih =>
    intro i w arr hlen hi hw htake hdrop
    have hio : i < orig.length := by omega
    have hia : i < arr.length := by omega
    have hget : arr[i] = orig[i] := by
      have h1 := congrArg (fun l => l[0]?) hdrop
      simp only [List.getElem?_drop, Nat.add_zero] at h1
      rw [List.getElem?_eq_getElem hia, List.getElem?_eq_getElem hio] at h1
      exact Option.some.inj h1
    have hdrop1 : arr.drop (i + 1) = orig.drop (i + 1) := by
      have := congrArg (List.drop 1) hdrop
      simpa [List.drop_drop, Nat.add_comm] using this
    have htk : orig.take (i + 1) = orig.take i ++ [orig[i]] := by
      rw [List.take_succ, List.getElem?_eq_getElem hio]; rfl
    unfold filterLoop
    rw [List.get?_eq_getElem?, List.getElem?_eq_getElem hia]
    simp only [hget]
    split
    · rename_i hk
      apply ih (i + 1) (w + 1) (arr.set w orig[i])
      · simpa using hlen
      · omega
      · omega
      · rw [htk, List.filter_append, ← htake]
        simp only [List.filter_cons, hk, if_true, List.filter_nil]
        have hwa : w < arr.length := by omega
        have h1 : (arr.set w orig[i]).take w = arr.take w := by
          rw [List.set_take]
          exact List.set_eq_of_length_le (by simp)
        have h2 : (arr.set w orig[i])[w]? = some orig[i] := by
          simp [List.getElem?_set, hwa]
        rw [List.take_succ, h1, h2]; rfl
      · rw [List.drop_set_of_lt _ _ (by omega)]; exact hdrop1
    · rename_i hk
      apply ih (i + 1) w arr hlen (by omega) (by omega) _ hdrop1
      rw [htk, List.filter_append, ← htake]
      simp [List.filter_cons, hk]

/-- The in-place filtering loop computes the sub-list of the tagged entries. -/
theorem leafFilter_eq_filter (f : String) (raw : List Product) (hf : f ≠ "") :
    leafFilter f raw = raw.filter (tagged f) := by
  unfold leafFilter
  rw [if_pos hf]
  exact filterLoop_eq f raw raw.length 0 0 raw rfl (by omega) (Nat.le_refl 0) rfl rfl

/-- The test `tagged` holds of the entries whose `Raw` map is not nil and holds a string
equal to the filter under `_department_slug`. -/
theorem tagged_iff (f : String) (p : Product) :
    tagged f p = true ↔
      ∃ m, p.Raw = some m ∧ m.lookup "_department_slug" = some (JSON.string f) := by
  unfold tagged
  constructor
  · intro h
    split at h
    · cases h
    · rename_i m hm
      refine ⟨m, hm, ?_⟩
      cases hl : List.lookup "_department_slug" m with
      | none => rw [hl] at h; simp [asString] at h
      | some v =>
        rw [hl] at h
        cases v <;> simp [asString] at h
        rw [h]
  · rintro ⟨m, hm, hl⟩
    simp [hm, hl, asString]


end usecases

namespace usecases

theorem endsAt_cons (id : Int) (c : Category) (p : List Category) (h : c.ID ≠ id) :
    endsAt id (c :: p) = endsAt id p := by
  cases p with
  | nil => simp [endsAt, h]
  | cons d q => simp [endsAt, List.getLast?_cons_cons]

mutual
/-- Go `findPathByID` returns the path to the first node with the ID in depth-first pre-order. -/
theorem findPathByID_eq_firstMatch : ∀ (cats : List Category) (id : Int),
    findPathByID cats id = firstMatch cats id
  | [], _ => rfl
  | c :: rest, id => by
    rw [findPathByID, firstMatch, preorderPaths, List.find?_append,
      ← findPathFrom_eq c id, ← firstMatch, ← findPathByID_eq_firstMatch rest id]
    cases findPathFrom c id <;> rfl
/-- The same for the subtree of one node. -/
theorem findPathFrom_eq : ∀ (c : Category) (id : Int),
    findPathFrom c id = (pathsFrom c).find? (endsAt id)
  | Category.mk cid pid name slug count hc children, id => by
    rw [findPathFrom, pathsFrom, List.find?_cons]
    by_cases h : cid = id
    · simp [h, endsAt, Category.ID]
    · have h1 : endsAt id [Category.mk cid pid name slug count hc children] = false := by
        simp [endsAt, Category.ID, h]
      rw [if_neg h, h1]
      simp only [List.find?_map]
      have h2 : (endsAt id ∘ fun p => Category.mk cid pid name slug count hc children :: p) =
          endsAt id := by
        funext p
        exact endsAt_cons id _ p h
      rw [h2, ← firstMatch, ← findPathByID_eq_firstMatch children id]
      cases children with
      | nil => simp [findPathByID]
      | cons d ds =>
        simp only [List.length_cons, gt_iff_lt, Nat.zero_lt_succ, if_true]
        cases findPathByID (d :: ds) id <;> rfl
end


mutual
/-- On a path of the forest every node but the last has children, and the path is not
empty. -/
theorem preorderPaths_inner : ∀ (cats : List Category) (path : List Category),
    path ∈ preorderPaths cats → path ≠ [] ∧ ∀ c ∈ path.dropLast, c.Children ≠ []
  | [], path, h => by simp [preorderPaths] at h
  | c :: rest, path, h => by
    rw [preorderPaths, List.mem_append] at h
    rcases h with h | h
    · exact pathsFrom_inner c path h
    · exact preorderPaths_inner rest path h
/-- The same for the subtree of one node. -/
theorem pathsFrom_inner : ∀ (c : Category) (path : List Category),
    path ∈ pathsFrom c → path ≠ [] ∧ ∀ d ∈ path.dropLast, d.Children ≠ []
  | Category.mk cid pid name slug count hc children, path, h => by
    rw [pathsFrom, List.mem_cons, List.mem_map] at h
    rcases h with h | ⟨p, hp, h⟩
    · subst h; simp
    · subst h
      have ih := preorderPaths_inner children p hp
      refine ⟨by simp, ?_⟩
      intro d hd
      obtain ⟨x, q, hq⟩ := List.exists_cons_of_ne_nil ih.1
      subst hq
      rw [List.dropLast_cons₂, List.mem_cons] at hd
      rcases hd with hd | hd
      · subst hd
        intro hnil
        simp only [Category.Children] at hnil
        subst hnil
        simp [preorderPaths] at hp
      · exact ih.2 d hd
end

/-- Over nodes that all have children, the upward scan finds the first non-empty slug. -/
theorem scanUp_eq (l : List Category) (h : ∀ c ∈ l, c.Children ≠ []) :
    scanUp l = (l.find? (fun a => decide (a.Slug ≠ ""))).map Category.Slug := by
  induction l with
  | nil => rfl
  | cons c rest ih =>
    have hc : isDept c = true := by
      have := h c (List.mem_cons_self _ _)
      simp [isDept, List.length_pos, this]
    have hrest := ih (fun d hd => h d (List.mem_cons_of_mem _ hd))
    rw [scanUp, List.find?_cons]
    by_cases hs : c.Slug = ""
    · simp [hs, hrest]
    · simp [hs, hc]

/-- The matched node and the nodes above it, from what `findPathByID` returns. -/
theorem firstMatch_path (cats : List Category) (id : Int) (ancestors : List Category)
    (target : Category) (h : firstMatch cats id = some (ancestors ++ [target])) :
    findPathByID cats id = some (ancestors ++ [target]) ∧
    (∀ c ∈ ancestors, c.Children ≠ []) ∧ target.ID = id := by
  refine ⟨by rw [findPathByID_eq_firstMatch, h], ?_, ?_⟩
  · have hmem := List.mem_of_find?_eq_some h
    have := (preorderPaths_inner cats _ hmem).2
    simpa using this
  · have := List.find?_some h
    simpa [endsAt] using this


/-- What `ResolveDepartmentAndLeafSlug` returns when the tree has a node with the ID. -/
theorem resolve_matched (cats : List Category) (storeID categoryID : Int)
    (ancestors : List Category) (target : Category) (hstore : 0 < storeID)
    (hcat : 0 < categoryID) (h : firstMatch cats categoryID = some (ancestors ++ [target])) :
    ResolveDepartmentAndLeafSlug (Except.ok cats) storeID categoryID =
      if target.Slug = "" then
        ("", "", some (errorf ("categoryID=" ++ toString categoryID ++ " found but slug empty")))
      else if isDept target then (target.Slug, "", none)
      else
        match (ancestors.reverse.find? (fun a => decide (a.Slug ≠ ""))).map Category.Slug with
        | some dept => (dept, target.Slug, none)
        | none => (target.Slug, "", none) := by
  obtain ⟨hfind, hanc, _⟩ := firstMatch_path cats categoryID ancestors target h
  unfold ResolveDepartmentAndLeafSlug
  rw [if_neg (by omega), if_neg (by omega)]
  simp only [hfind, List.getLast?_concat, List.dropLast_concat]
  rw [scanUp_eq _ (fun c hc => hanc c (List.mem_reverse.mp hc))]

/-- What it returns when the tree has no node with the ID. -/
theorem resolve_unmatched (cats : List Category) (storeID categoryID : Int)
    (hstore : 0 < storeID) (hcat : 0 < categoryID) (h : firstMatch cats categoryID = none) :
    ResolveDepartmentAndLeafSlug (Except.ok cats) storeID categoryID =
      ("", "", some (errorf ("categoryID=" ++ toString categoryID ++ " not found for storeID=" ++
        toString storeID))) := by
  unfold ResolveDepartmentAndLeafSlug
  rw [if_neg (by omega), if_neg (by omega)]
  simp only [findPathByID_eq_firstMatch, h]

/-- C3: for positive store and category IDs and a category tree (as returned by
`ListCategories`) in which the first node with `ID = categoryID` in depth-first pre-order is a
leaf (`HasChildren` false and no children) with a non-empty slug, and `dept` is the nearest
node above it on its path with a non-empty slug, scanning from the leaf's parent upward,
`ResolveDepartmentAndLeafSlug` returns the slug of `dept`, the slug of the leaf and no
error. -/
theorem resolve_leaf_under_department (cats : List Category) (storeID categoryID : Int)
    (ancestors : List Category) (leaf dept : Category)
    (hstore : 0 < storeID) (hcat : 0 < categoryID)
    (hmatch : firstMatch cats categoryID = some (ancestors ++ [leaf]))
    (hleaf : leaf.HasChildren = false ∧ leaf.Children = [])
    (hslug : leaf.Slug ≠ "")
    (hdept : ancestors.reverse.find? (fun a => decide (a.Slug ≠ "")) = some dept) :
    ResolveDepartmentAndLeafSlug (Except.ok cats) storeID categoryID =
      (dept.Slug, leaf.Slug, none) := by
  rw [resolve_matched cats storeID categoryID ancestors leaf hstore hcat hmatch, if_neg hslug]
  have hnd : isDept leaf = false := by simp [isDept, hleaf.1, hleaf.2]
  simp only [hnd, hdept, Bool.false_eq_true, if_false, Option.map_some']

/-- C4: for positive store and category IDs and a category tree in which the matched node for
`categoryID` is a department (`HasChildren` is true or its `Children` list is non-empty) with a
non-empty slug, `ResolveDepartmentAndLeafSlug` returns that slug, no leaf filter and no error,
whatever the nodes above it are. -/
theorem resolve_department_itself (cats : List Category) (storeID categoryID : Int)
    (ancestors : List Category) (target : Category)
    (hstore : 0 < storeID) (hcat : 0 < categoryID)
    (hmatch : firstMatch cats categoryID = some (ancestors ++ [target]))
    (hdept : target.HasChildren = true ∨ target.Children ≠ [])
    (hslug : target.Slug ≠ "") :
    ResolveDepartmentAndLeafSlug (Except.ok cats) storeID categoryID =
      (target.Slug, "", none) := by
  rw [resolve_matched cats storeID categoryID ancestors target hstore hcat hmatch, if_neg hslug]
  have hd : isDept target = true := by
    rcases hdept with h | h
    · simp [isDept, h]
    · simp [isDept, List.length_pos, h]
  simp [hd]

/-- C5: for `storeID > 0`, `categoryID > 0` and a successful `ListCategories`,
`ResolveDepartmentAndLeafSlug` returns an error if and only if no node of the tree has
`ID = categoryID` or the first node with that ID in depth-first pre-order has an empty slug; with
an error both slugs are empty, and without one the department slug is non-empty.  (The last
part says that `firstMatch` is `none` exactly when no path of the forest ends in a node with
the ID.) -/
theorem resolve_error_iff (cats : List Category) (storeID categoryID : Int)
    (hstore : 0 < storeID) (hcat : 0 < categoryID) :
    ((ResolveDepartmentAndLeafSlug (Except.ok cats) storeID categoryID).2.2 ≠ none ↔
      (firstMatch cats categoryID = none ∨
        ∃ ancestors target, firstMatch cats categoryID = some (ancestors ++ [target]) ∧
          target.Slug = "")) ∧
    ((ResolveDepartmentAndLeafSlug (Except.ok cats) storeID categoryID).2.2 ≠ none →
      (ResolveDepartmentAndLeafSlug (Except.ok cats) storeID categoryID).1 = "" ∧
      (ResolveDepartmentAndLeafSlug (Except.ok cats) storeID categoryID).2.1 = "") ∧
    ((ResolveDepartmentAndLeafSlug (Except.ok cats) storeID categoryID).2.2 = none →
      (ResolveDepartmentAndLeafSlug (Except.ok cats) storeID categoryID).1 ≠ "") ∧
    (firstMatch cats categoryID = none ↔
      ∀ path ∈ preorderPaths cats, ∀ c, path.getLast? = some c → c.ID ≠ categoryID) := by
  have hnone : firstMatch cats categoryID = none ↔
      ∀ path ∈ preorderPaths cats, ∀ c, path.getLast? = some c → c.ID ≠ categoryID := by
    unfold firstMatch
    rw [List.find?_eq_none]
    constructor
    · intro h path hp c hc heq
      exact h path hp (by simp [endsAt, hc, heq])
    · intro h path hp he
      unfold endsAt at he
      cases hl : path.getLast? with
      | none => simp [hl] at he
      | some c => simp [hl] at he; exact h path hp c hl he
  cases hm : firstMatch cats categoryID with
  | none =>
    rw [hm] at hnone
    rw [resolve_unmatched cats storeID categoryID hstore hcat hm]
    have hall := hnone.mp rfl
    exact ⟨by simp, by simp, by simp, hnone⟩
  | some path =>
    rw [hm] at hnone
    have hne := (preorderPaths_inner cats path (List.mem_of_find?_eq_some hm)).1
    obtain ⟨ancestors, target, hp⟩ : ∃ a t, path = a ++ [t] :=
      ⟨path.dropLast, path.getLast hne, (List.dropLast_append_getLast hne).symm⟩
    subst hp
    rw [resolve_matched cats storeID categoryID ancestors target hstore hcat hm]
    refine ⟨?_, ?_, ?_, hnone⟩
    · constructor
      · intro h
        refine Or.inr ⟨ancestors, target, rfl, ?_⟩
        by_contra hs
        rw [if_neg hs] at h
        split at h
        · exact h rfl
        · split at h <;> exact h rfl
      · rintro (h | ⟨a, t, h, hs⟩)
        · cases h
        · have := List.append_inj_right' (Option.some.inj h) rfl
          have ht : target = t := by simpa using this
          subst ht
          simp [hs]
    · intro h
      by_cases hs : target.Slug = ""
      · simp [hs]
      · rw [if_neg hs] at h
        split at h
        · exact absurd rfl h
        · split at h <;> exact absurd rfl h
    · intro _
      by_cases hs : target.Slug = ""
      · simp [hs] at *
      · rw [if_neg hs]
        split
        · exact hs
        · split
          · rename_i d hd
            obtain ⟨a, ha, rfl⟩ := Option.map_eq_some'.mp hd
            have := List.find?_some ha
            simpa using this
          · exact hs


/-- C3 on `forest`: the leaf with ID 5 lies under a branch without a slug under `bakery`; the
result is `bakery` with the leaf's slug as filter. -/
theorem resolve_leaf_under_department_witness :
    firstMatch forest 5 = some ([bakery, unnamedShelf] ++ [bread]) ∧
    ResolveDepartmentAndLeafSlug (Except.ok forest) 86 5 = ("bakery", "bread", none) :=
  ⟨rfl, resolve_leaf_under_department forest 86 5 [bakery, unnamedShelf] bread bakery
    (by decide) (by decide) rfl ⟨rfl, rfl⟩ (by decide) rfl⟩

/-- C4 on `forest`: the target `bakery` itself gives `bakery` and no leaf filter. -/
theorem resolve_department_itself_witness :
    firstMatch forest 2 = some ([] ++ [bakery]) ∧
    ResolveDepartmentAndLeafSlug (Except.ok forest) 86 2 = ("bakery", "", none) :=
  ⟨rfl, resolve_department_itself forest 86 2 [] bakery (by decide) (by decide) rfl
    (Or.inl rfl) (by decide)⟩

/-- C5 on `forest`: ID 99 is absent and ID 4 has an empty slug, both are errors; ID 1 is a root
leaf and resolves without error. -/
theorem resolve_error_iff_witness :
    (ResolveDepartmentAndLeafSlug (Except.ok forest) 86 99).2.2 ≠ none ∧
    (ResolveDepartmentAndLeafSlug (Except.ok forest) 86 4).2.2 ≠ none ∧
    (ResolveDepartmentAndLeafSlug (Except.ok forest) 86 1).1 ≠ "" :=
  ⟨(resolve_error_iff forest 86 99 (by decide) (by decide)).1.mpr (Or.inl rfl),
    (resolve_error_iff forest 86 4 (by decide) (by decide)).1.mpr
      (Or.inr ⟨[bakery], Category.mk 4 2 "Buns" "" 3 false [], rfl, rfl⟩),
    (resolve_error_iff forest 86 1 (by decide) (by decide)).2.2.1 rfl⟩

end usecases

namespace usecases

/-- The message of the ceiling on the number of accumulated products. -/
theorem appendPage_error (sprintV : ℚ → String) (baseURL : String) :
    ∀ (raw : List Product) (out : List ModelsProduct) (total : Nat) (e : GoError),
      appendPage sprintV baseURL raw out total = Except.error e →
      e = errorf "too many products parsed: possible infinite pagination" := by
  intro raw
  induction raw with
  | nil => intro out total e h; simp [appendPage] at h
  | cons p rest ih =>
    intro out total e h
    rw [appendPage] at h
    split at h
    · exact ih _ _ _ h
    · split at h
      · cases h; rfl
      · exact ih _ _ _ h

/-- The page loop, entered at page `p` with `n` pages to go, when `c` is the number of pages
up to the first short one (or `n`). -/
theorem pageLoop_pages (sprintV : ℚ → String) (s : CategoryProductsService) (env : FetchEnv)
    (storeID : Int) (slug f : String) (pages : Nat → List Product)
    (hctx : ∀ p, env.ctxErr p = none)
    (hok : ∀ p, env.ListProducts storeID slug p s.perPage s.offersLimit = Except.ok (pages p)) :
    ∀ (n p c : Nat) (out : List ModelsProduct) (total : Nat),
      1 ≤ c → c ≤ n → (∀ i, i + 1 < c → ¬ shortPage s (pages (p + i))) →
      (c = n ∨ shortPage s (pages (p + c - 1))) →
      ((pageLoop sprintV s env storeID slug f n p out total).err = none →
        (pageLoop sprintV s env storeID slug f n p out total).pages = List.range' p c ∧
        (pageLoop sprintV s env storeID slug f n p out total).products ≠ none) ∧
      (∃ j, j ≤ c ∧ (pageLoop sprintV s env storeID slug f n p out total).pages =
        List.range' p j) ∧
      (∀ e, (pageLoop sprintV s env storeID slug f n p out total).err = some e →
        e = errorf "too many products parsed: possible infinite pagination") := by
  intro n
  induction n with
  | zero => intro p c out total h1 h2; omega
  | succ n ih =>
    intro p c out total h1 h2 hfull hlast
    have hshort1 : shortPage s (pages p) → c = 1 := by
      intro hs
      by_contra hc
      exact hfull 0 (by omega) (by simpa using hs)
    rw [pageLoop, hctx p, hok p]
    simp only [GetResult.afterPage]
    by_cases h0 : (pages p).length = 0
    · have hc := hshort1 (Or.inl h0)
      subst hc
      simp only [h0, if_true]
      exact ⟨fun _ => ⟨rfl, by simp⟩, ⟨1, le_refl _, rfl⟩, fun e h => nomatch h⟩
    · simp only [h0, if_false]
      cases ha : appendPage sprintV s.baseURL (leafFilter f (pages p)) out total with
      | error e =>
        dsimp only
        refine ⟨(fun h => nomatch h), ⟨1, h1, rfl⟩, fun e1 h => ?_⟩
        cases h
        exact appendPage_error _ _ _ _ _ _ ha
      | ok res =>
        obtain ⟨out1, total1⟩ := res
        dsimp only
        by_cases hlt : ((pages p).length : Int) < s.perPage
        · have hc := hshort1 (Or.inr hlt)
          subst hc
          simp only [hlt, if_true]
          exact ⟨fun _ => ⟨rfl, by simp⟩, ⟨1, le_refl _, rfl⟩, fun e h => nomatch h⟩
        · simp only [hlt, if_false]
          have hns : ¬ shortPage s (pages p) := fun h => h.elim h0 hlt
          by_cases hc1 : c = 1
          · subst hc1
            have hn : n = 0 := by
              rcases hlast with h | h
              · omega
              · exact absurd (by simpa using h) hns
            subst hn
            simp only [pageLoop]
            exact ⟨fun _ => ⟨rfl, by simp⟩, ⟨1, le_refl _, rfl⟩, fun e h => nomatch h⟩
          · have hih := ih (p + 1) (c - 1) out1 total1 (by omega) (by omega)
              (fun i hi => by
                have := hfull (i + 1) (by omega)
                rwa [show p + (i + 1) = p + 1 + i by omega] at this)
              (by
                rcases hlast with h | h
                · left; omega
                · right; rwa [show p + 1 + (c - 1) - 1 = p + c - 1 by omega])
            obtain ⟨ha1, ⟨j, hj, hpj⟩, he⟩ := hih
            refine ⟨fun h => ?_, ⟨j + 1, by omega, ?_⟩, he⟩
            · obtain ⟨hp, hq⟩ := ha1 h
              refine ⟨?_, hq⟩
              rw [hp, show c = (c - 1) + 1 by omega, List.range'_succ]
              simp
            · rw [hpj, List.range'_succ]


/-- C2, as amended: for a positive store ID and a non-empty department slug, every page size
and `maxPages`, and every sequence `pages` of upstream pages, when no `ListProducts` call fails
and the context is not cancelled, let `k` be the least page index `<= maxPages` whose page is
short (empty, or of raw length smaller than `perPage`), or `maxPages` if there is none (`k = 0`
when `maxPages <= 0`).  If `GetByDepartmentSlug` returns no error it has called `ListProducts`
for the pages `1, 2, ..., k`, in this order and for no others, and returns a product list
(also when it has reached `maxPages`); in every case the pages called are `1, ..., j` in order
for some `j <= k`; and the only error it can return is that of the ceiling of 200000
accumulated products. -/
theorem pagination_calls_pages_in_order (sprintV : ℚ → String) (s : CategoryProductsService)
    (env : FetchEnv) (storeID : Int) (slug f : String) (pages : Nat → List Product) (k : Nat)
    (hstore : 0 < storeID) (hslug : slug ≠ "")
    (hctx : ∀ p, env.ctxErr p = none)
    (hok : ∀ p, env.ListProducts storeID slug p s.perPage s.offersLimit = Except.ok (pages p))
    (hk : k ≤ s.maxPages.toNat) (hk1 : 0 < s.maxPages → 1 ≤ k)
    (hfull : ∀ p, 1 ≤ p → p < k → ¬ shortPage s (pages p))
    (hlast : k = s.maxPages.toNat ∨ shortPage s (pages k)) :
    ((GetByDepartmentSlug sprintV s env storeID slug f).err = none →
      (GetByDepartmentSlug sprintV s env storeID slug f).pages = List.range' 1 k ∧
      (GetByDepartmentSlug sprintV s env storeID slug f).products ≠ none) ∧
    (∃ j, j ≤ k ∧ (GetByDepartmentSlug sprintV s env storeID slug f).pages = List.range' 1 j) ∧
    (∀ e, (GetByDepartmentSlug sprintV s env storeID slug f).err = some e →
      e = errorf "too many products parsed: possible infinite pagination") := by
  unfold GetByDepartmentSlug
  rw [if_neg (by omega), if_neg hslug]
  by_cases hn : s.maxPages.toNat = 0
  · have hk0 : k = 0 := by omega
    subst hk0
    rw [hn]
    exact ⟨fun _ => ⟨rfl, by simp [pageLoop]⟩, ⟨0, le_refl _, rfl⟩, fun e h => nomatch h⟩
  · have hpos : 0 < s.maxPages := by
      by_contra h
      exact hn (Int.toNat_eq_zero.mpr (by omega))
    exact pageLoop_pages sprintV s env storeID slug f pages hctx hok s.maxPages.toNat 1 k [] 0
      (hk1 hpos) hk
      (fun i hi => by rw [Nat.add_comm]; exact hfull (i + 1) (by omega) (by omega))
      (by
        rcases hlast with h | h
        · exact Or.inl h
        · right; rwa [show 1 + k - 1 = k by omega])

/-- A page of `n` copies of one entry is short when `n` is 0 or below the page size. -/
theorem shortPage_replicate (s : CategoryProductsService) (n : Nat) (p : Product) :
    shortPage s (List.replicate n p) ↔ n = 0 ∨ (n : Int) < s.perPage := by
  simp [shortPage]

/-- C2, as amended, on the page sizes 5, 5, 5, 3 and 5, 5, 0 at a page size of 5: four calls
and three calls, for the pages in order. -/
theorem pagination_calls_pages_in_order_witness :
    (GetByDepartmentSlug (fun _ => "") (service 500) (upstream [5, 5, 5, 3]) 86 "produce"
      "").pages = [1, 2, 3, 4] ∧
    (GetByDepartmentSlug (fun _ => "") (service 500) (upstream [5, 5, 0]) 86 "produce"
      "").pages = [1, 2, 3] := by
  constructor
  · refine ((pagination_calls_pages_in_order (fun _ => "") (service 500) (upstream [5, 5, 5, 3])
      86 "produce" "" (fun page => List.replicate ([5, 5, 5, 3].getD (page - 1) 0) (untagged "x"))
      4 (by decide) (by decide) (fun _ => rfl) (fun _ => rfl) (by decide) (fun _ => by decide)
      ?_ ?_).1 rfl).1
    · intro p h1 h2
      rw [shortPage_replicate]
      interval_cases p <;> decide
    · right; rw [shortPage_replicate]; decide
  · refine ((pagination_calls_pages_in_order (fun _ => "") (service 500) (upstream [5, 5, 0])
      86 "produce" "" (fun page => List.replicate ([5, 5, 0].getD (page - 1) 0) (untagged "x"))
      3 (by decide) (by decide) (fun _ => rfl) (fun _ => rfl) (by decide) (fun _ => by decide)
      ?_ ?_).1 rfl).1
    · intro p h1 h2
      rw [shortPage_replicate]
      interval_cases p <;> decide
    · right; rw [shortPage_replicate]; decide


/-- Entries that all normalize to a non-empty product run into the ceiling once there are more
than 200000 of them. -/
theorem appendPage_replicate (sprintV : ℚ → String) (baseURL : String) (p : Product)
    (hp : (FromProduct sprintV baseURL p).Name ≠ "") :
    ∀ (n : Nat) (out : List ModelsProduct) (total : Nat),
      total ≤ 200000 → 200000 < total + n →
      appendPage sprintV baseURL (List.replicate n p) out total =
        Except.error (errorf "too many products parsed: possible infinite pagination") := by
  intro n
  induction n with
  | zero => intro out total h1 h2; omega
  | succ n ih =>
    intro out total h1 h2
    rw [List.replicate_succ, appendPage]
    rw [if_neg (fun h => hp h.1)]
    by_cases hc : total + 1 > 200000
    · rw [if_pos hc]
    · rw [if_neg hc]
      exact ih _ _ (by omega) (by omega)

/-- A first pass through the page loop that runs into the ceiling ends the call. -/
theorem pageLoop_ceiling (sprintV : ℚ → String) (s : CategoryProductsService) (env : FetchEnv)
    (storeID : Int) (slug : String) (n page : Nat) (raw : List Product) (e : GoError)
    (hctx : env.ctxErr page = none)
    (hok : env.ListProducts storeID slug page s.perPage s.offersLimit = Except.ok raw)
    (hlen : raw.length ≠ 0)
    (herr : appendPage sprintV s.baseURL raw [] 0 = Except.error e) :
    pageLoop sprintV s env storeID slug "" (n + 1) page [] 0 = ⟨none, some e, [page]⟩ := by
  rw [pageLoop, hctx, hok]
  dsimp only
  rw [if_neg hlen]
  have hf : leafFilter "" raw = raw := by simp [leafFilter]
  rw [hf, herr]
  rfl

/-- C2 fails as stated: at a page size of 5 and `maxPages = 2`, with an upstream that answers
every page with 200001 entries named `x` (no page is short, no call fails, the context is not
cancelled), `GetByDepartmentSlug` calls `ListProducts` for page 1 only, not for the pages 1
and 2, and returns the error of the ceiling instead of the accumulated products. -/
theorem pagination_stops_at_ceiling :
    ¬ shortPage (service 2) (List.replicate 200001 (untagged "x")) ∧
    (GetByDepartmentSlug (fun _ => "") (service 2) hugeUpstream 86 "produce" "").pages = [1] ∧
    (GetByDepartmentSlug (fun _ => "") (service 2) hugeUpstream 86 "produce" "").pages ≠
      List.range' 1 2 ∧
    (GetByDepartmentSlug (fun _ => "") (service 2) hugeUpstream 86 "produce" "").products =
      none ∧
    (GetByDepartmentSlug (fun _ => "") (service 2) hugeUpstream 86 "produce" "").err =
      some (errorf "too many products parsed: possible infinite pagination") := by
  have h : GetByDepartmentSlug (fun _ => "") (service 2) hugeUpstream 86 "produce" "" =
      ⟨none, some (errorf "too many products parsed: possible infinite pagination"), [1]⟩ := by
    unfold GetByDepartmentSlug
    rw [if_neg (by decide), if_neg (by decide)]
    have hn : (service 2).maxPages.toNat = 1 + 1 := by decide
    rw [hn]
    exact pageLoop_ceiling _ _ _ _ _ 1 1 (List.replicate 200001 (untagged "x")) _ rfl rfl
      (by rw [List.length_replicate]; decide)
      (appendPage_replicate _ _ _ (by decide) 200001 [] 0 (by decide) (by decide))
  refine ⟨?_, ?_, ?_, ?_, ?_⟩
  · rw [shortPage_replicate]; decide
  · rw [h]
  · rw [h]; decide
  · rw [h]
  · rw [h]

end usecases

namespace transport

/-- Replacing the element `a` at one index by `b` moves one unit of the count from `a` to
`b`. -/
theorem count_set_pos (x a b : Pos) :
    ∀ (l : List Pos) (i : Nat), l.get? i = some a →
      (l.set i b).count x + (if a = x then 1 else 0) = l.count x + (if b = x then 1 else 0) := by
  intro l
  induction l with
  | nil => intro i h; simp at h
  | cons c cs ih =>
    intro i h
    cases i with
    | zero =>
      simp only [List.get?_cons_zero, Option.some.injEq] at h
      subst h
      simp only [List.set_cons_zero, List.count_cons, beq_iff_eq]
      omega
    | succ j =>
      simp only [List.get?_cons_succ] at h
      have := ih j h
      simp only [List.set_cons_succ, List.count_cons, beq_iff_eq]
      omega

/-- A step keeps the system consistent and the capacity of the channel. -/
theorem step_consistent (g g1 : Gate) (a : Action) (h : g.consistent)
    (hs : g.step a = some g1) : g1.consistent ∧ g1.sem.cap = g.sem.cap := by
  obtain ⟨hcount, hle⟩ := h
  cases a with
  | send i =>
    simp only [Gate.step] at hs
    split at hs
    · rename_i hg
      cases hs
      have h1 := count_set_pos Pos.inner Pos.acquiring Pos.inner g.calls i hg.1
      have h2 := count_set_pos Pos.releasing Pos.acquiring Pos.inner g.calls i hg.1
      simp only [reduceCtorEq, if_false, if_true] at h1 h2
      refine ⟨⟨?_, ?_⟩, rfl⟩ <;> dsimp only <;> omega
    · cases hs
  | ctxDone i =>
    simp only [Gate.step] at hs
    split at hs
    · rename_i hg
      cases hs
      have h1 := count_set_pos Pos.inner Pos.acquiring Pos.cancelled g.calls i hg
      have h2 := count_set_pos Pos.releasing Pos.acquiring Pos.cancelled g.calls i hg
      simp only [reduceCtorEq, if_false] at h1 h2
      refine ⟨⟨?_, hle⟩, rfl⟩
      dsimp only
      omega
    · cases hs
  | baseReturns i =>
    simp only [Gate.step] at hs
    split at hs
    · rename_i hg
      cases hs
      have h1 := count_set_pos Pos.inner Pos.inner Pos.releasing g.calls i hg
      have h2 := count_set_pos Pos.releasing Pos.inner Pos.releasing g.calls i hg
      simp only [reduceCtorEq, if_false, if_true] at h1 h2
      refine ⟨⟨?_, hle⟩, rfl⟩
      dsimp only
      omega
    · cases hs
  | receive i =>
    simp only [Gate.step] at hs
    split at hs
    · rename_i hg
      cases hs
      have h1 := count_set_pos Pos.inner Pos.releasing Pos.returned g.calls i hg.1
      have h2 := count_set_pos Pos.releasing Pos.releasing Pos.returned g.calls i hg.1
      simp only [reduceCtorEq, if_false, if_true] at h1 h2
      refine ⟨⟨?_, ?_⟩, rfl⟩ <;> dsimp only <;> omega
    · cases hs

/-- So does every schedule. -/
theorem run_consistent (schedule : List Action) :
    ∀ (g g1 : Gate), g.consistent → g.run schedule = some g1 →
      g1.consistent ∧ g1.sem.cap = g.sem.cap := by
  induction schedule with
  | nil => intro g g1 h hr; simp only [Gate.run, Option.some.injEq] at hr; subst hr; exact ⟨h, rfl⟩
  | cons a as ih =>
    intro g g1 h hr
    rw [Gate.run] at hr
    cases hs : g.step a with
    | none => rw [hs] at hr; cases hr
    | some g2 =>
      rw [hs] at hr
      obtain ⟨hc, hcap⟩ := step_consistent g g2 a h hs
      obtain ⟨hc1, hcap1⟩ := ih g2 g1 hc hr
      exact ⟨hc1, hcap1.trans hcap⟩

/-- The system in which no call has started is consistent. -/
theorem init_consistent (c : Int) (n : Nat) : (Gate.init c n).consistent := by
  refine ⟨?_, Nat.zero_le _⟩
  simp [Gate.init, newSemaphore, List.count_replicate]

/-- C9: for every concurrency ceiling `C > 0`, every number of concurrent
`ConcurrencyTransport.Do` calls on the transport that `Build` makes for that ceiling and every
interleaving of their steps (every schedule that the channel lets run, hence every state on
the way), the number of calls whose inner `Do` is executing is at most `C`. -/
theorem concurrency_never_exceeds_ceiling (C : Int) (hC : 0 < C) (n : Nat)
    (schedule : List Action) (g : Gate) (hrun : (Gate.init C n).run schedule = some g) :
    (g.executing : Int) ≤ C := by
  obtain ⟨⟨hcount, hle⟩, hcap⟩ := run_consistent schedule _ g (init_consistent C n) hrun
  have hcapC : ((Gate.init C n).sem.cap : Int) = C := by
    simp only [Gate.init, newSemaphore, if_neg (not_le.mpr hC)]
    exact Int.toNat_of_nonneg (le_of_lt hC)
  unfold Gate.executing
  omega

/-- C9 at `C = 2` with three calls: with two calls inside the base the third cannot pass
`acquire`; once one of them has released its slot it can, and then two are executing. -/
theorem concurrency_never_exceeds_ceiling_witness :
    (Gate.init 2 3).run [Action.send 0, Action.send 2, Action.send 1] = none ∧
    (Gate.init 2 3).run [Action.send 0, Action.send 2, Action.baseReturns 0, Action.receive 0,
      Action.send 1] = some ⟨⟨2, 2⟩, [Pos.returned, Pos.inner, Pos.inner]⟩ ∧
    ((Gate.mk ⟨2, 2⟩ [Pos.returned, Pos.inner, Pos.inner]).executing : Int) ≤ 2 :=
  ⟨by decide, by decide, concurrency_never_exceeds_ceiling 2 (by decide) 3
    [Action.send 0, Action.send 2, Action.baseReturns 0, Action.receive 0, Action.send 1] _
    (by decide)⟩

end transport

namespace transport

/-- Rounding to the nearest integer does not go below an integer below the value. -/
theorem roundHalfEven_ge (q : ℚ) (k : Int) (h : (k : ℚ) ≤ q) : k ≤ roundHalfEven q := by
  have hf : k ≤ ⌊q⌋ := Int.le_floor.mpr h
  unfold roundHalfEven
  dsimp only
  split
  · exact hf
  · split
    · omega
    · split <;> omega

/-- Nor above an integer above the value. -/
theorem roundHalfEven_le (q : ℚ) (k : Int) (h : q ≤ (k : ℚ)) : roundHalfEven q ≤ k := by
  have hfl : (⌊q⌋ : ℚ) ≤ q := Int.floor_le q
  have hf : ⌊q⌋ ≤ k := by exact_mod_cast le_trans hfl h
  have hlt : ¬ (q - ⌊q⌋ < 1 / 2) → ⌊q⌋ + 1 ≤ k := by
    intro hn
    have : (⌊q⌋ : ℚ) < k := by linarith
    have : ⌊q⌋ < k := by exact_mod_cast this
    omega
  unfold roundHalfEven
  dsimp only
  split
  · exact hf
  · rename_i hn
    have := hlt hn
    split
    · omega
    · split <;> omega

/-- An integer is its own rounding. -/
theorem roundHalfEven_intCast (k : Int) : roundHalfEven (k : ℚ) = k :=
  le_antisymm (roundHalfEven_le _ _ (le_refl _)) (roundHalfEven_ge _ _ (le_refl _))

/-- A tie between an odd integer below and the even one above goes up. -/
theorem roundHalfEven_tie_up (q : ℚ) (k : Int) (h : q = k + 1 / 2) (hk : k % 2 = 1) :
    roundHalfEven q = k + 1 := by
  have hf : ⌊q⌋ = k := by
    rw [Int.floor_eq_iff]; constructor <;> linarith
  unfold roundHalfEven
  dsimp only
  rw [hf, h]
  norm_num
  omega

/-- A tie between an even integer below and the odd one above goes down. -/
theorem roundHalfEven_tie_down (q : ℚ) (k : Int) (h : q = k + 1 / 2) (hk : k % 2 = 0) :
    roundHalfEven q = k := by
  have hf : ⌊q⌋ = k := by
    rw [Int.floor_eq_iff]; constructor <;> linarith
  unfold roundHalfEven
  dsimp only
  rw [hf, h]
  norm_num
  omega

/-- The binary exponent of a positive value. -/
theorem log_eq (x : ℚ) (e : Int) (hx : 0 < x) (h1 : (2 : ℚ) ^ e ≤ x) (h2 : x < (2 : ℚ) ^ (e + 1)) :
    Int.log 2 x = e := by
  have a := (Int.zpow_le_iff_le_log (by norm_num : 1 < 2) hx).mp (by exact_mod_cast h1)
  have b := (Int.lt_zpow_iff_log_lt (by norm_num : 1 < 2) hx).mp (by exact_mod_cast h2)
  omega

/-- The rounding of a value from its binary exponent `e` and the rounding of its multiple of
`2^(e - 52)`. -/
theorem float64_eq (x : ℚ) (e k : Int) (hx : x ≠ 0) (h1 : (2 : ℚ) ^ e ≤ |x|)
    (h2 : |x| < (2 : ℚ) ^ (e + 1)) (hk : roundHalfEven (x / 2 ^ (e - 52)) = k) :
    float64 x = k * 2 ^ (e - 52) := by
  unfold float64
  rw [if_neg hx]
  dsimp only
  rw [log_eq |x| e (abs_pos.mpr hx) h1 h2, hk]

/-- A value with at most 53 significant bits is a `float64`. -/
theorem float64_exact (x : ℚ) (e k : Int) (hx : x ≠ 0) (h1 : (2 : ℚ) ^ e ≤ |x|)
    (h2 : |x| < (2 : ℚ) ^ (e + 1)) (hk : x = k * 2 ^ (e - 52)) :
    float64 x = x := by
  have hp : (0 : ℚ) < 2 ^ (e - 52) := by positivity
  rw [float64_eq x e k hx h1 h2, ← hk]
  rw [hk, mul_div_assoc, div_self (ne_of_gt hp), mul_one]
  exact roundHalfEven_intCast k


/-- The same for a positive value. -/
theorem float64_exact_pos (x : ℚ) (e k : Int) (hx : 0 < x) (h1 : (2 : ℚ) ^ e ≤ x)
    (h2 : x < (2 : ℚ) ^ (e + 1)) (hk : x = k * 2 ^ (e - 52)) : float64 x = x :=
  float64_exact x e k (ne_of_gt hx) (by rw [abs_of_pos hx]; exact h1)
    (by rw [abs_of_pos hx]; exact h2) hk

/-- The same for a negative value. -/
theorem float64_exact_neg (x : ℚ) (e k : Int) (hx : x < 0) (h1 : (2 : ℚ) ^ e ≤ -x)
    (h2 : -x < (2 : ℚ) ^ (e + 1)) (hk : x = k * 2 ^ (e - 52)) : float64 x = x :=
  float64_exact x e k (ne_of_lt hx) (by rw [abs_of_neg hx]; exact h1)
    (by rw [abs_of_neg hx]; exact h2) hk

/-- Zero is a `float64`. -/
theorem float64_zero : float64 0 = 0 := by simp [float64]

/-- Rounding keeps the sign. -/
theorem float64_nonpos (x : ℚ) (h : x ≤ 0) : float64 x ≤ 0 := by
  unfold float64
  split
  · exact le_refl _
  · dsimp only
    have hp : (0 : ℚ) < 2 ^ (Int.log 2 |x| - 52) := by positivity
    have : roundHalfEven (x / 2 ^ (Int.log 2 |x| - 52)) ≤ 0 :=
      roundHalfEven_le _ 0 (by simpa using div_nonpos_of_nonpos_of_nonneg h (le_of_lt hp))
    have h2 : ((roundHalfEven (x / 2 ^ (Int.log 2 |x| - 52)) : Int) : ℚ) ≤ 0 := by
      exact_mod_cast this
    exact mul_nonpos_of_nonpos_of_nonneg h2 (le_of_lt hp)

/-- Below `2^52` every half of an integer is a `float64`, so that rounding does not cross
one. -/
theorem float64_between (x : ℚ) (lo hi : Int) (hx0 : 0 < x) (hx : x < 2 ^ 52)
    (h1 : (lo : ℚ) / 2 ≤ x) (h2 : x ≤ (hi : ℚ) / 2) :
    (lo : ℚ) / 2 ≤ float64 x ∧ float64 x ≤ (hi : ℚ) / 2 := by
  have he : Int.log 2 |x| < 52 := by
    rw [abs_of_pos hx0]
    exact (Int.lt_zpow_iff_log_lt (by norm_num : 1 < 2) hx0).mp (by exact_mod_cast hx)
  obtain ⟨n, hn⟩ : ∃ n : Nat, Int.log 2 |x| - 52 = -((n : Int) + 1) :=
    ⟨(51 - Int.log 2 |x|).toNat, by omega⟩
  unfold float64
  rw [if_neg (ne_of_gt hx0)]
  dsimp only
  rw [hn, zpow_neg, zpow_add_one₀ (by norm_num : (2 : ℚ) ≠ 0), zpow_natCast, div_inv_eq_mul]
  have hp : (0 : ℚ) < 2 ^ n := by positivity
  have hlo : lo * 2 ^ n ≤ roundHalfEven (x * (2 ^ n * 2)) :=
    roundHalfEven_ge _ _ (by push_cast; nlinarith)
  have hhi : roundHalfEven (x * (2 ^ n * 2)) ≤ hi * 2 ^ n :=
    roundHalfEven_le _ _ (by push_cast; nlinarith)
  have hloq : ((lo * 2 ^ n : Int) : ℚ) ≤ (roundHalfEven (x * (2 ^ n * 2)) : ℚ) := by
    exact_mod_cast hlo
  have hhiq : ((roundHalfEven (x * (2 ^ n * 2)) : Int) : ℚ) ≤ ((hi * 2 ^ n : Int) : ℚ) := by
    exact_mod_cast hhi
  push_cast at hloq hhiq
  have hinv : (0 : ℚ) < (2 ^ n * 2)⁻¹ := by positivity
  constructor
  · have := mul_le_mul_of_nonneg_right hloq (le_of_lt hinv)
    calc (lo : ℚ) / 2 = (lo : ℚ) * 2 ^ n * (2 ^ n * 2)⁻¹ := by field_simp; ring
      _ ≤ _ := this
  · have := mul_le_mul_of_nonneg_right hhiq (le_of_lt hinv)
    calc _ ≤ (hi : ℚ) * 2 ^ n * (2 ^ n * 2)⁻¹ := this
      _ = (hi : ℚ) / 2 := by field_simp; ring

/-- An integer below `2^52` in magnitude is a `float64`. -/
theorem float64_intCast (d : Int) (h0 : 0 < d) (h : d < 2 ^ 52) : float64 (d : ℚ) = d := by
  have hq0 : (0 : ℚ) < d := by exact_mod_cast h0
  have hq : (d : ℚ) < 2 ^ 52 := by exact_mod_cast h
  have := float64_between (d : ℚ) (2 * d) (2 * d) hq0 hq (by push_cast; linarith)
    (by push_cast; linarith)
  push_cast at this
  linarith [this.1, this.2]


/-- An integer within `int64` is its own two's-complement value. -/
theorem wrapInt64_of_lt (x : Int) (h0 : 0 ≤ x) (h1 : x < 2 ^ 63) : wrapInt64 x = x := by
  unfold wrapInt64
  rw [Int.emod_eq_of_lt (by omega) (by omega)]
  omega

/-- The truncation of a non-negative value is its floor. -/
theorem truncToInt_of_nonneg (q : ℚ) (h : 0 ≤ q) : truncToInt q = ⌊q⌋ := by
  simp [truncToInt, h]

/-- The conversion of an integer value. -/
theorem truncToInt_intCast (z : Int) : truncToInt (z : ℚ) = z := by
  unfold truncToInt
  split
  · exact Int.floor_intCast z
  · rw [← Int.cast_neg, Int.floor_intCast]; omega

/-- The conversion to an integer never exceeds the value or zero. -/
theorem truncToInt_le (q b : ℚ) (hb : 0 ≤ b) (h : q ≤ b) : (truncToInt q : ℚ) ≤ b := by
  unfold truncToInt
  split
  · exact le_trans (Int.floor_le q) h
  · rename_i hq
    have hq' : 0 ≤ -q := by linarith [not_le.mp hq]
    have : (0 : ℤ) ≤ ⌊-q⌋ := Int.floor_nonneg.mpr hq'
    have h2 : ((-⌊-q⌋ : ℤ) : ℚ) ≤ 0 := by exact_mod_cast (by omega : -⌊-q⌋ ≤ 0)
    exact le_trans h2 hb

/-- The conversion to `int64` of a value that is not positive is not positive. -/
theorem float64ToInt64_nonpos (q : ℚ) (h : q ≤ 0) : float64ToInt64 q ≤ 0 := by
  have ht : truncToInt q ≤ 0 := by
    have := truncToInt_le q 0 (le_refl _) h
    exact_mod_cast this
  unfold float64ToInt64
  dsimp only
  split
  · exact ht
  · norm_num

/-- The jitter factor `0.5 + rand.Float64()`, rounded, lies in `[0.5, 1.5]`. -/
theorem jitter_bounds (u : ℚ) (hu0 : 0 ≤ u) (hu1 : u < 1) :
    1 / 2 ≤ float64 (1 / 2 + u) ∧ float64 (1 / 2 + u) ≤ 3 / 2 := by
  have := float64_between (1 / 2 + u) 1 3 (by linarith) (by norm_num; linarith)
    (by norm_num; linarith) (by norm_num; linarith)
  norm_num at this
  exact this

/-- The jittered delay for a capped delay `d` that is not positive. -/
theorem scaled_nonpos (d : Int) (u : ℚ) (hd : d ≤ 0) (hu0 : 0 ≤ u) (hu1 : u < 1) :
    float64ToInt64 (float64 (float64 (d : ℚ) * float64 (1 / 2 + u))) ≤ 0 := by
  have hj := (jitter_bounds u hu0 hu1).1
  have hfd : float64 (d : ℚ) ≤ 0 := float64_nonpos _ (by exact_mod_cast hd)
  exact float64ToInt64_nonpos _
    (float64_nonpos _ (mul_nonpos_of_nonpos_of_nonneg hfd (by linarith)))

/-- The jittered delay for a capped delay `d` with `0 < d` and `3 * d < 2^53`. -/
theorem scaled_bounds (d : Int) (u : ℚ) (hd0 : 0 < d) (hd : 3 * d < 2 ^ 53) (hu0 : 0 ≤ u)
    (hu1 : u < 1) :
    d / 2 ≤ float64ToInt64 (float64 (float64 (d : ℚ) * float64 (1 / 2 + u))) ∧
    (float64ToInt64 (float64 (float64 (d : ℚ) * float64 (1 / 2 + u))) : ℚ) ≤ 3 / 2 * d := by
  obtain ⟨hj1, hj2⟩ := jitter_bounds u hu0 hu1
  have hq0 : (0 : ℚ) < d := by exact_mod_cast hd0
  have hq : (3 : ℚ) * d < 2 ^ 53 := by exact_mod_cast hd
  rw [float64_intCast d hd0 (by omega)]
  have hx1 : (d : ℚ) / 2 ≤ d * float64 (1 / 2 + u) := by nlinarith
  have hx2 : (d : ℚ) * float64 (1 / 2 + u) ≤ ((3 * d : Int) : ℚ) / 2 := by
    push_cast; nlinarith
  obtain ⟨hf1, hf2⟩ := float64_between (d * float64 (1 / 2 + u)) d (3 * d) (by nlinarith)
    (by push_cast at hx2; linarith) hx1 hx2
  push_cast at hf2
  have hpos : (0 : ℚ) ≤ float64 (d * float64 (1 / 2 + u)) := by linarith
  have hfl1 : d / 2 ≤ ⌊float64 ((d : ℚ) * float64 (1 / 2 + u))⌋ := by
    apply Int.le_floor.mpr
    have : ((d / 2 : Int) : ℚ) * 2 ≤ d := by exact_mod_cast (by omega : d / 2 * 2 ≤ d)
    linarith
  have hfl2 : (⌊float64 ((d : ℚ) * float64 (1 / 2 + u))⌋ : ℚ) ≤ 3 / 2 * d := by
    linarith [Int.floor_le (float64 ((d : ℚ) * float64 (1 / 2 + u)))]
  have hlt : ⌊float64 ((d : ℚ) * float64 (1 / 2 + u))⌋ < 2 ^ 63 := by
    have : (⌊float64 ((d : ℚ) * float64 (1 / 2 + u))⌋ : ℚ) < 2 ^ 63 := by linarith
    exact_mod_cast this
  unfold float64ToInt64
  dsimp only
  rw [truncToInt_of_nonneg _ hpos, if_pos ⟨by omega, hlt⟩]
  exact ⟨hfl1, hfl2⟩

/-- The delay that `backoff` scales by the jitter: `base << attempt`, capped at `max`. -/
theorem backoff_eq (base max : Int) (attempt : Nat) (u : ℚ) (hb : 0 < base) (hm : 0 < max) :
    backoff base max attempt u =
      float64ToInt64 (float64 (float64
        ((if shl64 base attempt > max then max else shl64 base attempt : Int) : ℚ) *
        float64 (1 / 2 + u))) := by
  unfold backoff
  simp only [if_neg (not_le.mpr hb), if_neg (not_le.mpr hm)]

/-- Whatever the shift comes to, `backoff` is at most one and a half times the maximum. -/
theorem backoff_le (base max : Int) (attempt : Nat) (u : ℚ) (hb : 0 < base) (hm : 0 < max)
    (hrange : 3 * max < 2 ^ 53) (hu0 : 0 ≤ u) (hu1 : u < 1) :
    (backoff base max attempt u : ℚ) ≤ 3 / 2 * max := by
  rw [backoff_eq base max attempt u hb hm]
  have hmq : (0 : ℚ) < max := by exact_mod_cast hm
  have hd : (if shl64 base attempt > max then max else shl64 base attempt) ≤ max := by
    split
    · exact le_refl _
    · rename_i h; exact not_lt.mp h
  generalize (if shl64 base attempt > max then max else shl64 base attempt) = d at hd
  by_cases h0 : d ≤ 0
  · have h := scaled_nonpos d u h0 hu0 hu1
    have hq : (float64ToInt64 (float64 (float64 (d : ℚ) * float64 (1 / 2 + u))) : ℚ) ≤ 0 := by
      exact_mod_cast h
    linarith
  · have h := (scaled_bounds d u (not_le.mp h0) (by omega) hu0 hu1).2
    have hdq : (d : ℚ) ≤ max := by exact_mod_cast hd
    linarith

/-- The value of `backoff` from the values of its steps. -/
theorem backoff_value (base max : Int) (i : Nat) (u : ℚ) (d z : Int) (fd j p : ℚ)
    (hb : 0 < base) (hm : 0 < max)
    (hd : (if shl64 base i > max then max else shl64 base i) = d)
    (hfd : float64 (d : ℚ) = fd) (hj : float64 (1 / 2 + u) = j) (hp : float64 (fd * j) = p)
    (hz : truncToInt p = z) (hr : -2 ^ 63 ≤ z ∧ z < 2 ^ 63) :
    backoff base max i u = z := by
  rw [backoff_eq base max i u hb hm, hd, hfd, hj, hp]
  unfold float64ToInt64
  dsimp only
  rw [hz, if_pos hr]

/-- The smallest value of `rand.Float64()` gives the jitter factor `0.5`. -/
theorem float64_half : float64 (1 / 2 + 0) = 1 / 2 := by
  rw [float64_exact_pos _ (-1) (2 ^ 52) (by norm_num) (by norm_num) (by norm_num) (by norm_num)]
  norm_num

/-- The largest value of `rand.Float64()` gives the jitter factor `1.5`. -/
theorem float64_top : float64 (1 / 2 + (1 - 1 / 2 ^ 53)) = 3 / 2 := by
  rw [float64_eq (1 / 2 + (1 - 1 / 2 ^ 53)) 0 (3 * 2 ^ 51) (by norm_num)
    (by rw [abs_of_pos (by norm_num)]; norm_num) (by rw [abs_of_pos (by norm_num)]; norm_num)
    (by
      rw [roundHalfEven_tie_up _ (3 * 2 ^ 51 - 1) (by norm_num) (by norm_num)]
      norm_num)]
  norm_num

/-- C11, as amended: for every base delay > 0, maximum delay > 0, value `u` of `rand.Float64()`
in `[0, 1)` (jitter factor `0.5 + u`) and attempt index `i >= 0` such that `base * 2^i` does not
overflow `int64` and `m = min(base * 2^i, max)` is below `2^53 / 3` nanoseconds, the delay
returned by `backoff(base, max, i)` lies within the closed interval `[floor(0.5 * m), 1.5 * m]`;
the sum, the conversion and the product are rounded to `float64` as in the code. -/
theorem backoff_within_bounds (base max : Int) (i : Nat) (u : ℚ) (hb : 0 < base) (hm : 0 < max)
    (hu0 : 0 ≤ u) (hu1 : u < 1) (hno : base * 2 ^ i < 2 ^ 63)
    (hrange : 3 * min (base * 2 ^ i) max < 2 ^ 53) :
    min (base * 2 ^ i) max / 2 ≤ backoff base max i u ∧
    (backoff base max i u : ℚ) ≤ 3 / 2 * (min (base * 2 ^ i) max : Int) := by
  have hpos : 0 < base * 2 ^ i := by positivity
  have hshl : shl64 base i = base * 2 ^ i := wrapInt64_of_lt _ (le_of_lt hpos) hno
  have hd : (if shl64 base i > max then max else shl64 base i) = min (base * 2 ^ i) max := by
    rw [hshl]
    split
    · rename_i h; exact (min_eq_right (le_of_lt h)).symm
    · rename_i h; exact (min_eq_left (not_lt.mp h)).symm
  have hmpos : 0 < min (base * 2 ^ i) max := lt_min hpos hm
  rw [backoff_eq base max i u hb hm, hd]
  exact scaled_bounds _ u hmpos hrange hu0 hu1

/-- C11 fails as stated, in four ways.  Capped: for base 300 ms, maximum 8 s, attempt 5 and
jitter 0.5 the delay is 4 s, below `0.5 * base * 2^5 = 4.8 s`.  Truncated: for base 3 ns, attempt
0 and jitter 0.5 the delay is 1 ns, below 1.5 ns.  Wrapped: for base 1 ns and attempt 64 the
shift gives 0 and the delay is 0.  Rounded: for base and maximum 3002399751580333 ns, attempt 0
and the largest jitter draw, `1 - 2^-53`, the factor rounds to 1.5, the product
4503599627370499.5 rounds to 4503599627370500, and the delay is above `1.5 * max`. -/
theorem backoff_outside_claimed_bounds :
    backoff (300 * millisecond) (8 * second) 5 0 = 4000000000 ∧
    (backoff (300 * millisecond) (8 * second) 5 0 : ℚ) <
      1 / 2 * ((300 * millisecond : Int) : ℚ) * 2 ^ 5 ∧
    backoff 3 10 0 0 = 1 ∧ (backoff 3 10 0 0 : ℚ) < 1 / 2 * ((3 : Int) : ℚ) * 2 ^ 0 ∧
    backoff 1 10 64 0 = 0 ∧ (backoff 1 10 64 0 : ℚ) < 1 / 2 * ((1 : Int) : ℚ) * 2 ^ 64 ∧
    backoff 3002399751580333 3002399751580333 0 (1 - 1 / 2 ^ 53) = 4503599627370500 ∧
    3 / 2 * ((min (3002399751580333 * 2 ^ 0) 3002399751580333 : Int) : ℚ) <
      (backoff 3002399751580333 3002399751580333 0 (1 - 1 / 2 ^ 53) : ℚ) := by
  have h1 : backoff (300 * millisecond) (8 * second) 5 0 = 4000000000 :=
    backoff_value _ _ _ _ 8000000000 _ 8000000000 (1 / 2) 4000000000 (by decide) (by decide)
      (by decide) (by exact_mod_cast float64_intCast 8000000000 (by norm_num) (by norm_num))
      float64_half
      (by
        have := float64_intCast 4000000000 (by norm_num) (by norm_num)
        norm_num at this ⊢
        exact this)
      (by exact_mod_cast truncToInt_intCast 4000000000) (by norm_num)
  have h2 : backoff 3 10 0 0 = 1 :=
    backoff_value _ _ _ _ 3 _ 3 (1 / 2) (3 / 2) (by decide) (by decide)
      (by decide) (by exact_mod_cast float64_intCast 3 (by norm_num) (by norm_num))
      float64_half
      (by
        rw [float64_exact_pos _ 0 (3 * 2 ^ 51) (by norm_num) (by norm_num) (by norm_num)
          (by norm_num)]
        norm_num)
      (by rw [truncToInt_of_nonneg _ (by norm_num), Int.floor_eq_iff]; norm_num) (by norm_num)
  have h3 : backoff 1 10 64 0 = 0 :=
    backoff_value _ _ _ _ 0 _ 0 (1 / 2) 0 (by decide) (by decide)
      (by decide) (by simp [float64]) float64_half (by simp [float64])
      (by exact_mod_cast truncToInt_intCast 0) (by norm_num)
  have h4 : backoff 3002399751580333 3002399751580333 0 (1 - 1 / 2 ^ 53) =
      4503599627370500 :=
    backoff_value _ _ _ _ 3002399751580333 _ 3002399751580333 (3 / 2) 4503599627370500
      (by decide) (by decide) (by decide)
      (by exact_mod_cast float64_intCast 3002399751580333 (by norm_num) (by norm_num))
      float64_top
      (by
        rw [float64_eq _ 52 4503599627370500 (by norm_num)
          (by rw [abs_of_pos (by norm_num)]; norm_num)
          (by rw [abs_of_pos (by norm_num)]; norm_num)
          (by
            rw [roundHalfEven_tie_up _ 4503599627370499 (by norm_num) (by norm_num)]
            norm_num)]
        norm_num)
      (by exact_mod_cast truncToInt_intCast 4503599627370500) (by norm_num)
  refine ⟨h1, ?_, h2, ?_, h3, ?_, h4, ?_⟩
  · rw [h1]; norm_num [millisecond]
  · rw [h2]; norm_num
  · rw [h3]; norm_num
  · rw [h4]; norm_num

/-- C11, as amended, for base 300 ms, maximum 8 s and attempt 5, where `m` is 8 s, at the
largest jitter draw: the delay is 12 s, the upper end of the interval from 4 s to 12 s. -/
theorem backoff_within_bounds_witness :
    min (300 * millisecond * 2 ^ 5) (8 * second) = 8000000000 ∧
    min (300 * millisecond * 2 ^ 5) (8 * second) / 2 ≤
      backoff (300 * millisecond) (8 * second) 5 (1 - 1 / 2 ^ 53) ∧
    (backoff (300 * millisecond) (8 * second) 5 (1 - 1 / 2 ^ 53) : ℚ) ≤
      3 / 2 * (min (300 * millisecond * 2 ^ 5) (8 * second) : Int) :=
  ⟨by decide, backoff_within_bounds (300 * millisecond) (8 * second) 5 (1 - 1 / 2 ^ 53)
    (by decide) (by decide) (by norm_num) (by norm_num) (by decide) (by decide)⟩

end transport

namespace transport

/-- The delay of a `Retry-After` header is at most 60 seconds. -/
theorem retryAfterDelay_le (resp : Response) : retryAfterDelay resp ≤ 60 * second := by
  unfold retryAfterDelay
  simp only
  split
  · decide
  · split
    · decide
    · split
      · decide
      · split
        · decide
        · rename_i h; simp only [second]; omega

/-- Whatever the base delay and the shift come to, `backoff` is at most one and a half times
a positive maximum below `2^53 / 3`. -/
theorem backoff_le_max (base max : Int) (attempt : Nat) (u : ℚ) (hm : 0 < max)
    (hrange : 3 * max < 2 ^ 53) (hu0 : 0 ≤ u) (hu1 : u < 1) :
    (backoff base max attempt u : ℚ) ≤ 3 / 2 * max := by
  by_cases hb : base ≤ 0
  · have : backoff base max attempt u = backoff (300 * millisecond) max attempt u := by
      simp only [backoff, if_pos hb]
      rfl
    rw [this]
    exact backoff_le _ _ _ _ (by decide) hm hrange hu0 hu1
  · exact backoff_le _ _ _ _ (not_le.mp hb) hm hrange hu0 hu1


/-- The durations of a concatenated trace. -/
theorem sleeps_append (a b : List Event) : sleeps (a ++ b) = sleeps a ++ sleeps b := by
  induction a with
  | nil => rfl
  | cons e es ih => cases e <;> simp [sleeps, ih]

/-- The wait of a concatenated trace. -/
theorem slept_append (a b : List Event) : slept (a ++ b) = slept a + slept b := by
  simp [slept, sleeps_append, List.map_append, List.sum_append]

/-- The wait of a pass with one call and one sleep. -/
theorem slept_call_sleep (a : Nat) (d : Int) : slept [Event.call a, Event.sleep d] = max d 0 := by
  simp [slept, sleeps]

/-- The wait of the end of the loop body: none on the last attempt, the backoff delay
otherwise. -/
theorem backoffStep_slept (r : RetryTransport) (env : Env) (attempt : Nat)
    (lastErr : Option GoError) (B : ℚ) (hB : 0 ≤ B)
    (hback : (backoff r.BaseDelay r.MaxDelay attempt (env.rnd attempt) : ℚ) ≤ B) :
    (slept (r.backoffStep env attempt lastErr).trace : ℚ) ≤ B ∧
    ((attempt : Int) = r.MaxRetries → slept (r.backoffStep env attempt lastErr).trace = 0) := by
  unfold RetryTransport.backoffStep
  split
  · exact ⟨by simpa [Step.trace, slept, sleeps] using hB, fun _ => by simp [Step.trace, slept, sleeps]⟩
  · rename_i hne
    have hmax : ((max (backoff r.BaseDelay r.MaxDelay attempt (env.rnd attempt)) 0 : Int) : ℚ) ≤ B := by
      rw [Int.cast_max]; exact max_le hback (by simpa using hB)
    refine ⟨?_, fun h => absurd h hne⟩
    dsimp only
    split <;> simpa [Step.trace, slept_call_sleep] using hmax

/-- The wait of one pass through the loop body is bounded by any bound on the backoff delay and
on the `Retry-After` delay of the response, and there is none on the last attempt. -/
theorem attempt_slept (r : RetryTransport) (env : Env) (req : Request) (attempt : Nat)
    (B : ℚ) (hB : 0 ≤ B)
    (hback : (backoff r.BaseDelay r.MaxDelay attempt (env.rnd attempt) : ℚ) ≤ B)
    (hra : ∀ resp, (env.base attempt).resp = some resp → (retryAfterDelay resp : ℚ) ≤ B) :
    (slept (r.attempt env req attempt).trace : ℚ) ≤ B ∧
    ((attempt : Int) = r.MaxRetries → slept (r.attempt env req attempt).trace = 0) := by
  have h0 : ∀ a : Nat, (slept [Event.call a] : ℚ) ≤ B ∧ slept [Event.call a] = 0 := fun a =>
    ⟨by simpa [slept, sleeps] using hB, by simp [slept, sleeps]⟩
  have hnil : (slept ([] : List Event) : ℚ) ≤ B ∧ slept ([] : List Event) = 0 :=
    ⟨by simpa [slept, sleeps] using hB, by simp [slept, sleeps]⟩
  unfold RetryTransport.attempt
  split
  · exact ⟨hnil.1, fun _ => hnil.2⟩
  · split
    · exact ⟨hnil.1, fun _ => hnil.2⟩
    · split
      · rename_i resp _ hresp
        split
        · exact ⟨(h0 _).1, fun _ => (h0 _).2⟩
        · dsimp only
          split
          · rename_i h429
            have hmax : ((max (retryAfterDelay resp) 0 : Int) : ℚ) ≤ B := by
              rw [Int.cast_max]; exact max_le (hra resp hresp) (by simpa using hB)
            refine ⟨?_, fun h => by omega⟩
            split <;> simpa [Step.trace, slept_call_sleep] using hmax
          · exact backoffStep_slept r env attempt _ B hB hback
      · split
        · exact ⟨(h0 _).1, fun _ => (h0 _).2⟩
        · exact backoffStep_slept r env attempt _ B hB hback

/-- The waits of the loop from `attempt` on are bounded by the number of attempts that are
left after it. -/
theorem loop_slept (r : RetryTransport) (env : Env) (req : Request) (B : ℚ) (hB : 0 ≤ B)
    (hback : ∀ i, (backoff r.BaseDelay r.MaxDelay i (env.rnd i) : ℚ) ≤ B)
    (hra : ∀ i resp, (env.base i).resp = some resp → (retryAfterDelay resp : ℚ) ≤ B) :
    ∀ (remaining attempt : Nat) (lastErr : Option GoError),
      (attempt : Int) + remaining = r.MaxRetries + 1 →
      (slept (r.loop env req remaining attempt lastErr).trace : ℚ) ≤
        ((r.MaxRetries - attempt : Int) : ℚ) * B ∨ remaining = 0 := by
  intro remaining
  induction remaining with
  | zero => intro _ _ _; right; rfl
  | succ n ih =>
    intro attempt lastErr hsum
    left
    obtain ⟨hle, hlast⟩ := attempt_slept r env req attempt B hB (hback attempt) (hra attempt)
    unfold RetryTransport.loop
    by_cases hR : (attempt : Int) = r.MaxRetries
    · have hz := hlast hR
      cases h : r.attempt env req attempt with
      | done resp err tr =>
        rw [h] at hz
        simp only [Step.trace] at hz
        simp [hz, hR]
      | again le tr => exact absurd hR (attempt_again r env req attempt le tr h).2
    · have hpos : (1 : ℚ) ≤ ((r.MaxRetries - attempt : Int) : ℚ) := by
        exact_mod_cast (by omega : (1 : Int) ≤ r.MaxRetries - attempt)
      cases h : r.attempt env req attempt with
      | done resp err tr =>
        rw [h] at hle
        simp only [Step.trace] at hle ⊢
        nlinarith
      | again le tr =>
        rw [h] at hle
        simp only [Step.trace] at hle
        simp only [DoResult.after, slept_append]
        rcases ih (attempt + 1) le (by push_cast; omega) with h1 | h1
        · have hc : ((r.MaxRetries - (attempt + 1 : Nat) : Int) : ℚ) =
              ((r.MaxRetries - attempt : Int) : ℚ) - 1 := by push_cast; ring
          rw [hc] at h1
          rw [Int.cast_add]
          linarith
        · omega


/-- C12, as amended: for every run of `RetryTransport.Do` with `MaxRetries = R >= 0`, maximum
delay `M > 0` below `2^53 / 3` nanoseconds (some 34 days, up to which the rounding of the
`float64` product cannot pass `1.5 * M`) and jitter draws from `[0, 1)`, whatever the base
transport returns, the sum of all delays slept between attempts is at most
`R * max(1.5 * M, 60 s)`; it is at most `R * M * 1.5` when `M >= 40 s`, and also when no
response of the base carries a `Retry-After` delay. -/
theorem retry_total_delay_bounded (r : RetryTransport) (env : Env) (req : Request)
    (hR : 0 ≤ r.MaxRetries) (hM : 0 < r.MaxDelay) (hrange : 3 * r.MaxDelay < 2 ^ 53)
    (hrnd : ∀ i, 0 ≤ env.rnd i ∧ env.rnd i < 1) :
    (slept (r.Do env req).trace : ℚ) ≤
      r.MaxRetries * max (3 / 2 * (r.MaxDelay : ℚ)) ((60 * second : Int) : ℚ) ∧
    (40 * second ≤ r.MaxDelay →
      (slept (r.Do env req).trace : ℚ) ≤ r.MaxRetries * r.MaxDelay * (3 / 2)) ∧
    ((∀ i resp, (env.base i).resp = some resp → retryAfterDelay resp = 0) →
      (slept (r.Do env req).trace : ℚ) ≤ r.MaxRetries * r.MaxDelay * (3 / 2)) := by
  have hMq : (0 : ℚ) < r.MaxDelay := by exact_mod_cast hM
  have hback : ∀ i, (backoff r.BaseDelay r.MaxDelay i (env.rnd i) : ℚ) ≤ 3 / 2 * r.MaxDelay :=
    fun i => backoff_le_max _ _ _ _ hM hrange (hrnd i).1 (hrnd i).2
  have h60 : ∀ resp, (retryAfterDelay resp : ℚ) ≤ ((60 * second : Int) : ℚ) :=
    fun resp => by exact_mod_cast retryAfterDelay_le resp
  have hfuel : (((r.MaxRetries + 1).toNat : Nat) : Int) = r.MaxRetries + 1 :=
    Int.toNat_of_nonneg (by omega)
  have key : ∀ B : ℚ, 0 ≤ B → 3 / 2 * (r.MaxDelay : ℚ) ≤ B →
      (∀ i resp, (env.base i).resp = some resp → (retryAfterDelay resp : ℚ) ≤ B) →
      (slept (r.Do env req).trace : ℚ) ≤ r.MaxRetries * B := by
    intro B hB h1 h2
    rcases loop_slept r env req B hB (fun i => le_trans (hback i) h1) h2
      (r.MaxRetries + 1).toNat 0 none (by omega) with h | h
    · simpa [RetryTransport.Do] using h
    · omega
  refine ⟨?_, ?_, ?_⟩
  · exact key _ (le_trans (by positivity) (le_max_left _ _)) (le_max_left _ _)
      (fun i resp _ => le_trans (h60 resp) (le_max_right _ _))
  · intro h40
    have h40q : ((60 * second : Int) : ℚ) ≤ 3 / 2 * r.MaxDelay := by
      have : ((40 * second : Int) : ℚ) ≤ r.MaxDelay := by exact_mod_cast h40
      simp only [second] at this ⊢
      push_cast at this ⊢
      linarith
    have := key (3 / 2 * r.MaxDelay) (by positivity) (le_refl _)
      (fun i resp _ => le_trans (h60 resp) h40q)
    linarith
  · intro hno
    have := key (3 / 2 * r.MaxDelay) (by positivity) (le_refl _)
      (fun i resp h => by rw [hno i resp h]; simpa using le_of_lt (by positivity : (0 : ℚ) < 3 / 2 * r.MaxDelay))
    linarith

/-- C12, as amended, at `R = 1` and `M = 1 s` with a base that always answers 429 with
`Retry-After: 60`: the single wait is 60 s, within `max(1.5 s, 60 s)`. -/
theorem retry_total_delay_bounded_witness :
    slept (RetryTransport.Do ⟨1, 100 * millisecond, 1 * second⟩ alwaysRetryAfter60
      ⟨false, false⟩).trace = 60 * second ∧
    (slept (RetryTransport.Do ⟨1, 100 * millisecond, 1 * second⟩ alwaysRetryAfter60
      ⟨false, false⟩).trace : ℚ) ≤
      ((1 : Int) : ℚ) * max (3 / 2 * ((1 * second : Int) : ℚ)) ((60 * second : Int) : ℚ) :=
  ⟨by decide, (retry_total_delay_bounded ⟨1, 100 * millisecond, 1 * second⟩ alwaysRetryAfter60
    ⟨false, false⟩ (by decide) (by decide) (by decide)
    (fun _ => ⟨le_refl _, by norm_num [alwaysRetryAfter60]⟩)).1⟩

end transport

namespace transport

/-- The test `shouldRetryStatus` holds of 429 and of the codes 500 to 599. -/
theorem shouldRetryStatus_iff (code : Int) :
    shouldRetryStatus code = true ↔ code = 429 ∨ (500 ≤ code ∧ code ≤ 599) := by
  unfold shouldRetryStatus
  split
  · rename_i h; simp [h]
  · rename_i h; simp [h]

/-- The pass in which the base answers with a status that is not retryable returns the
response after the call. -/
theorem attempt_non_retryable (r : RetryTransport) (env : Env) (req : Request) (a : Nat)
    (resp : Response) (hctx : env.ctxErr a = none)
    (hclone : cloneForRetry req (env.getBodyErr a) = none)
    (hbase : env.base a = ⟨some resp, none⟩) (hstatus : shouldRetryStatus resp.StatusCode = false) :
    r.attempt env req a = Step.done (some resp) none [Event.call a] := by
  unfold RetryTransport.attempt
  simp [hctx, hclone, hbase, hstatus]

/-- If the loop goes on from every attempt before `a` and the pass for `a` returns after its
call, so does the loop, and nothing follows that call. -/
theorem loop_returns_at (r : RetryTransport) (env : Env) (req : Request) (a : Nat)
    (resp : Option Response) (err : Option GoError)
    (hdone : r.attempt env req a = Step.done resp err [Event.call a]) :
    ∀ (remaining start : Nat) (lastErr : Option GoError),
      start ≤ a → a - start < remaining →
      (∀ i, start ≤ i → i < a → ∃ le tr, r.attempt env req i = Step.again le tr) →
      (r.loop env req remaining start lastErr).resp = resp ∧
      (r.loop env req remaining start lastErr).err = err ∧
      ∃ pre, (r.loop env req remaining start lastErr).trace = pre ++ [Event.call a] := by
  intro remaining
  induction remaining with
  | zero => intro start lastErr h1 h2; omega
  | succ n ih =>
    intro start lastErr h1 h2 hreach
    unfold RetryTransport.loop
    by_cases hs : start = a
    · subst hs
      rw [hdone]
      exact ⟨rfl, rfl, [], rfl⟩
    · obtain ⟨le, tr, hag⟩ := hreach start (le_refl _) (by omega)
      rw [hag]
      obtain ⟨h3, h4, pre, h5⟩ := ih (start + 1) le (by omega) (by omega)
        (fun i hi1 hi2 => hreach i (by omega) hi2)
      refine ⟨h3, h4, tr ++ pre, ?_⟩
      simp only [DoResult.after, h5, List.append_assoc]

/-- C13: if the loop reaches attempt `a` (it goes on from every earlier attempt), the base is
invoked there (live context, request cloned) and its result is a response whose status is
neither 429 nor in 500..599, `RetryTransport.Do` returns that same response with a nil error,
and the trace ends with that base call: no sleep and no further base call follow it.  And
`shouldRetryStatus(code)` is true exactly when `code = 429` or `500 <= code <= 599`. -/
theorem non_retryable_status_returns_at_once (r : RetryTransport) (env : Env) (req : Request)
    (a : Nat) (resp : Response)
    (hreach : ∀ i, i < a → ∃ le tr, r.attempt env req i = Step.again le tr)
    (ha : (a : Int) ≤ r.MaxRetries)
    (hctx : env.ctxErr a = none) (hclone : cloneForRetry req (env.getBodyErr a) = none)
    (hbase : env.base a = ⟨some resp, none⟩)
    (hstatus : resp.StatusCode ≠ 429 ∧ ¬ (500 ≤ resp.StatusCode ∧ resp.StatusCode ≤ 599)) :
    ((r.Do env req).resp = some resp ∧ (r.Do env req).err = none ∧
      ∃ pre, (r.Do env req).trace = pre ++ [Event.call a]) ∧
    ∀ code, shouldRetryStatus code = true ↔ code = 429 ∨ (500 ≤ code ∧ code ≤ 599) := by
  refine ⟨?_, shouldRetryStatus_iff⟩
  have hs : shouldRetryStatus resp.StatusCode = false := by
    rw [Bool.eq_false_iff, Ne, shouldRetryStatus_iff]
    rintro (h | h)
    · exact hstatus.1 h
    · exact hstatus.2 h
  have hdone := attempt_non_retryable r env req a resp hctx hclone hbase hs
  unfold RetryTransport.Do
  exact loop_returns_at r env req a _ _ hdone (r.MaxRetries + 1).toNat 0 none (Nat.zero_le _)
    (by omega) (fun i _ hi => hreach i hi)

/-- C13 at `MaxRetries = 3` with a base that answers 503 and then 404: the 404 response of
attempt 1 is returned, and the trace ends with the call of attempt 1. -/
theorem non_retryable_status_returns_at_once_witness :
    (RetryTransport.Do ⟨3, 0, 0⟩ thenNotFound ⟨false, false⟩).resp = some ⟨404, ""⟩ ∧
    (RetryTransport.Do ⟨3, 0, 0⟩ thenNotFound ⟨false, false⟩).err = none ∧
    ∃ pre, (RetryTransport.Do ⟨3, 0, 0⟩ thenNotFound ⟨false, false⟩).trace =
      pre ++ [Event.call 1] :=
  (non_retryable_status_returns_at_once ⟨3, 0, 0⟩ thenNotFound ⟨false, false⟩ 1 ⟨404, ""⟩
    (fun i hi => by
      have : i = 0 := by omega
      subst this
      exact attempt_retryable _ thenNotFound _ 0 rfl rfl rfl ⟨⟨503, ""⟩, rfl, by decide⟩
        (by decide))
    (by decide) rfl rfl rfl (by decide)).1

end transport

namespace proxy

/-- C14: for every provider result, the proxy function built by `FromProvider` returns, when the
provider returns an error, or an address that is blank after trimming, or an address that
`url.Parse` rejects (after `http://` has been put in front of an address without `://`), no
proxy and no error if `failOpen` is true, and no proxy and a non-nil error (the provider's, the
`empty proxy string` error, or the parser's) if `failOpen` is false; otherwise it returns the
parsed URL of the trimmed address, with `http://` in front when the address contains no `://`,
and no error.  With `failOpen` true it never returns an error. -/
theorem from_provider_fail_open_or_closed {U : Type} (parse : String → Except GoError U)
    (failOpen : Bool) (next : Except GoError String) :
    (∀ err, next = Except.error err →
      FromProvider parse failOpen next = if failOpen then (none, none) else (none, some err)) ∧
    (∀ raw, next = Except.ok raw → TrimSpace raw = "" →
      FromProvider parse failOpen next =
        if failOpen then (none, none) else (none, some (errorf "empty proxy string"))) ∧
    (∀ raw err, next = Except.ok raw → TrimSpace raw ≠ "" →
      parse (proxyAddress raw) = Except.error err →
      FromProvider parse failOpen next = if failOpen then (none, none) else (none, some err)) ∧
    (∀ raw u, next = Except.ok raw → TrimSpace raw ≠ "" →
      parse (proxyAddress raw) = Except.ok u →
      FromProvider parse failOpen next = (some u, none)) ∧
    (failOpen = true → (FromProvider parse failOpen next).2 = none) := by
  have haddr : ∀ raw, (if !Contains (TrimSpace raw) "://" then "http://" ++ TrimSpace raw
      else TrimSpace raw) = proxyAddress raw := by
    intro raw
    unfold proxyAddress
    cases Contains (TrimSpace raw) "://" <;> rfl
  refine ⟨?_, ?_, ?_, ?_, ?_⟩
  · rintro err rfl; rfl
  · rintro raw rfl h
    simp only [FromProvider, h, if_true]
  · rintro raw err rfl h hp
    simp only [FromProvider, h, if_false, haddr, hp]
  · rintro raw u rfl h hp
    simp only [FromProvider, h, if_false, haddr, hp]
  · intro hf
    subst hf
    unfold FromProvider
    split
    · rfl
    · dsimp only
      split
      · rfl
      · split <;> rfl

/-- C14 on an address without a scheme, a blank address and an address with a blank inside, for
a parser that rejects blanks. -/
theorem from_provider_fail_open_or_closed_witness :
    FromProvider parseNoBlank false (Except.ok " 10.0.0.7:3128 ") =
      (some "http://10.0.0.7:3128", none) ∧
    FromProvider parseNoBlank false (Except.ok "socks5://10.0.0.7:1080") =
      (some "socks5://10.0.0.7:1080", none) ∧
    FromProvider parseNoBlank false (Except.ok "  ") =
      (none, some (errorf "empty proxy string")) ∧
    FromProvider parseNoBlank true (Except.ok "10.0.0.7 :3128") = (none, none) ∧
    (FromProvider parseNoBlank true (Except.error ctxCanceled)).2 = none :=
  ⟨(from_provider_fail_open_or_closed parseNoBlank false _).2.2.2.1 " 10.0.0.7:3128 " _ rfl
      (by decide) rfl,
    (from_provider_fail_open_or_closed parseNoBlank false _).2.2.2.1 "socks5://10.0.0.7:1080" _
      rfl (by decide) rfl,
    (from_provider_fail_open_or_closed parseNoBlank false _).2.1 "  " rfl (by decide),
    (from_provider_fail_open_or_closed parseNoBlank true _).2.2.1 "10.0.0.7 :3128"
      (errorf "invalid character in host name") rfl (by decide) rfl,
    (from_provider_fail_open_or_closed parseNoBlank true _).2.2.2.2 rfl⟩

end proxy

namespace proxy

/-- The loop of `NewListProvider` keeps the trimmed entries that are not empty, in order. -/
theorem cleanList_eq (list : List String) :
    cleanList list = (list.map TrimSpace).filter (fun s => decide (s ≠ "")) := by
  induction list with
  | nil => rfl
  | cons s rest ih =>
    by_cases h : TrimSpace s = ""
    · simp [cleanList, h, ih]
    · simp [cleanList, h, ih]

/-- C18: `NewListProvider` fails if and only if the supplied list has no entry that is non-blank
after trimming (the empty list included), and then with the error `proxy list is empty`; when
it succeeds, the provider holds exactly the trimmed non-blank entries, in their original order,
its list is non-empty and its counter is 0. -/
theorem new_list_provider_fails_iff_all_blank (list : List String) :
    ((∃ err, NewListProvider list = Except.error err) ↔ ∀ s ∈ list, TrimSpace s = "") ∧
    (∀ err, NewListProvider list = Except.error err → err = errorf "proxy list is empty") ∧
    (∀ p, NewListProvider list = Except.ok p →
      p.items = (list.map TrimSpace).filter (fun s => decide (s ≠ "")) ∧ p.items ≠ [] ∧
      p.idx = 0) := by
  have hblank : (cleanList list).length = 0 ↔ ∀ s ∈ list, TrimSpace s = "" := by
    rw [cleanList_eq, List.length_eq_zero, List.filter_eq_nil_iff]
    simp
  refine ⟨⟨?_, ?_⟩, ?_, ?_⟩
  · rintro ⟨err, h⟩
    unfold NewListProvider at h
    split at h
    · cases h
    · rename_i hn
      exact hblank.mp (by omega)
  · intro h
    have h0 := hblank.mpr h
    refine ⟨errorf "proxy list is empty", ?_⟩
    unfold NewListProvider
    rw [dif_neg (by omega)]
  · intro err h
    unfold NewListProvider at h
    split at h
    · cases h
    · cases h; rfl
  · intro p h
    obtain ⟨hitems, hidx⟩ := newListProvider_ok list p h
    refine ⟨by rw [hitems, cleanList_eq], ?_, hidx⟩
    exact List.ne_nil_of_length_pos p.nonempty


/-- C18 on a list of blanks, which fails, and on a list with two non-blank entries. -/
theorem new_list_provider_fails_iff_all_blank_witness :
    (∃ err, NewListProvider ["", "  \t"] = Except.error err) ∧
    (∀ p, NewListProvider [" a ", "", "b"] = Except.ok p → p.items = ["a", "b"]) :=
  ⟨(new_list_provider_fails_iff_all_blank ["", "  \t"]).1.mpr (by decide),
    fun p h => ((new_list_provider_fails_iff_all_blank [" a ", "", "b"]).2.2 p h).1.trans
      (by decide)⟩

end proxy

namespace usecases

/-- C19: for positive store and category IDs and a category tree in which the matched node is a
leaf with a non-empty slug `L` and no node above it on its path qualifies as a department with
a non-empty slug (a root leaf, which has no node above it, included),
`ResolveDepartmentAndLeafSlug` falls back to the leaf itself as the department and returns
`(L, "", no error)`. -/
theorem resolve_leaf_falls_back_to_itself (cats : List Category) (storeID categoryID : Int)
    (ancestors : List Category) (leaf : Category)
    (hstore : 0 < storeID) (hcat : 0 < categoryID)
    (hmatch : firstMatch cats categoryID = some (ancestors ++ [leaf]))
    (hleaf : leaf.HasChildren = false ∧ leaf.Children = [])
    (hslug : leaf.Slug ≠ "")
    (hnone : ∀ a ∈ ancestors, ¬ (isDept a = true ∧ a.Slug ≠ "")) :
    ResolveDepartmentAndLeafSlug (Except.ok cats) storeID categoryID = (leaf.Slug, "", none) := by
  rw [resolve_matched cats storeID categoryID ancestors leaf hstore hcat hmatch, if_neg hslug]
  have hnd : isDept leaf = false := by simp [isDept, hleaf.1, hleaf.2]
  have hchildren := (firstMatch_path cats categoryID ancestors leaf hmatch).2.1
  have hfind : ancestors.reverse.find? (fun a => decide (a.Slug ≠ "")) = none := by
    rw [List.find?_eq_none]
    intro a ha hs
    have hmem := List.mem_reverse.mp ha
    have hd : isDept a = true := by simp [isDept, List.length_pos, hchildren a hmem]
    exact hnone a hmem ⟨hd, by simpa using hs⟩
  simp only [hnd, hfind, Bool.false_eq_true, if_false, Option.map_none']

/-- C19 on a root leaf and on a leaf under a root without a slug. -/
theorem resolve_leaf_falls_back_to_itself_witness :
    ResolveDepartmentAndLeafSlug (Except.ok forest) 86 1 = ("dairy", "", none) ∧
    ResolveDepartmentAndLeafSlug (Except.ok unnamedForest) 86 7 = ("tea", "", none) :=
  ⟨resolve_leaf_falls_back_to_itself forest 86 1 [] (Category.mk 1 0 "Dairy" "dairy" 0 false [])
      (by decide) (by decide) rfl ⟨rfl, rfl⟩ (by decide) (by simp),
    resolve_leaf_falls_back_to_itself unnamedForest 86 7 [Category.mk 6 0 "Drinks" "" 4 true [tea]]
      tea (by decide) (by decide) rfl ⟨rfl, rfl⟩ (by decide)
      (by simp [Category.Slug])⟩

end usecases

namespace proxy

/-- The loop over the keys returns the string under `proxy`, else under `url`, else under
`data`. -/
theorem firstStringField_keys (m : List (String × JSON)) :
    firstStringField m ["proxy", "url", "data"] =
      match asString (m.lookup "proxy") with
      | some v => v
      | none =>
        match asString (m.lookup "url") with
        | some v => v
        | none =>
          match asString (m.lookup "data") with
          | some v => v
          | none => "" := by
  simp only [firstStringField]

/-- C20: with `s` the whitespace-trimmed body, `parseRotationBody` returns `s` when `s` is not
blank and starts with neither an opening brace nor an opening bracket; for a JSON object (`s`
starts with a brace and decodes to an object) it returns the string value of the field `proxy`,
else of `url`, else of `data`, the first of these in that order that holds a string, and the
empty string if none does; for a JSON array (`s` starts with a bracket and decodes to an
array) whose first element is a string it returns that element; and it returns the empty
string for a blank body, for a body with a brace that does not decode to an object, and for a
body with a bracket that does not decode to an array with a string as first element (malformed
JSON, empty array, first element not a string). -/
theorem parse_rotation_body_shapes (unmarshal : String → Option JSON) (b : String) :
    (TrimSpace b ≠ "" → HasPrefix (TrimSpace b) "\x7b" = false →
      HasPrefix (TrimSpace b) "[" = false → parseRotationBody unmarshal b = TrimSpace b) ∧
    (∀ m, TrimSpace b ≠ "" → HasPrefix (TrimSpace b) "\x7b" = true →
      unmarshal (TrimSpace b) = some (JSON.object m) →
      (∀ v, asString (m.lookup "proxy") = some v → parseRotationBody unmarshal b = v) ∧
      (∀ v, asString (m.lookup "proxy") = none → asString (m.lookup "url") = some v →
        parseRotationBody unmarshal b = v) ∧
      (∀ v, asString (m.lookup "proxy") = none → asString (m.lookup "url") = none →
        asString (m.lookup "data") = some v → parseRotationBody unmarshal b = v) ∧
      (asString (m.lookup "proxy") = none → asString (m.lookup "url") = none →
        asString (m.lookup "data") = none → parseRotationBody unmarshal b = "")) ∧
    (∀ v rest, TrimSpace b ≠ "" → HasPrefix (TrimSpace b) "\x7b" = false →
      HasPrefix (TrimSpace b) "[" = true →
      unmarshal (TrimSpace b) = some (JSON.array (JSON.string v :: rest)) →
      parseRotationBody unmarshal b = v) ∧
    (TrimSpace b = "" → parseRotationBody unmarshal b = "") ∧
    (HasPrefix (TrimSpace b) "\x7b" = true →
      (∀ m, unmarshal (TrimSpace b) ≠ some (JSON.object m)) →
      parseRotationBody unmarshal b = "") ∧
    (HasPrefix (TrimSpace b) "\x7b" = false → HasPrefix (TrimSpace b) "[" = true →
      (∀ v rest, unmarshal (TrimSpace b) ≠ some (JSON.array (JSON.string v :: rest))) →
      parseRotationBody unmarshal b = "") := by
  refine ⟨?_, ?_, ?_, ?_, ?_, ?_⟩
  · intro h1 h2 h3
    simp [parseRotationBody, h1, h2, h3]
  · intro m h1 h2 h3
    have h : parseRotationBody unmarshal b = firstStringField m ["proxy", "url", "data"] := by
      simp [parseRotationBody, h1, h2, h3]
    rw [h, firstStringField_keys]
    refine ⟨?_, ?_, ?_, ?_⟩
    · intro v hp; rw [hp]
    · intro v hp hu; rw [hp, hu]
    · intro v hp hu hd; rw [hp, hu, hd]
    · intro hp hu hd; rw [hp, hu, hd]
  · intro v rest h1 h2 h3 h4
    simp [parseRotationBody, h1, h2, h3, h4]
  · intro h1
    simp [parseRotationBody, h1]
  · intro h2 h3
    unfold parseRotationBody
    dsimp only
    split
    · rfl
    · split
      · rename_i m hm; exact absurd hm (h3 m)
      · rfl
  · intro h2 h3 h4
    by_cases h1 : TrimSpace b = ""
    · simp [parseRotationBody, h1]
    · unfold parseRotationBody
      dsimp only
      rw [if_neg h1, if_neg (by simp [h2]), if_pos h3]
      split
      · rename_i v rest hm; exact absurd hm (h4 v rest)
      · rfl

/-- C20 on a bare address, an object with a number under `proxy` and a string under `url`,
and an array, for a decoder that knows these two bodies. -/
theorem parse_rotation_body_shapes_witness :
    parseRotationBody decodeTwo " 10.0.0.7:3128\n" = "10.0.0.7:3128" ∧
    parseRotationBody decodeTwo "\x7b\"proxy\": 1, \"url\": \"10.0.0.8:3128\"\x7d" =
      "10.0.0.8:3128" ∧
    parseRotationBody decodeTwo "[\"10.0.0.9:3128\"]" = "10.0.0.9:3128" ∧
    parseRotationBody decodeTwo "[]" = "" :=
  ⟨(parse_rotation_body_shapes decodeTwo " 10.0.0.7:3128\n").1 (by decide) (by decide)
      (by decide),
    ((parse_rotation_body_shapes decodeTwo
      "\x7b\"proxy\": 1, \"url\": \"10.0.0.8:3128\"\x7d").2.1 _ (by decide) (by decide)
      rfl).2.1 _ rfl rfl,
    (parse_rotation_body_shapes decodeTwo "[\"10.0.0.9:3128\"]").2.2.1 _ [] (by decide)
      (by decide) (by decide) rfl,
    (parse_rotation_body_shapes decodeTwo "[]").2.2.2.2.2 (by decide) (by decide)
      (fun v rest h => by
        have hnone : decodeTwo (TrimSpace "[]") = none := rfl
        rw [hnone] at h
        cases h)⟩

end proxy

namespace usecases

/-- The leaf filter of the code is the filter of the specification. -/
theorem leafFilter_eq_passing (f : String) (raw : List Product) :
    leafFilter f raw = passing f raw := by
  unfold passing
  by_cases hf : f = ""
  · simp [leafFilter, hf]
  · rw [if_neg hf, leafFilter_eq_filter f raw hf]

/-- The normalization loop appends the non-empty normalized entries, unless that takes the
total past the ceiling. -/
theorem appendPage_eq (sprintV : ℚ → String) (baseURL : String) :
    ∀ (raw : List Product) (out : List ModelsProduct) (total : Nat), total ≤ 200000 →
      appendPage sprintV baseURL raw out total =
        if total + ((raw.map (FromProduct sprintV baseURL)).filter
            (fun dp => !entirelyEmpty dp)).length > 200000 then
          Except.error (errorf "too many products parsed: possible infinite pagination")
        else
          Except.ok (out ++ (raw.map (FromProduct sprintV baseURL)).filter
              (fun dp => !entirelyEmpty dp),
            total + ((raw.map (FromProduct sprintV baseURL)).filter
              (fun dp => !entirelyEmpty dp)).length) := by
  intro raw
  induction raw with
  | nil =>
    intro out total h
    rw [appendPage]
    simp only [List.map_nil, List.filter_nil, List.length_nil, Nat.add_zero, List.append_nil]
    rw [if_neg (by omega)]
  | cons p rest ih =>
    intro out total h
    rw [appendPage]
    by_cases he : (FromProduct sprintV baseURL p).Name = "" ∧
        (FromProduct sprintV baseURL p).URL = "" ∧ (FromProduct sprintV baseURL p).Price = ""
    · have hee : entirelyEmpty (FromProduct sprintV baseURL p) = true := by
        simp [entirelyEmpty, he]
      rw [if_pos he, ih out total h]
      simp [List.filter_cons, hee]
    · have hee : entirelyEmpty (FromProduct sprintV baseURL p) = false := by
        simp only [entirelyEmpty, decide_eq_false_iff_not]; exact he
      rw [if_neg he]
      simp only [List.map_cons, List.filter_cons, hee, Bool.not_false, if_true, List.length_cons]
      by_cases hc : total + 1 > 200000
      · rw [if_pos hc, if_pos (by omega)]
      · rw [if_neg hc, ih _ _ (by omega)]
        simp only [List.append_assoc, List.singleton_append]
        have e : total + 1 + (List.filter (fun dp => !entirelyEmpty dp)
            (List.map (FromProduct sprintV baseURL) rest)).length =
            total + ((List.filter (fun dp => !entirelyEmpty dp)
              (List.map (FromProduct sprintV baseURL) rest)).length + 1) := by omega
        rw [e]


/-- The page loop for an arbitrary upstream and context: when it returns no error, its products
are those it started from followed by the contributions of the pages it called, which are
consecutive; an error comes with no products; and the products never exceed the ceiling. -/
theorem pageLoop_products (sprintV : ℚ → String) (s : CategoryProductsService) (env : FetchEnv)
    (storeID : Int) (slug f : String) :
    ∀ (n p : Nat) (out : List ModelsProduct) (total : Nat),
      out.length = total → total ≤ 200000 →
      ((pageLoop sprintV s env storeID slug f n p out total).err = none →
        (pageLoop sprintV s env storeID slug f n p out total).products =
          some (out ++ ((pageLoop sprintV s env storeID slug f n p out total).pages.map
            (fun q => normalizedPage sprintV s.baseURL f (rawAt s env storeID slug q))).flatten) ∧
        (pageLoop sprintV s env storeID slug f n p out total).pages =
          List.range' p (pageLoop sprintV s env storeID slug f n p out total).pages.length) ∧
      ((pageLoop sprintV s env storeID slug f n p out total).err ≠ none →
        (pageLoop sprintV s env storeID slug f n p out total).products = none) ∧
      (∀ o, (pageLoop sprintV s env storeID slug f n p out total).products = some o →
        o.length ≤ 200000 ∧ (pageLoop sprintV s env storeID slug f n p out total).err = none) := by
  intro n
  induction n with
  | zero =>
    intro p out total h1 h2
    rw [pageLoop]
    refine ⟨fun _ => ⟨by simp, rfl⟩, fun h => absurd rfl h, fun o ho => ?_⟩
    cases ho
    exact ⟨by omega, rfl⟩
  | succ n ih =>
    intro p out total h1 h2
    rw [pageLoop]
    cases hc : env.ctxErr p with
    | some e => exact ⟨(fun h => nomatch h), (fun _ => rfl), (fun o ho => nomatch ho)⟩
    | none =>
      dsimp only [GetResult.afterPage]
      cases hl : env.ListProducts storeID slug p s.perPage s.offersLimit with
      | error e => exact ⟨(fun h => nomatch h), (fun _ => rfl), (fun o ho => nomatch ho)⟩
      | ok raw =>
        have hraw : rawAt s env storeID slug p = raw := by simp only [rawAt, hl]
        dsimp only
        by_cases h0 : raw.length = 0
        · rw [if_pos h0]
          have hnil : raw = [] := List.length_eq_zero.mp h0
          refine ⟨fun _ => ⟨?_, rfl⟩, fun h => absurd rfl h, fun o ho => ?_⟩
          · simp [hraw, hnil, normalizedPage, passing]
          · cases ho; exact ⟨by omega, rfl⟩
        · rw [if_neg h0, leafFilter_eq_passing, appendPage_eq _ _ _ _ _ h2]
          by_cases hceil : total + ((List.map (FromProduct sprintV s.baseURL) (passing f raw)).filter
              (fun dp => !entirelyEmpty dp)).length > 200000
          · rw [if_pos hceil]
            exact ⟨(fun h => nomatch h), (fun _ => rfl), (fun o ho => nomatch ho)⟩
          · rw [if_neg hceil]
            dsimp only
            have hnp : normalizedPage sprintV s.baseURL f raw =
                (List.map (FromProduct sprintV s.baseURL) (passing f raw)).filter
                  (fun dp => !entirelyEmpty dp) := rfl
            rw [← hnp] at hceil ⊢
            by_cases hlt : (raw.length : Int) < s.perPage
            · rw [if_pos hlt]
              refine ⟨fun _ => ⟨?_, rfl⟩, fun h => absurd rfl h, fun o ho => ?_⟩
              · simp [hraw]
              · cases ho
                exact ⟨by rw [List.length_append]; omega, rfl⟩
            · rw [if_neg hlt]
              obtain ⟨ih1, ih2, ih3⟩ := ih (p + 1) (out ++ normalizedPage sprintV s.baseURL f raw)
                (total + (normalizedPage sprintV s.baseURL f raw).length)
                (by rw [List.length_append]; omega) (by omega)
              refine ⟨fun h => ?_, ih2, ih3⟩
              obtain ⟨hp, hq⟩ := ih1 h
              constructor
              · rw [hp]
                simp [hraw, List.append_assoc]
              · simp only [List.length_cons, List.range'_succ]
                rw [← hq]


/-- The contribution of a page has no entirely empty product and is no longer than the
page. -/
theorem normalizedPage_props (sprintV : ℚ → String) (baseURL f : String) (raw : List Product) :
    (∀ dp ∈ normalizedPage sprintV baseURL f raw, entirelyEmpty dp = false) ∧
    (normalizedPage sprintV baseURL f raw).length ≤ raw.length := by
  constructor
  · intro dp h
    have := (List.mem_filter.mp h).2
    simpa using this
  · unfold normalizedPage
    refine le_trans (List.length_filter_le _ _) ?_
    rw [List.length_map]
    unfold passing
    split
    · exact le_refl _
    · exact List.length_filter_le _ _

/-- What `GetByDepartmentSlug` returns, for an arbitrary upstream and context. -/
theorem getByDepartmentSlug_products (sprintV : ℚ → String) (s : CategoryProductsService)
    (env : FetchEnv) (storeID : Int) (slug f : String) :
    ((GetByDepartmentSlug sprintV s env storeID slug f).err = none →
      (GetByDepartmentSlug sprintV s env storeID slug f).products =
        some (((GetByDepartmentSlug sprintV s env storeID slug f).pages.map
          (fun q => normalizedPage sprintV s.baseURL f (rawAt s env storeID slug q))).flatten) ∧
      (GetByDepartmentSlug sprintV s env storeID slug f).pages =
        List.range' 1 (GetByDepartmentSlug sprintV s env storeID slug f).pages.length) ∧
    ((GetByDepartmentSlug sprintV s env storeID slug f).err ≠ none →
      (GetByDepartmentSlug sprintV s env storeID slug f).products = none) ∧
    (∀ o, (GetByDepartmentSlug sprintV s env storeID slug f).products = some o →
      o.length ≤ 200000 ∧ (GetByDepartmentSlug sprintV s env storeID slug f).err = none) := by
  unfold GetByDepartmentSlug
  split
  · exact ⟨(fun h => nomatch h), (fun _ => rfl), (fun o ho => nomatch ho)⟩
  · split
    · exact ⟨(fun h => nomatch h), (fun _ => rfl), (fun o ho => nomatch ho)⟩
    · have := pageLoop_products sprintV s env storeID slug f s.maxPages.toNat 1 [] 0 rfl
        (by omega)
      simpa using this

/-- C16: on success (a product list is returned), for every upstream and context, there is no
error, the pages called are `1..k` in order for their number `k`, and the returned list equals
the concatenation, in page order and in entry order within each page, of `mapper.FromProduct`
applied to every fetched raw entry that passes the leaf filter, with exactly those results
removed whose `Name`, `URL` and `Price` are all empty; hence no returned product is entirely
empty, and the result is no longer than the number of raw entries fetched. -/
theorem products_are_normalized_entries (sprintV : ℚ → String) (s : CategoryProductsService)
    (env : FetchEnv) (storeID : Int) (slug f : String) (o : List ModelsProduct)
    (hsuccess : (GetByDepartmentSlug sprintV s env storeID slug f).products = some o) :
    (GetByDepartmentSlug sprintV s env storeID slug f).err = none ∧
    (GetByDepartmentSlug sprintV s env storeID slug f).pages =
      List.range' 1 (GetByDepartmentSlug sprintV s env storeID slug f).pages.length ∧
    o = ((GetByDepartmentSlug sprintV s env storeID slug f).pages.map
      (fun q => normalizedPage sprintV s.baseURL f (rawAt s env storeID slug q))).flatten ∧
    (∀ dp ∈ o, ¬ (dp.Name = "" ∧ dp.URL = "" ∧ dp.Price = "")) ∧
    o.length ≤ ((GetByDepartmentSlug sprintV s env storeID slug f).pages.map
      (fun q => (rawAt s env storeID slug q).length)).sum := by
  obtain ⟨h1, _, h3⟩ := getByDepartmentSlug_products sprintV s env storeID slug f
  have herr := (h3 o hsuccess).2
  obtain ⟨hp, hpages⟩ := h1 herr
  have ho : o = ((GetByDepartmentSlug sprintV s env storeID slug f).pages.map
      (fun q => normalizedPage sprintV s.baseURL f (rawAt s env storeID slug q))).flatten := by
    rw [hp] at hsuccess
    exact (Option.some.inj hsuccess).symm
  refine ⟨herr, hpages, ho, ?_, ?_⟩
  · intro dp hdp
    rw [ho] at hdp
    obtain ⟨l, hl, hmem⟩ := List.mem_flatten.mp hdp
    obtain ⟨q, _, rfl⟩ := List.mem_map.mp hl
    have := (normalizedPage_props sprintV s.baseURL f _).1 dp hmem
    simpa [entirelyEmpty] using this
  · rw [ho, List.length_flatten, List.map_map]
    apply List.sum_le_sum
    intro q _
    exact (normalizedPage_props sprintV s.baseURL f _).2

/-- C16 on two pages, with the leaf filter `apples`: of the seven raw entries four are tagged
`apples`, one of these normalizes to an empty product, and three products are returned, in
page and entry order. -/
theorem products_are_normalized_entries_witness :
    (GetByDepartmentSlug (fun _ => "") (service 500) produceUpstream 86 "produce"
      "apples").products = some [⟨"Gala", "", ""⟩, ⟨"Fuji", "", ""⟩, ⟨"Golden", "", ""⟩] ∧
    (GetByDepartmentSlug (fun _ => "") (service 500) produceUpstream 86 "produce"
      "apples").pages = List.range' 1 2 ∧
    ∀ dp ∈ [(⟨"Gala", "", ""⟩ : ModelsProduct), ⟨"Fuji", "", ""⟩, ⟨"Golden", "", ""⟩],
      ¬ (dp.Name = "" ∧ dp.URL = "" ∧ dp.Price = "") := by
  have h : (GetByDepartmentSlug (fun _ => "") (service 500) produceUpstream 86 "produce"
      "apples").products = some [⟨"Gala", "", ""⟩, ⟨"Fuji", "", ""⟩, ⟨"Golden", "", ""⟩] := by
    decide
  have h2 := products_are_normalized_entries (fun _ => "") (service 500) produceUpstream 86
    "produce" "apples" _ h
  exact ⟨h, h2.2.1, h2.2.2.2.1⟩


/-- C15: `GetByDepartmentSlug` never returns more than 200000 products.  For every upstream and
context, a returned product list has at most 200000 entries and comes with no error, and an
error comes with a nil product list (nothing is returned truncated).  And when no call fails,
the context is not cancelled and the products accumulated over the pages `1..k` up to the first
short page (or `maxPages`) number more than 200000, it returns a nil product list together with
the `too many products` error. -/
theorem never_more_than_ceiling (sprintV : ℚ → String) (s : CategoryProductsService)
    (env : FetchEnv) (storeID : Int) (slug f : String) :
    (∀ o, (GetByDepartmentSlug sprintV s env storeID slug f).products = some o →
      o.length ≤ 200000 ∧ (GetByDepartmentSlug sprintV s env storeID slug f).err = none) ∧
    ((GetByDepartmentSlug sprintV s env storeID slug f).err ≠ none →
      (GetByDepartmentSlug sprintV s env storeID slug f).products = none) ∧
    (∀ (pages : Nat → List Product) (k : Nat), 0 < storeID → slug ≠ "" →
      (∀ p, env.ctxErr p = none) →
      (∀ p, env.ListProducts storeID slug p s.perPage s.offersLimit = Except.ok (pages p)) →
      k ≤ s.maxPages.toNat → (0 < s.maxPages → 1 ≤ k) →
      (∀ p, 1 ≤ p → p < k → ¬ shortPage s (pages p)) →
      (k = s.maxPages.toNat ∨ shortPage s (pages k)) →
      200000 < (((List.range' 1 k).map
        (fun q => normalizedPage sprintV s.baseURL f (pages q))).flatten).length →
      (GetByDepartmentSlug sprintV s env storeID slug f).products = none ∧
      (GetByDepartmentSlug sprintV s env storeID slug f).err =
        some (errorf "too many products parsed: possible infinite pagination")) := by
  obtain ⟨h1, h2, h3⟩ := getByDepartmentSlug_products sprintV s env storeID slug f
  refine ⟨h3, h2, ?_⟩
  intro pages k hstore hslug hctx hok hk hk1 hfull hlast hmany
  have hloop : GetByDepartmentSlug sprintV s env storeID slug f =
      pageLoop sprintV s env storeID slug f s.maxPages.toNat 1 [] 0 := by
    unfold GetByDepartmentSlug
    rw [if_neg (by omega), if_neg hslug]
  have hk0 : 1 ≤ k := by
    by_contra hc
    have : k = 0 := by omega
    subst this
    simp at hmany
  have hpl := pageLoop_pages sprintV s env storeID slug f pages hctx hok s.maxPages.toNat 1 k [] 0
    hk0 hk (fun i hi => by rw [Nat.add_comm]; exact hfull (i + 1) (by omega) (by omega))
    (by
      rcases hlast with h | h
      · exact Or.inl h
      · right; rwa [show 1 + k - 1 = k by omega])
  rw [← hloop] at hpl
  obtain ⟨hp1, _, hp3⟩ := hpl
  have hraw : ∀ q, rawAt s env storeID slug q = pages q := fun q => by simp only [rawAt, hok]
  cases herr : (GetByDepartmentSlug sprintV s env storeID slug f).err with
  | none =>
    exfalso
    obtain ⟨hprod, _⟩ := h1 herr
    have hpages := (hp1 herr).1
    rw [hpages] at hprod
    have hlen := (h3 _ hprod).1
    simp only [hraw] at hlen
    omega
  | some e =>
    have he := hp3 e herr
    subst he
    exact ⟨h2 (by rw [herr]; simp), rfl⟩

/-- Pages that all hold `n` copies of an entry with a non-empty normalization contribute `n`
products each, without a leaf filter. -/
theorem replicated_pages_length (sprintV : ℚ → String) (baseURL : String) (p : Product)
    (n k : Nat) (hp : entirelyEmpty (FromProduct sprintV baseURL p) = false) :
    (((List.range' 1 k).map
      (fun _ => normalizedPage sprintV baseURL "" (List.replicate n p))).flatten).length =
      k * n := by
  have hn : normalizedPage sprintV baseURL "" (List.replicate n p) =
      List.replicate n (FromProduct sprintV baseURL p) := by
    unfold normalizedPage passing
    rw [if_pos rfl, List.map_replicate, List.filter_replicate_of_pos (by simp [hp])]
  have hc : (List.length ∘ fun (_ : Nat) => normalizedPage sprintV baseURL ""
      (List.replicate n p)) = fun _ => n := by
    funext x
    simp [hn]
  rw [List.length_flatten, List.map_map, hc, List.map_const', List.length_range',
    List.sum_replicate, smul_eq_mul]

/-- C15 on an upstream whose pages hold 200001 entries named `x`: more than 200000 products
would accumulate, and the call returns no products and the error of the ceiling. -/
theorem never_more_than_ceiling_witness :
    (GetByDepartmentSlug (fun _ => "") (service 2) hugeUpstream 86 "produce" "").products =
      none ∧
    (GetByDepartmentSlug (fun _ => "") (service 2) hugeUpstream 86 "produce" "").err =
      some (errorf "too many products parsed: possible infinite pagination") := by
  refine (never_more_than_ceiling (fun _ => "") (service 2) hugeUpstream 86 "produce" "").2.2
    (fun _ => List.replicate 200001 (untagged "x")) 2 (by decide) (by decide) (fun _ => rfl)
    (fun _ => rfl) (by decide) (fun _ => by decide) ?_ ?_ ?_
  · intro p _ _
    rw [shortPage_replicate]; decide
  · exact Or.inl (by decide)
  · rw [replicated_pages_length _ _ _ _ _ (by decide)]
    norm_num

end usecases

namespace endpoints

open usecases

/-- C17 fails on the code: for the body `{"products": [], "items": [{"name": "x"}]}` the shape
`products[]` is present but yields no entries, and `ListProducts` returns its empty list
instead of passing it over for the entry of `items[]`; for the shapes `departments[]` and
`deals[]` in its place the entry of `items[]` is returned. -/
theorem list_products_empty_products_not_passed_over :
    ListProducts (fun _ => "") emptyProductsThenItems = Except.ok [] ∧
    ListProducts (fun _ => "") emptyDealsThenItems = Except.ok [untagged "x"] ∧
    ListProducts (fun _ => "") emptyDepartmentThenItems = Except.ok [untagged "x"] :=
  ⟨rfl, rfl, rfl⟩

end endpoints

namespace transport

/-- The delay of a `Retry-After` header that parses as a positive integer `n` is `min(n, 60)`
seconds. -/
theorem retryAfterDelay_of_pos (resp : Response) (n : Int) (hn : atoi resp.RetryAfter = some n)
    (hpos : 0 < n) : retryAfterDelay resp = min n 60 * second := by
  have hne : resp.RetryAfter ≠ "" := by
    intro h
    rw [h] at hn
    have h0 : atoi "" = none := rfl
    rw [h0] at hn
    cases hn
  unfold retryAfterDelay
  simp only [if_neg hne, hn, if_neg (not_le.mpr hpos)]
  by_cases h60 : n > 60
  · rw [if_pos h60, min_eq_right (le_of_lt h60)]
  · rw [if_neg h60, min_eq_left (not_lt.mp h60)]

/-- The delay of a `Retry-After` header that is absent, not an integer or not positive is 0. -/
theorem retryAfterDelay_of_none (resp : Response)
    (h : resp.RetryAfter = "" ∨ atoi resp.RetryAfter = none ∨
      ∃ n, atoi resp.RetryAfter = some n ∧ n ≤ 0) : retryAfterDelay resp = 0 := by
  unfold retryAfterDelay
  dsimp only
  split
  · rfl
  · rcases h with h | h | ⟨n, h, hn⟩
    · rename_i hne; exact absurd h hne
    · rw [h]
    · rw [h]; dsimp only; rw [if_pos hn]

/-- The pass in which the base is invoked and returns a 429 response: if its `Retry-After`
header parses as a positive integer `n` and more retries remain, the pass sleeps `min(n, 60)`
seconds and goes on (or returns the context's error if the context ends during that sleep);
otherwise it ends with the backoff step. -/
theorem attempt_too_many_requests (r : RetryTransport) (env : Env) (req : Request) (a : Nat)
    (resp : Response) (hctx : env.ctxErr a = none)
    (hclone : cloneForRetry req (env.getBodyErr a) = none)
    (hbase : env.base a = ⟨some resp, none⟩) (h429 : resp.StatusCode = 429) :
    (∀ n, atoi resp.RetryAfter = some n → 0 < n → (a : Int) < r.MaxRetries →
      (env.sleepErr a = none →
        r.attempt env req a = Step.again (some (errorf "retryable status=429"))
          [Event.call a, Event.sleep (min n 60 * second)]) ∧
      (∀ e, env.sleepErr a = some e →
        r.attempt env req a = Step.done none (some e)
          [Event.call a, Event.sleep (min n 60 * second)])) ∧
    ((resp.RetryAfter = "" ∨ atoi resp.RetryAfter = none ∨
        (∃ n, atoi resp.RetryAfter = some n ∧ n ≤ 0) ∨ r.MaxRetries ≤ a) →
      r.attempt env req a = r.backoffStep env a (some (errorf "retryable status=429"))) := by
  have hs : shouldRetryStatus resp.StatusCode = true := by rw [h429]; rfl
  have hmsg : errorf ("retryable status=" ++ toString resp.StatusCode) =
      errorf "retryable status=429" := by rw [h429]; rfl
  have hunfold : r.attempt env req a =
      if resp.StatusCode = 429 ∧ (a : Int) < r.MaxRetries ∧ retryAfterDelay resp > 0 then
        match sleepCtx (env.sleepErr a) (retryAfterDelay resp) with
        | some e => Step.done none (some e) [Event.call a, Event.sleep (retryAfterDelay resp)]
        | none => Step.again (some (errorf "retryable status=429"))
            [Event.call a, Event.sleep (retryAfterDelay resp)]
      else r.backoffStep env a (some (errorf "retryable status=429")) := by
    unfold RetryTransport.attempt
    simp only [hctx, hclone, hbase, hs, Bool.not_true, Bool.false_eq_true, if_false, hmsg]
  constructor
  · intro n hn hpos hlt
    have hd := retryAfterDelay_of_pos resp n hn hpos
    have hdpos : retryAfterDelay resp > 0 := by
      rw [hd]
      have : 0 < min n 60 := lt_min hpos (by norm_num)
      simp only [second]; omega
    rw [hunfold, if_pos ⟨h429, hlt, hdpos⟩, ← hd]
    have hsl : ∀ x, sleepCtx x (retryAfterDelay resp) = x := fun x => by
      simp only [sleepCtx, if_neg (not_le.mpr hdpos)]
    constructor
    · intro h; rw [hsl, h]
    · intro e h; rw [hsl, h]
  · intro h
    rw [hunfold]
    apply if_neg
    rintro ⟨_, hlt, hd⟩
    rcases h with h | h | h | h
    · rw [retryAfterDelay_of_none resp (Or.inl h)] at hd; exact absurd hd (by decide)
    · rw [retryAfterDelay_of_none resp (Or.inr (Or.inl h))] at hd; exact absurd hd (by decide)
    · rw [retryAfterDelay_of_none resp (Or.inr (Or.inr h))] at hd; exact absurd hd (by decide)
    · omega

end transport

namespace transport

/-- The pass in which the base returns an error that `shouldRetryError` rejects returns that
error after the call. -/
theorem attempt_error_not_retried (r : RetryTransport) (env : Env) (req : Request) (a : Nat)
    (e : GoError) (hctx : env.ctxErr a = none)
    (hclone : cloneForRetry req (env.getBodyErr a) = none)
    (hbase : (env.base a).err = some e) (hno : shouldRetryError (some e) = false) :
    r.attempt env req a = Step.done none (some e) [Event.call a] := by
  unfold RetryTransport.attempt
  simp only [hctx, hclone, hbase, hno]
  simp

/-- The pass in which the base returns an error that `shouldRetryError` accepts ends with the
backoff step, the error recorded. -/
theorem attempt_error_retried (r : RetryTransport) (env : Env) (req : Request) (a : Nat)
    (e : GoError) (hctx : env.ctxErr a = none)
    (hclone : cloneForRetry req (env.getBodyErr a) = none)
    (hbase : (env.base a).err = some e) (hyes : shouldRetryError (some e) = true) :
    r.attempt env req a = r.backoffStep env a (some e) := by
  unfold RetryTransport.attempt
  simp only [hctx, hclone, hbase, hyes]
  simp

/-- The pass in which the base is invoked and returns an error that is not a cancellation or
deadline error: a `net.Error` is recorded and, when attempts remain and the context does not end
during the sleep, followed by the backoff sleep; any other error is returned after the call. -/
theorem attempt_base_error (r : RetryTransport) (env : Env) (req : Request) (a : Nat)
    (e : GoError) (hctx : env.ctxErr a = none)
    (hclone : cloneForRetry req (env.getBodyErr a) = none)
    (hbase : (env.base a).err = some e)
    (hnotctx : e.isCanceled = false ∧ e.isDeadlineExceeded = false) :
    (e.isNetError = true → (a : Int) < r.MaxRetries → env.sleepErr a = none →
      r.attempt env req a = Step.again (some e)
        [Event.call a, Event.sleep (backoff r.BaseDelay r.MaxDelay a (env.rnd a))]) ∧
    (e.isNetError = false → r.attempt env req a = Step.done none (some e) [Event.call a]) := by
  constructor
  · intro hnet hlt hsleep
    have hyes : shouldRetryError (some e) = true := by
      simp [shouldRetryError, hnotctx.1, hnotctx.2, hnet]
    rw [attempt_error_retried r env req a e hctx hclone hbase hyes]
    unfold RetryTransport.backoffStep
    rw [if_neg (by omega)]
    simp only [sleepCtx, hsleep, ite_self]
  · intro hnet
    have hno : shouldRetryError (some e) = false := by
      simp [shouldRetryError, hnotctx.1, hnotctx.2, hnet]
    exact attempt_error_not_retried r env req a e hctx hclone hbase hno

/-- C22 fails as stated: with three retries left, a base error that is neither a cancellation
nor a deadline error, but not a `net.Error` either, is returned to the caller after the first
base call, with no sleep and no second call. -/
theorem plain_error_is_not_retried :
    (errorf "malformed HTTP response").isCanceled = false ∧
    (errorf "malformed HTTP response").isDeadlineExceeded = false ∧
    RetryTransport.Do ⟨3, 0, 0⟩ alwaysPlainError ⟨false, false⟩ =
      ⟨none, some (errorf "malformed HTTP response"), [Event.call 0]⟩ := by
  decide

end transport

namespace transport

/-- The events of the end of the loop body are the base call of the attempt and a sleep. -/
theorem backoffStep_events (r : RetryTransport) (env : Env) (a : Nat) (lastErr : Option GoError) :
    ∀ ev ∈ (r.backoffStep env a lastErr).trace, ev = Event.call a ∨ ∃ d, ev = Event.sleep d := by
  intro ev h
  unfold RetryTransport.backoffStep at h
  split at h
  · simp only [Step.trace, List.mem_singleton] at h; exact Or.inl h
  · dsimp only at h
    split at h <;>
    · simp only [Step.trace, List.mem_cons, List.mem_singleton, List.not_mem_nil, or_false] at h
      rcases h with h | h
      · exact Or.inl h
      · exact Or.inr ⟨_, h⟩

/-- The events of the pass for attempt `a` are the base call of `a` and sleeps. -/
theorem attempt_events (r : RetryTransport) (env : Env) (req : Request) (a : Nat) :
    ∀ ev ∈ (r.attempt env req a).trace, ev = Event.call a ∨ ∃ d, ev = Event.sleep d := by
  intro ev h
  unfold RetryTransport.attempt at h
  split at h
  · simp [Step.trace] at h
  · split at h
    · simp [Step.trace] at h
    · split at h
      · split at h
        · simp only [Step.trace, List.mem_singleton] at h; exact Or.inl h
        · dsimp only at h
          split at h
          · split at h <;>
            · simp only [Step.trace, List.mem_cons, List.mem_singleton, List.not_mem_nil,
                or_false] at h
              rcases h with h | h
              · exact Or.inl h
              · exact Or.inr ⟨_, h⟩
          · exact backoffStep_events r env a _ ev h
      · split at h
        · simp only [Step.trace, List.mem_singleton] at h; exact Or.inl h
        · exact backoffStep_events r env a _ ev h


/-- If the loop goes on from every attempt before `a` and the pass for `a` returns, so does the
loop, with the trace of that pass last. -/
theorem loop_returns_with (r : RetryTransport) (env : Env) (req : Request) (a : Nat)
    (resp : Option Response) (err : Option GoError) (last : List Event)
    (hdone : r.attempt env req a = Step.done resp err last) :
    ∀ (remaining start : Nat) (lastErr : Option GoError),
      start ≤ a → a - start < remaining →
      (∀ i, start ≤ i → i < a → ∃ le tr, r.attempt env req i = Step.again le tr) →
      (r.loop env req remaining start lastErr).resp = resp ∧
      (r.loop env req remaining start lastErr).err = err ∧
      ∃ pre, (r.loop env req remaining start lastErr).trace = pre ++ last ∧
        baseCalls pre = a - start ∧ ∀ ev ∈ pre, ev ≠ Event.call a := by
  intro remaining
  induction remaining with
  | zero => intro start lastErr h1 h2; omega
  | succ n ih =>
    intro start lastErr h1 h2 hreach
    unfold RetryTransport.loop
    by_cases hs : start = a
    · subst hs
      rw [hdone]
      exact ⟨rfl, rfl, [], rfl, by simp [baseCalls], by simp⟩
    · obtain ⟨le, tr, hag⟩ := hreach start (le_refl _) (by omega)
      rw [hag]
      obtain ⟨h3, h4, pre, h5, h6, h7⟩ := ih (start + 1) le (by omega) (by omega)
        (fun i hi1 hi2 => hreach i (by omega) hi2)
      have hcalls := (attempt_again r env req start le tr hag).1
      have hev : ∀ ev ∈ tr, ev ≠ Event.call a := by
        intro ev hmem heq
        subst heq
        have := attempt_events r env req start (Event.call a) (by rw [hag]; exact hmem)
        rcases this with h | ⟨d, h⟩
        · injection h with h; omega
        · cases h
      refine ⟨h3, h4, tr ++ pre, ?_, ?_, ?_⟩
      · simp only [DoResult.after, h5, List.append_assoc]
      · rw [baseCalls_append, hcalls, h6]; omega
      · intro ev hmem
        rcases List.mem_append.mp hmem with h | h
        · exact hev ev h
        · exact h7 ev h


/-- C24: if the loop reaches attempt `a`, the base is invoked there and returns an error that is
(or wraps) `context.Canceled` or `context.DeadlineExceeded`, `RetryTransport.Do` returns that
error and a nil response, and the trace ends with the base call of attempt `a`, the `a + 1`-th
call: no sleep and no further base call follow, however many attempts remain. -/
theorem context_error_of_base_returns_at_once (r : RetryTransport) (env : Env) (req : Request)
    (a : Nat) (e : GoError)
    (hreach : ∀ i, i < a → ∃ le tr, r.attempt env req i = Step.again le tr)
    (ha : (a : Int) ≤ r.MaxRetries)
    (hctx : env.ctxErr a = none) (hclone : cloneForRetry req (env.getBodyErr a) = none)
    (hbase : (env.base a).err = some e)
    (hcancel : e.isCanceled = true ∨ e.isDeadlineExceeded = true) :
    (r.Do env req).resp = none ∧ (r.Do env req).err = some e ∧
    ∃ pre, (r.Do env req).trace = pre ++ [Event.call a] ∧ baseCalls pre = a := by
  have hno : shouldRetryError (some e) = false := by
    rcases hcancel with h | h <;> simp [shouldRetryError, h]
  have hdone := attempt_error_not_retried r env req a e hctx hclone hbase hno
  obtain ⟨h1, h2, pre, h3, h4, _⟩ := loop_returns_with r env req a _ _ _ hdone
    (r.MaxRetries + 1).toNat 0 none (Nat.zero_le _) (by omega) (fun i _ hi => hreach i hi)
  exact ⟨h1, h2, pre, h3, h4⟩

/-- C25: if the request's context is already cancelled when attempt `a` begins, the pass for `a`
returns the context's error with no outside call, and `RetryTransport.Do` returns that error and
a nil response after `a` base calls, none of them for attempt `a`; in particular a `Do` call
made on an already-cancelled context (`a = 0`) performs zero base calls and zero sleeps. -/
theorem cancelled_context_skips_base (r : RetryTransport) (env : Env) (req : Request)
    (a : Nat) (e : GoError)
    (hreach : ∀ i, i < a → ∃ le tr, r.attempt env req i = Step.again le tr)
    (ha : (a : Int) ≤ r.MaxRetries) (hctx : env.ctxErr a = some e) :
    (r.attempt env req a = Step.done none (some e) []) ∧
    (r.Do env req).resp = none ∧ (r.Do env req).err = some e ∧
    baseCalls (r.Do env req).trace = a ∧
    (∀ ev ∈ (r.Do env req).trace, ev ≠ Event.call a) ∧
    (a = 0 → (r.Do env req).trace = []) := by
  have hdone : r.attempt env req a = Step.done none (some e) [] := by
    unfold RetryTransport.attempt
    rw [hctx]
  obtain ⟨h1, h2, pre, h3, h4, h5⟩ := loop_returns_with r env req a _ _ _ hdone
    (r.MaxRetries + 1).toNat 0 none (Nat.zero_le _) (by omega) (fun i _ hi => hreach i hi)
  rw [List.append_nil] at h3
  refine ⟨hdone, h1, h2, ?_, ?_, ?_⟩
  · unfold RetryTransport.Do; rw [h3, h4]; omega
  · unfold RetryTransport.Do; rw [h3]; exact h5
  · intro h0
    subst h0
    obtain ⟨n, hn⟩ : ∃ n, (r.MaxRetries + 1).toNat = n + 1 := ⟨r.MaxRetries.toNat, by omega⟩
    unfold RetryTransport.Do
    rw [hn, RetryTransport.loop, hdone]

/-- The pass for attempt 0 of a base that answers 503 first goes on to attempt 1. -/
theorem first_pass_goes_on (r : RetryTransport) (env : Env) (req : Request)
    (hR : (0 : Int) ≠ r.MaxRetries) (hbody : req.hasBody = false) (hctx : env.ctxErr 0 = none)
    (hsleep : env.sleepErr 0 = none) (hbase : env.base 0 = ⟨some ⟨503, ""⟩, none⟩) :
    ∃ le tr, r.attempt env req 0 = Step.again le tr :=
  attempt_retryable r env req 0 hbody hctx hsleep ⟨⟨503, ""⟩, hbase, by decide⟩
    (by simpa using hR)

/-- C24 at `MaxRetries = 3` with a base that answers 503 and then fails with a wrapped deadline
error: that error is returned after the call of attempt 1. -/
theorem context_error_of_base_returns_at_once_witness :
    (RetryTransport.Do ⟨3, 0, 0⟩ thenDeadline ⟨false, false⟩).err =
      some (wrapf "Get \"https://kuper.ru/api\": " ctxDeadlineExceeded) ∧
    ∃ pre, (RetryTransport.Do ⟨3, 0, 0⟩ thenDeadline ⟨false, false⟩).trace =
      pre ++ [Event.call 1] ∧ baseCalls pre = 1 :=
  (context_error_of_base_returns_at_once ⟨3, 0, 0⟩ thenDeadline ⟨false, false⟩ 1 _
    (fun i hi => by
      have : i = 0 := by omega
      subst this
      exact first_pass_goes_on _ _ _ (by decide) rfl rfl rfl rfl)
    (by decide) rfl rfl rfl (Or.inr rfl)).2

/-- C25 at `MaxRetries = 3`: on a context that is cancelled from the start no base call and no
sleep is made; on one that is cancelled when attempt 1 begins, the base is invoked once, for
attempt 0. -/
theorem cancelled_context_skips_base_witness :
    RetryTransport.Do ⟨3, 0, 0⟩ (cancelledFrom 0) ⟨false, false⟩ =
      ⟨none, some ctxCanceled, []⟩ ∧
    (RetryTransport.Do ⟨3, 0, 0⟩ (cancelledFrom 1) ⟨false, false⟩).err = some ctxCanceled ∧
    baseCalls (RetryTransport.Do ⟨3, 0, 0⟩ (cancelledFrom 1) ⟨false, false⟩).trace = 1 := by
  have h0 := cancelled_context_skips_base ⟨3, 0, 0⟩ (cancelledFrom 0) ⟨false, false⟩ 0
    ctxCanceled (fun i hi => absurd hi (Nat.not_lt_zero i)) (by decide) rfl
  have h1 := cancelled_context_skips_base ⟨3, 0, 0⟩ (cancelledFrom 1) ⟨false, false⟩ 1
    ctxCanceled (fun i hi => by
      have : i = 0 := by omega
      subst this
      exact first_pass_goes_on _ _ _ (by decide) rfl rfl rfl rfl) (by decide) rfl
  refine ⟨?_, h1.2.2.1, h1.2.2.2.1⟩
  have ht := h0.2.2.2.2.2 rfl
  have hr := h0.2.1
  have he := h0.2.2.1
  cases hd : RetryTransport.Do ⟨3, 0, 0⟩ (cancelledFrom 0) ⟨false, false⟩ with
  | mk resp err trace =>
    rw [hd] at ht hr he
    simp only at ht hr he
    rw [ht, hr, he]

end transport

namespace transport

/-- C23 fails on the code: for a request that carries a body but has no `GetBody`, with two
retries configured and a base that would answer 200, `RetryTransport.Do` fails in the pass for
attempt 0 with the error `cannot retry request with body: GetBody is nil` and makes no base
call at all, while the same request without a body is sent once and answered. -/
theorem body_without_getbody_is_never_sent :
    RetryTransport.Do ⟨2, 0, 0⟩ alwaysOK ⟨true, false⟩ =
      ⟨none, some (errorf "cannot retry request with body: GetBody is nil"), []⟩ ∧
    baseCalls (RetryTransport.Do ⟨2, 0, 0⟩ alwaysOK ⟨true, false⟩).trace = 0 ∧
    RetryTransport.Do ⟨2, 0, 0⟩ alwaysOK ⟨false, false⟩ =
      ⟨some ⟨200, ""⟩, none, [Event.call 0]⟩ := by
  decide

end transport

namespace transport

/-- The end of the loop body with a recorded error neither returns a nil error nor goes on with
a nil `lastErr`. -/
theorem backoffStep_nil_error (r : RetryTransport) (env : Env) (a : Nat) (le : Option GoError)
    (hle : le ≠ none) :
    (∀ resp tr, r.backoffStep env a le ≠ Step.done resp none tr) ∧
    (∀ tr, r.backoffStep env a le ≠ Step.again none tr) := by
  unfold RetryTransport.backoffStep
  constructor
  · intro resp tr h
    split at h
    · injection h with _ h2 _; exact hle h2
    · dsimp only at h
      split at h
      · cases h
      · cases h
  · intro tr h
    split at h
    · cases h
    · dsimp only at h
      split at h
      · cases h
      · injection h with h2 _; exact hle h2

/-- A pass that returns a nil error returns a response with a status that is not retryable, and
a pass that goes on has recorded an error, if the base does not return nil and nil. -/
theorem attempt_nil_error (r : RetryTransport) (env : Env) (req : Request) (a : Nat)
    (hbase : env.base a ≠ ⟨none, none⟩) :
    (∀ resp tr, r.attempt env req a = Step.done resp none tr →
      ∃ rsp, resp = some rsp ∧ shouldRetryStatus rsp.StatusCode = false) ∧
    (∀ tr, r.attempt env req a ≠ Step.again none tr) := by
  cases hc : env.ctxErr a with
  | some e =>
    simp only [RetryTransport.attempt, hc]
    exact ⟨(fun resp tr h => nomatch h), (fun tr h => nomatch h)⟩
  | none =>
    cases hcl : cloneForRetry req (env.getBodyErr a) with
    | some e =>
      simp only [RetryTransport.attempt, hc, hcl]
      exact ⟨(fun resp tr h => nomatch h), (fun tr h => nomatch h)⟩
    | none =>
      cases hb : env.base a with
      | mk resp0 err0 =>
        cases err0 with
        | some e =>
          simp only [RetryTransport.attempt, hc, hcl, hb]
          split
          · exact ⟨(fun resp tr h => nomatch h), (fun tr h => nomatch h)⟩
          · have hb2 := backoffStep_nil_error r env a (some e) (by simp)
            exact ⟨(fun resp tr h => absurd h (hb2.1 resp tr)), hb2.2⟩
        | none =>
          cases resp0 with
          | none => exact absurd hb hbase
          | some rsp =>
            simp only [RetryTransport.attempt, hc, hcl, hb]
            split
            · rename_i hs
              refine ⟨fun resp tr h => ?_, (fun tr h => nomatch h)⟩
              injection h with h1 _ _
              exact ⟨rsp, h1.symm, by simpa using hs⟩
            · split
              · split
                · exact ⟨(fun resp tr h => nomatch h), (fun tr h => nomatch h)⟩
                · exact ⟨(fun resp tr h => nomatch h), (fun tr h => nomatch h)⟩
              · have hb2 := backoffStep_nil_error r env a
                  (some (errorf ("retryable status=" ++ toString rsp.StatusCode))) (by simp)
                exact ⟨(fun resp tr h => absurd h (hb2.1 resp tr)), hb2.2⟩

/-- The loop returns a nil error only with a response whose status is not retryable, if the
base never returns nil and nil and the loop starts with attempts to make or an error
recorded. -/
theorem loop_nil_error (r : RetryTransport) (env : Env) (req : Request)
    (hbase : ∀ i, env.base i ≠ ⟨none, none⟩) :
    ∀ (n a : Nat) (lastErr : Option GoError), (n = 0 → lastErr ≠ none) →
      (r.loop env req n a lastErr).err = none →
      ∃ rsp, (r.loop env req n a lastErr).resp = some rsp ∧
        shouldRetryStatus rsp.StatusCode = false := by
  intro n
  induction n with
  | zero =>
    intro a lastErr h0 herr
    exact absurd herr (h0 rfl)
  | succ n ih =>
    intro a lastErr _ herr
    obtain ⟨h1, h2⟩ := attempt_nil_error r env req a (hbase a)
    rw [RetryTransport.loop] at herr ⊢
    cases hs : r.attempt env req a with
    | done resp err tr =>
      rw [hs] at herr
      dsimp only at herr ⊢
      subst herr
      exact h1 resp tr hs
    | again le tr =>
      rw [hs] at herr
      dsimp only [DoResult.after] at herr ⊢
      have hle : le ≠ none := by
        intro h; subst h; exact h2 tr hs
      exact ih (a + 1) le (fun _ => hle) herr

end transport
namespace transport

/-- The end of the loop body under a context that does not end during the sleep: on the last
attempt it returns the recorded error, before it it goes on with it. -/
theorem backoffStep_live (r : RetryTransport) (env : Env) (a : Nat) (le : Option GoError)
    (hsleep : env.sleepErr a = none) :
    ((a : Int) = r.MaxRetries → r.backoffStep env a le = Step.done none le [Event.call a]) ∧
    ((a : Int) ≠ r.MaxRetries → ∃ tr, r.backoffStep env a le = Step.again le tr) := by
  unfold RetryTransport.backoffStep
  constructor
  · intro h; rw [if_pos h]
  · intro h
    rw [if_neg h]
    simp only [sleepCtx, hsleep, ite_self]
    exact ⟨_, rfl⟩

/-- A pass that ends in a retryable outcome, under a live context and with the request cloned:
on the last attempt it returns the recorded error after the call, before it it goes on with
that error. -/
theorem attempt_retryable_outcome (r : RetryTransport) (env : Env) (req : Request) (a : Nat)
    (hctx : env.ctxErr a = none) (hsleep : env.sleepErr a = none)
    (hclone : cloneForRetry req (env.getBodyErr a) = none)
    (hout : retryableOutcome (env.base a)) :
    recordedErr (env.base a) ≠ none ∧
    ((a : Int) = r.MaxRetries →
      r.attempt env req a = Step.done none (recordedErr (env.base a)) [Event.call a]) ∧
    ((a : Int) ≠ r.MaxRetries →
      ∃ tr, r.attempt env req a = Step.again (recordedErr (env.base a)) tr) := by
  rcases hout with ⟨resp, hb, hs⟩ | ⟨e, he, hyes⟩
  · have hrec : recordedErr (env.base a) =
        some (errorf ("retryable status=" ++ toString resp.StatusCode)) := by
      simp only [recordedErr, hb]
    have hunfold : r.attempt env req a =
        if resp.StatusCode = 429 ∧ (a : Int) < r.MaxRetries ∧ retryAfterDelay resp > 0 then
          match sleepCtx (env.sleepErr a) (retryAfterDelay resp) with
          | some e => Step.done none (some e) [Event.call a, Event.sleep (retryAfterDelay resp)]
          | none => Step.again (some (errorf ("retryable status=" ++ toString resp.StatusCode)))
              [Event.call a, Event.sleep (retryAfterDelay resp)]
        else r.backoffStep env a
          (some (errorf ("retryable status=" ++ toString resp.StatusCode))) := by
      unfold RetryTransport.attempt
      simp only [hctx, hclone, hb, hs, Bool.not_true, Bool.false_eq_true, if_false]
    rw [hrec, hunfold]
    refine ⟨by simp, ?_, ?_⟩
    · intro h
      rw [if_neg (by omega)]
      exact (backoffStep_live r env a _ hsleep).1 h
    · intro h
      split
      · simp only [sleepCtx, hsleep, ite_self]
        exact ⟨_, rfl⟩
      · exact (backoffStep_live r env a _ hsleep).2 h
  · have hrec : recordedErr (env.base a) = some e := by
      simp only [recordedErr, he]
    rw [hrec, attempt_error_retried r env req a e hctx hclone he hyes]
    exact ⟨by simp, (backoffStep_live r env a _ hsleep).1, (backoffStep_live r env a _ hsleep).2⟩

/-- When every attempt ends in a retryable outcome, the loop returns a nil response and the
error recorded for the last attempt. -/
theorem loop_exhausted (r : RetryTransport) (env : Env) (req : Request)
    (hlive : ∀ i, env.ctxErr i = none ∧ env.sleepErr i = none ∧
      cloneForRetry req (env.getBodyErr i) = none)
    (hout : ∀ i, retryableOutcome (env.base i)) :
    ∀ (n a : Nat) (lastErr : Option GoError), (a : Int) + n = r.MaxRetries + 1 → 1 ≤ n →
      (r.loop env req n a lastErr).resp = none ∧
      (r.loop env req n a lastErr).err = recordedErr (env.base r.MaxRetries.toNat) := by
  intro n
  induction n with
  | zero => intro a lastErr _ h; omega
  | succ n ih =>
    intro a lastErr hsum _
    obtain ⟨_, hlast, hgo⟩ := attempt_retryable_outcome r env req a (hlive a).1 (hlive a).2.1
      (hlive a).2.2 (hout a)
    rw [RetryTransport.loop]
    by_cases hR : (a : Int) = r.MaxRetries
    · rw [hlast hR]
      have : r.MaxRetries.toNat = a := by omega
      rw [this]
      exact ⟨rfl, rfl⟩
    · obtain ⟨tr, htr⟩ := hgo hR
      rw [htr]
      exact ih (a + 1) _ (by push_cast; omega) (by omega)

/-- C28: for `MaxRetries ≥ 0` and a base that never returns a nil response together with a nil
error: whenever `RetryTransport.Do` returns a nil error, the response is non-nil and its status
is neither 429 nor 5xx; and when every attempt ends in a retryable status or a retryable error
(the context staying live and the request being cloned on every pass), `Do` returns a nil
response and a non-nil error, the one recorded for the last attempt, `MaxRetries`. -/
theorem nil_error_only_with_final_response (r : RetryTransport) (env : Env) (req : Request)
    (hR : 0 ≤ r.MaxRetries) (hbase : ∀ i, env.base i ≠ ⟨none, none⟩) :
    ((r.Do env req).err = none →
      ∃ rsp, (r.Do env req).resp = some rsp ∧ rsp.StatusCode ≠ 429 ∧
        ¬ (500 ≤ rsp.StatusCode ∧ rsp.StatusCode ≤ 599)) ∧
    ((∀ i, env.ctxErr i = none ∧ env.sleepErr i = none ∧
        cloneForRetry req (env.getBodyErr i) = none) →
      (∀ i, retryableOutcome (env.base i)) →
      (r.Do env req).resp = none ∧
      (r.Do env req).err = recordedErr (env.base r.MaxRetries.toNat) ∧
      (r.Do env req).err ≠ none) := by
  constructor
  · intro herr
    obtain ⟨rsp, h1, h2⟩ := loop_nil_error r env req hbase (r.MaxRetries + 1).toNat 0 none
      (fun h => by omega) herr
    refine ⟨rsp, h1, ?_⟩
    have h3 : ¬ (rsp.StatusCode = 429 ∨ (500 ≤ rsp.StatusCode ∧ rsp.StatusCode ≤ 599)) := by
      rw [← shouldRetryStatus_iff, h2]; simp
    exact ⟨fun h => h3 (Or.inl h), fun h => h3 (Or.inr h)⟩
  · intro hlive hout
    obtain ⟨h1, h2⟩ := loop_exhausted r env req hlive hout (r.MaxRetries + 1).toNat 0 none
      (by omega) (by omega)
    refine ⟨h1, h2, ?_⟩
    unfold RetryTransport.Do
    rw [h2]
    exact (attempt_retryable_outcome r env req _ (hlive _).1 (hlive _).2.1 (hlive _).2.2
      (hout _)).1

/-- C28 at `MaxRetries = 3`: with a base that answers 200 the nil error comes with the 200
response; with a base that alternates 429 and 503 the result is a nil response and the error
recorded for attempt 3. -/
theorem nil_error_only_with_final_response_witness :
    (∃ rsp, (RetryTransport.Do ⟨3, 0, 0⟩ alwaysOK ⟨false, false⟩).resp = some rsp ∧
      rsp.StatusCode ≠ 429 ∧ ¬ (500 ≤ rsp.StatusCode ∧ rsp.StatusCode ≤ 599)) ∧
    (RetryTransport.Do ⟨3, 0, 0⟩ alwaysRetryable ⟨false, false⟩).resp = none ∧
    (RetryTransport.Do ⟨3, 0, 0⟩ alwaysRetryable ⟨false, false⟩).err =
      some (errorf "retryable status=503") := by
  constructor
  · exact (nil_error_only_with_final_response ⟨3, 0, 0⟩ alwaysOK ⟨false, false⟩ (by decide)
      (fun i h => by simp [alwaysOK] at h)).1 (by decide)
  · have h := (nil_error_only_with_final_response ⟨3, 0, 0⟩ alwaysRetryable ⟨false, false⟩
      (by decide) (fun i h => by
        by_cases hi : i % 2 = 0 <;> simp [alwaysRetryable, hi] at h)).2
      (fun _ => ⟨rfl, rfl, rfl⟩) (fun i => by
        by_cases hi : i % 2 = 0
        · exact Or.inl ⟨⟨429, "2"⟩, by simp [alwaysRetryable, hi], by decide⟩
        · exact Or.inl ⟨⟨503, ""⟩, by simp [alwaysRetryable, hi], by decide⟩)
    exact ⟨h.1, h.2.1⟩

end transport

namespace transport

/-- C30 fails on the code: `Build` accepts `Retries = 36` and makes a retry decorator with the
default delays 300 ms and 8 s; at attempt 35 the shift `base << 35` wraps to a negative
`int64`, which is not above the maximum and so is not capped; `backoff` returns a negative
delay (here for the jitter draw 0), and the wait after attempt 35 is a `sleepCtx` that returns
at once.  At attempt 64 the shift gives 0 and so does `backoff`. -/
theorem backoff_wraps_to_non_positive_delay :
    Build ⟨some ⟨0⟩, 36, 0, 0, 0⟩ = Except.ok (Transport.RetryTransport
      (Transport.HTTPTransport ⟨0⟩) ⟨36, 300 * millisecond, 8 * second⟩) ∧
    shl64 (300 * millisecond) 35 = -8138822563309551616 ∧
    backoff (300 * millisecond) (8 * second) 35 0 = -4069411281654775808 ∧
    (RetryTransport.mk 36 (300 * millisecond) (8 * second)).backoffStep alwaysRetryable 35
        (some (errorf "retryable status=503")) =
      Step.again (some (errorf "retryable status=503"))
        [Event.call 35, Event.sleep (-4069411281654775808)] ∧
    sleepCtx (some ctxCanceled) (-4069411281654775808) = none ∧
    backoff (300 * millisecond) (8 * second) 64 0 = 0 := by
  have hs : shl64 (300 * millisecond) 35 = -8138822563309551616 := by decide
  have hb : backoff (300 * millisecond) (8 * second) 35 0 = -4069411281654775808 :=
    backoff_value _ _ _ _ (-8138822563309551616) _ (-8138822563309551616) (1 / 2)
      (-4069411281654775808) (by decide) (by decide) (by rw [hs]; decide)
      (by
        have := float64_exact_neg (-8138822563309551616) 62 (-236870912 * 2 ^ 25) (by norm_num)
          (by norm_num) (by norm_num) (by norm_num)
        exact_mod_cast this)
      float64_half
      (by
        rw [float64_exact_neg _ 61 (-236870912 * 2 ^ 25) (by norm_num) (by norm_num)
          (by norm_num) (by norm_num)]
        norm_num)
      (by exact_mod_cast truncToInt_intCast (-4069411281654775808)) (by norm_num)
  have h64 : backoff (300 * millisecond) (8 * second) 64 0 = 0 :=
    backoff_value _ _ _ _ 0 _ 0 (1 / 2) 0 (by decide) (by decide)
      (by decide) (by simp [float64]) float64_half (by simp [float64])
      (by exact_mod_cast truncToInt_intCast 0) (by norm_num)
  have hstep := backoffStep_sleeps ⟨36, 300 * millisecond, 8 * second⟩ alwaysRetryable 35
    (some (errorf "retryable status=503")) rfl (by decide)
  have hr : backoff (RetryTransport.mk 36 (300 * millisecond) (8 * second)).BaseDelay
      (RetryTransport.mk 36 (300 * millisecond) (8 * second)).MaxDelay 35
      (alwaysRetryable.rnd 35) = -4069411281654775808 := hb
  rw [hr] at hstep
  exact ⟨rfl, hs, hb, hstep, by decide, h64⟩

end transport

namespace transport

/-- C26: with the admission gate as a counter `len` with ceiling `cap`.  Every completed
`ConcurrencyTransport.Do` call leaves the occupancy as it was before the call, within the
ceiling, and it made
either no channel operation or one send, one base call and one receive.  An admitted call takes
one slot, which keeps the count within the ceiling, and its release gives back exactly that
slot, whatever the base returned, response or error; the call returns what the base returned.  A
call whose context is cancelled while all slots are taken returns the context's error with no
base call and no send or receive.  A call completes whenever a slot is free or the context
ends.  Under interleaving with other calls, a step of a call changes the count by exactly `+1`
(the send, only below the ceiling), `-1` (the receive) or not at all (the cancellation, which
starts no base call, and the return of the base), and no send passes a full gate. -/
theorem do_leaves_occupancy_unchanged (s : semaphore) (ctxErr : Option GoError)
    (preferDone : Bool) (base : Result) (hs : s.len ≤ s.cap) :
    (∀ out, ConcurrencyTransport.Do s ctxErr preferDone base = some out →
      out.sem = s ∧ out.sem.len ≤ out.sem.cap ∧
      (out.trace = [] ∨ out.trace = [GateEvent.send, GateEvent.call, GateEvent.receive])) ∧
    (∀ s1, s.acquire ctxErr preferDone = some (s1, none) →
      s1.len = s.len + 1 ∧ s1.len ≤ s.cap ∧ s1.cap = s.cap ∧ s1.release = some s ∧
      ConcurrencyTransport.Do s ctxErr preferDone base =
        some ⟨base, s, [GateEvent.send, GateEvent.call, GateEvent.receive]⟩) ∧
    (∀ e, ctxErr = some e → s.len = s.cap →
      ConcurrencyTransport.Do s ctxErr preferDone base = some ⟨⟨none, some e⟩, s, []⟩) ∧
    (s.len < s.cap ∨ ctxErr ≠ none → (ConcurrencyTransport.Do s ctxErr preferDone base).isSome) ∧
    (∀ (g g1 : Gate) (i : Nat), g.consistent →
      (g.step (Action.send i) = some g1 →
        g1.sem.len = g.sem.len + 1 ∧ g1.sem.len ≤ g1.sem.cap) ∧
      (g.step (Action.receive i) = some g1 → g1.sem.len + 1 = g.sem.len) ∧
      (g.step (Action.ctxDone i) = some g1 → g1.sem = g.sem ∧ g1.executing = g.executing) ∧
      (g.step (Action.baseReturns i) = some g1 → g1.sem = g.sem) ∧
      (g.sem.len = g.sem.cap → g.step (Action.send i) = none)) := by
  have hadm : ∀ s1, s.acquire ctxErr preferDone = some (s1, none) →
      s.len < s.cap ∧ s1 = ⟨s.cap, s.len + 1⟩ := by
    intro s1 h
    unfold semaphore.acquire at h
    cases ctxErr with
    | none =>
      dsimp only at h
      split at h
      · rename_i hlt
        simp only [Option.some.injEq, Prod.mk.injEq, and_true] at h
        exact ⟨hlt, h.symm⟩
      · cases h
    | some e =>
      dsimp only at h
      split at h
      · rename_i hlt
        simp only [Option.some.injEq, Prod.mk.injEq, and_true] at h
        exact ⟨hlt.1, h.symm⟩
      · simp at h
  have hrel : (semaphore.mk s.cap (s.len + 1)).release = some s := by
    simp [semaphore.release]
  have hdo : ∀ s1, s.acquire ctxErr preferDone = some (s1, none) →
      ConcurrencyTransport.Do s ctxErr preferDone base =
        some ⟨base, s, [GateEvent.send, GateEvent.call, GateEvent.receive]⟩ := by
    intro s1 h
    obtain ⟨_, h1⟩ := hadm s1 h
    subst h1
    unfold ConcurrencyTransport.Do
    rw [h]
    dsimp only
    rw [hrel]
  refine ⟨?_, ?_, ?_, ?_, ?_⟩
  · intro out hout
    cases hacq : s.acquire ctxErr preferDone with
    | none => simp [ConcurrencyTransport.Do, hacq] at hout
    | some p =>
      obtain ⟨s1, err⟩ := p
      cases err with
      | none =>
        rw [hdo s1 hacq] at hout
        cases hout
        exact ⟨rfl, hs, Or.inr rfl⟩
      | some e =>
        have hs1 : s1 = s := by
          unfold semaphore.acquire at hacq
          cases ctxErr with
          | none =>
            dsimp only at hacq
            split at hacq <;> simp at hacq
          | some e0 =>
            dsimp only at hacq
            split at hacq
            · simp at hacq
            · simp only [Option.some.injEq, Prod.mk.injEq] at hacq
              exact hacq.1.symm
        simp only [ConcurrencyTransport.Do, hacq, Option.some.injEq] at hout
        subst hout
        subst hs1
        exact ⟨rfl, hs, Or.inl rfl⟩
  · intro s1 h
    obtain ⟨hlt, h1⟩ := hadm s1 h
    refine ⟨?_, ?_, ?_, ?_, hdo s1 h⟩
    · rw [h1]
    · rw [h1]; exact hlt
    · rw [h1]
    · rw [h1]; exact hrel
  · intro e he hfull
    subst he
    simp [ConcurrencyTransport.Do, semaphore.acquire, hfull]
  · intro h
    cases ctxErr with
    | none =>
      have hlt : s.len < s.cap := by
        rcases h with h | h
        · exact h
        · exact absurd rfl h
      simp [ConcurrencyTransport.Do, semaphore.acquire, semaphore.release, hlt]
    | some e =>
      by_cases hc : s.len < s.cap ∧ preferDone = false
      · simp [ConcurrencyTransport.Do, semaphore.acquire, semaphore.release, hc]
      · simp only [ConcurrencyTransport.Do, semaphore.acquire, if_neg hc]
        rfl
  · intro g g1 i hg
    obtain ⟨hcount, hle⟩ := hg
    refine ⟨?_, ?_, ?_, ?_, ?_⟩
    · intro h
      simp only [Gate.step] at h
      split at h
      · rename_i hc
        cases h
        dsimp only
        exact ⟨rfl, hc.2⟩
      · cases h
    · intro h
      simp only [Gate.step] at h
      split at h
      · rename_i hc
        cases h
        dsimp only
        omega
      · cases h
    · intro h
      simp only [Gate.step] at h
      split at h
      · rename_i hc
        cases h
        have h1 := count_set_pos Pos.inner Pos.acquiring Pos.cancelled g.calls i hc
        simp only [reduceCtorEq, if_false] at h1
        refine ⟨rfl, ?_⟩
        unfold Gate.executing
        dsimp only
        omega
      · cases h
    · intro h
      simp only [Gate.step] at h
      split at h
      · cases h; rfl
      · cases h
    · intro hfull
      simp only [Gate.step]
      rw [if_neg (by omega)]

/-- C26 on a gate of two slots: with one slot taken, a call is admitted, holds the second slot
during the base call and leaves one slot taken, here for a base that fails; with both taken
and the context cancelled, the call returns the context's error and touches nothing. -/
theorem do_leaves_occupancy_unchanged_witness :
    semaphore.acquire ⟨2, 1⟩ none false = some (⟨2, 2⟩, none) ∧
    semaphore.release ⟨2, 2⟩ = some ⟨2, 1⟩ ∧
    ConcurrencyTransport.Do ⟨2, 1⟩ none false ⟨none, some (errorf "EOF")⟩ =
      some ⟨⟨none, some (errorf "EOF")⟩, ⟨2, 1⟩,
        [GateEvent.send, GateEvent.call, GateEvent.receive]⟩ ∧
    ConcurrencyTransport.Do ⟨2, 2⟩ (some ctxCanceled) false ⟨none, some (errorf "EOF")⟩ =
      some ⟨⟨none, some ctxCanceled⟩, ⟨2, 2⟩, []⟩ :=
  have h := (do_leaves_occupancy_unchanged ⟨2, 1⟩ none false ⟨none, some (errorf "EOF")⟩
    (by decide)).2.1 ⟨2, 2⟩ (by decide)
  ⟨by decide, h.2.2.2.1, h.2.2.2.2,
    (do_leaves_occupancy_unchanged ⟨2, 2⟩ (some ctxCanceled) false ⟨none, some (errorf "EOF")⟩
      (by decide)).2.2.1 ctxCanceled rfl rfl⟩

end transport

namespace usecases

mutual
/-- The paths of the forest end in its nodes, in the same order. -/
theorem preorderPaths_last : ∀ (cats : List Category),
    (preorderPaths cats).map List.getLast? = (allNodes cats).map some
  | [] => rfl
  | c :: rest => by
    rw [preorderPaths, allNodes, List.map_append, List.map_append, pathsFrom_last c,
      preorderPaths_last rest]
/-- The same for the subtree of one node. -/
theorem pathsFrom_last : ∀ (c : Category),
    (pathsFrom c).map List.getLast? = (nodesOf c).map some
  | Category.mk cid pid name slug count hc children => by
    rw [pathsFrom, nodesOf, List.map_cons, List.map_cons, List.map_map,
      ← preorderPaths_last children]
    congr 1
    apply List.map_congr_left
    intro p hp
    obtain ⟨x, q, hq⟩ := List.exists_cons_of_ne_nil (preorderPaths_inner children p hp).1
    subst hq
    simp [List.getLast?_cons_cons]
end

mutual
/-- Every path of the forest starts at a root and goes from each node to one of its
children. -/
theorem preorderPaths_rooted : ∀ (cats : List Category) (path : List Category),
    path ∈ preorderPaths cats →
      ∃ root rest, path = root :: rest ∧ root ∈ cats ∧
        List.Chain' (fun a b => b ∈ a.Children) path
  | [], path, h => by simp [preorderPaths] at h
  | c :: rest, path, h => by
    rw [preorderPaths, List.mem_append] at h
    rcases h with h | h
    · obtain ⟨r, hr, hc⟩ := pathsFrom_rooted c path h
      exact ⟨c, r, hr, List.mem_cons_self _ _, hc⟩
    · obtain ⟨root, r, hr, hm, hc⟩ := preorderPaths_rooted rest path h
      exact ⟨root, r, hr, List.mem_cons_of_mem _ hm, hc⟩
/-- The same for the subtree of one node. -/
theorem pathsFrom_rooted : ∀ (c : Category) (path : List Category),
    path ∈ pathsFrom c →
      ∃ rest, path = c :: rest ∧ List.Chain' (fun a b => b ∈ a.Children) path
  | Category.mk cid pid name slug count hc children, path, h => by
    rw [pathsFrom, List.mem_cons, List.mem_map] at h
    rcases h with h | ⟨p, hp, h⟩
    · subst h
      exact ⟨[], rfl, List.chain'_singleton _⟩
    · subst h
      obtain ⟨root, r, hr, hm, hc⟩ := preorderPaths_rooted children p hp
      subst hr
      exact ⟨root :: r, rfl, List.chain'_cons.mpr ⟨hm, hc⟩⟩
end

/-- The first path that ends in the ID ends in the first node with the ID. -/
theorem firstMatch_last (cats : List Category) (id : Int) :
    (allNodes cats).find? (fun n => n.ID == id) = (firstMatch cats id).bind List.getLast? := by
  have h1 : ((allNodes cats).map some).find?
        (fun o => match o with | some c => c.ID == id | none => false) =
      ((allNodes cats).find? (fun n => n.ID == id)).map some := by
    rw [List.find?_map]; rfl
  have h2 : ((preorderPaths cats).map List.getLast?).find?
        (fun o => match o with | some c => c.ID == id | none => false) =
      (firstMatch cats id).map List.getLast? := by
    rw [List.find?_map]; rfl
  rw [preorderPaths_last, h1] at h2
  cases hf : firstMatch cats id with
  | none =>
    rw [hf] at h2
    simpa using h2
  | some path =>
    rw [hf] at h2
    simp only [Option.map_some', Option.some_bind] at h2 ⊢
    cases hn : (allNodes cats).find? (fun n => n.ID == id) with
    | none => rw [hn] at h2; simp at h2
    | some t =>
      rw [hn] at h2
      simp only [Option.map_some', Option.some.injEq] at h2
      exact h2

end usecases

namespace usecases

/-- C27: `findPathByID` is a total function (its recursion is structural in the finite forest,
so it terminates), and whenever it returns a path, the path is a root-to-node path: its first
element is one of the given roots, each later element is a member of the `Children` of the
element before it, and its last element has `ID = id` and is the first node with that ID in
depth-first pre-order (no path of the forest before it ends in a node with the ID).  It returns
`(nil, false)` exactly when no node of the forest has `ID = id`. -/
theorem findPathByID_first_root_path (cats : List Category) (id : Int) :
    (∀ path, findPathByID cats id = some path →
      (∃ root rest, path = root :: rest ∧ root ∈ cats) ∧
      List.Chain' (fun a b => b ∈ a.Children) path ∧
      (∃ target, path.getLast? = some target ∧ target.ID = id ∧
        (allNodes cats).find? (fun n => n.ID == id) = some target) ∧
      (∃ before after, preorderPaths cats = before ++ path :: after ∧
        ∀ q ∈ before, ∀ c, q.getLast? = some c → c.ID ≠ id)) ∧
    (findPathByID cats id = none ↔ ∀ n ∈ allNodes cats, n.ID ≠ id) := by
  have hlast := firstMatch_last cats id
  constructor
  · intro path h
    rw [findPathByID_eq_firstMatch] at h
    have hmem : path ∈ preorderPaths cats := List.mem_of_find?_eq_some h
    obtain ⟨root, rest, hroot, hin, hchain⟩ := preorderPaths_rooted cats path hmem
    have hends : endsAt id path = true := List.find?_some h
    rw [h, Option.some_bind] at hlast
    refine ⟨⟨root, rest, hroot, hin⟩, hchain, ?_, ?_⟩
    · unfold endsAt at hends
      cases hl : path.getLast? with
      | none => rw [hl] at hends; cases hends
      | some t =>
        rw [hl] at hends hlast
        exact ⟨t, rfl, by simpa using hends, hlast⟩
    · obtain ⟨_, before, after, hsplit, hbefore⟩ := List.find?_eq_some.mp h
      refine ⟨before, after, hsplit, ?_⟩
      intro q hq c hc heq
      have := hbefore q hq
      simp [endsAt, hc, heq] at this
  · rw [findPathByID_eq_firstMatch]
    constructor
    · intro h
      rw [h] at hlast
      simp only [Option.none_bind, List.find?_eq_none] at hlast
      intro n hn heq
      exact hlast n hn (by simp [heq])
    · intro h
      cases hf : firstMatch cats id with
      | none => rfl
      | some path =>
        exfalso
        have hmem : path ∈ preorderPaths cats := List.mem_of_find?_eq_some hf
        obtain ⟨x, q, hq⟩ := List.exists_cons_of_ne_nil (preorderPaths_inner cats path hmem).1
        rw [hf, Option.some_bind] at hlast
        have hsome : ∃ t, path.getLast? = some t := by
          subst hq
          exact ⟨_, List.getLast?_eq_getLast _ (by simp)⟩
        obtain ⟨t, ht⟩ := hsome
        rw [ht] at hlast
        have hmemt := List.mem_of_find?_eq_some hlast
        have hp := List.find?_some hlast
        exact h t hmemt (by simpa using hp)

/-- C27 on `forest`: the path to the node with ID 5 starts at the root `bakery` and goes through
its child to the leaf, the first node with ID 5; no node has ID 99 and none is returned. -/
theorem findPathByID_first_root_path_witness :
    findPathByID forest 5 = some [bakery, unnamedShelf, bread] ∧
    List.Chain' (fun a b => b ∈ a.Children) [bakery, unnamedShelf, bread] ∧
    (allNodes forest).find? (fun n => n.ID == 5) = some bread ∧
    findPathByID forest 99 = none ∧ ∀ n ∈ allNodes forest, n.ID ≠ 99 :=
  ⟨rfl, ((findPathByID_first_root_path forest 5).1 [bakery, unnamedShelf, bread] rfl).2.1, rfl,
    rfl, (findPathByID_first_root_path forest 99).2.mp rfl⟩

end usecases

namespace usecases

/-- C29: in a path returned by `findPathByID`, each element except the last has a non-empty
`Children` list and so counts as a department for `ResolveDepartmentAndLeafSlug`, whatever its
`HasChildren` flag.  Hence, for a leaf target with a non-empty slug (and positive IDs), the
department returned is the slug of the nearest node above the leaf whose slug is non-empty, and
the result falls back to the leaf's own slug exactly when the leaf is a root or every node above
it has an empty slug. -/
theorem ancestors_count_as_departments (cats : List Category) (storeID categoryID : Int)
    (path : List Category) (hstore : 0 < storeID) (hcat : 0 < categoryID)
    (hfind : findPathByID cats categoryID = some path) :
    (∀ c ∈ path.dropLast, c.Children ≠ [] ∧ isDept c = true) ∧
    (∀ ancestors leaf, path = ancestors ++ [leaf] →
      leaf.HasChildren = false ∧ leaf.Children = [] → leaf.Slug ≠ "" →
      (∀ dept, ancestors.reverse.find? (fun a => decide (a.Slug ≠ "")) = some dept →
        ResolveDepartmentAndLeafSlug (Except.ok cats) storeID categoryID =
          (dept.Slug, leaf.Slug, none)) ∧
      (ResolveDepartmentAndLeafSlug (Except.ok cats) storeID categoryID =
          (leaf.Slug, "", none) ↔
        ancestors = [] ∨ ∀ a ∈ ancestors, a.Slug = "")) := by
  have hmatch : firstMatch cats categoryID = some path := by
    rw [← findPathByID_eq_firstMatch]; exact hfind
  have hmem : path ∈ preorderPaths cats := List.mem_of_find?_eq_some hmatch
  constructor
  · intro c hc
    have h := (preorderPaths_inner cats path hmem).2 c hc
    exact ⟨h, by simp [isDept, List.length_pos, h]⟩
  · intro ancestors leaf hpath hleaf hslug
    subst hpath
    have hres := resolve_matched cats storeID categoryID ancestors leaf hstore hcat hmatch
    have hnd : isDept leaf = false := by simp [isDept, hleaf.1, hleaf.2]
    rw [if_neg hslug] at hres
    simp only [hnd, Bool.false_eq_true, if_false] at hres
    constructor
    · intro dept hdept
      rw [hres, hdept]
      rfl
    · rw [hres]
      cases hf : ancestors.reverse.find? (fun a => decide (a.Slug ≠ "")) with
      | none =>
        simp only [Option.map_none', true_iff]
        right
        intro a ha
        rw [List.find?_eq_none] at hf
        have := hf a (List.mem_reverse.mpr ha)
        simpa using this
      | some dept =>
        simp only [Option.map_some', Prod.mk.injEq, and_true]
        have hd : dept.Slug ≠ "" := by simpa using List.find?_some hf
        have hin : dept ∈ ancestors := List.mem_reverse.mp (List.mem_of_find?_eq_some hf)
        constructor
        · intro h
          exact absurd h.2 hslug
        · intro h
          rcases h with h | h
          · subst h; simp at hin
          · exact absurd (h dept hin) hd

/-- C29 on `forest`, where the branch above the leaf with ID 5 has its `HasChildren` flag unset
and no slug, so that the department is `bakery`, two levels up; and on `unnamedForest`, where
the only node above the leaf has no slug and the result falls back to the leaf. -/
theorem ancestors_count_as_departments_witness :
    unnamedShelf.HasChildren = false ∧ isDept unnamedShelf = true ∧
    ResolveDepartmentAndLeafSlug (Except.ok forest) 86 5 = ("bakery", "bread", none) ∧
    ResolveDepartmentAndLeafSlug (Except.ok unnamedForest) 86 7 = ("tea", "", none) :=
  have h5 := ancestors_count_as_departments forest 86 5 [bakery, unnamedShelf, bread]
    (by decide) (by decide) rfl
  have h7 := ancestors_count_as_departments unnamedForest 86 7
    [Category.mk 6 0 "Drinks" "" 4 true [tea], tea] (by decide) (by decide) rfl
  ⟨rfl, (h5.1 unnamedShelf (by simp)).2,
    (h5.2 [bakery, unnamedShelf] bread rfl ⟨rfl, rfl⟩ (by decide)).1 bakery rfl,
    (h7.2 [Category.mk 6 0 "Drinks" "" 4 true [tea]] tea rfl ⟨rfl, rfl⟩ (by decide)).2.mpr
      (Or.inr (by simp [Category.Slug]))⟩

end usecases

namespace transport

/-- Events put in front of a result one batch after the other are put in front together. -/
theorem after_after (x : DoResult) (a b : List Event) :
    (x.after b).after a = x.after (a ++ b) := by
  simp [DoResult.after, List.append_assoc]

/-- If the loop goes on from every attempt before `a`, it comes to attempt `a` after the events
of those passes. -/
theorem loop_reaches (r : RetryTransport) (env : Env) (req : Request) (n : Nat)
    (lastErr : Option GoError) :
    ∀ a, a < n → (∀ i, i < a → ∃ le tr, r.attempt env req i = Step.again le tr) →
      ∃ le0, r.loop env req n 0 lastErr =
        (r.loop env req (n - a) a le0).after (r.before env req a) := by
  intro a
  induction a with
  | zero =>
    intro _ _
    exact ⟨lastErr, by simp [DoResult.after, RetryTransport.before]⟩
  | succ a ih =>
    intro hlt hreach
    obtain ⟨le0, h0⟩ := ih (by omega) (fun i hi => hreach i (by omega))
    obtain ⟨le1, tr, hstep⟩ := hreach a (by omega)
    obtain ⟨k, hk⟩ : ∃ k, n - a = k + 1 := ⟨n - a - 1, by omega⟩
    have hk2 : n - (a + 1) = k := by omega
    refine ⟨le1, ?_⟩
    rw [h0, hk, RetryTransport.loop, hstep, hk2]
    dsimp only
    rw [after_after, RetryTransport.before, hstep]
    rfl

/-- The passes before `a` invoke the base `a` times. -/
theorem before_baseCalls (r : RetryTransport) (env : Env) (req : Request) :
    ∀ a, (∀ i, i < a → ∃ le tr, r.attempt env req i = Step.again le tr) →
      baseCalls (r.before env req a) = a := by
  intro a
  induction a with
  | zero => intro _; rfl
  | succ a ih =>
    intro hreach
    obtain ⟨le1, tr, hstep⟩ := hreach a (by omega)
    rw [RetryTransport.before, baseCalls_append, ih (fun i hi => hreach i (by omega)), hstep]
    simp only [Step.trace]
    rw [(attempt_again r env req a le1 tr hstep).1]

/-- What `Do` returns when the loop comes to attempt `a`, from what the pass for `a` does. -/
theorem do_at (r : RetryTransport) (env : Env) (req : Request) (a : Nat)
    (hreach : ∀ i, i < a → ∃ le tr, r.attempt env req i = Step.again le tr)
    (ha : (a : Int) ≤ r.MaxRetries) :
    (∀ resp err tr, r.attempt env req a = Step.done resp err tr →
      r.Do env req = ⟨resp, err, r.before env req a ++ tr⟩) ∧
    (∀ le tr, r.attempt env req a = Step.again le tr →
      r.Do env req = (r.loop env req (r.MaxRetries - a).toNat (a + 1) le).after
        (r.before env req a ++ tr)) := by
  obtain ⟨le0, h0⟩ := loop_reaches r env req (r.MaxRetries + 1).toNat none a (by omega) hreach
  obtain ⟨k, hk⟩ : ∃ k, (r.MaxRetries + 1).toNat - a = k + 1 :=
    ⟨(r.MaxRetries + 1).toNat - a - 1, by omega⟩
  have hk2 : (r.MaxRetries - a).toNat = k := by omega
  unfold RetryTransport.Do
  rw [h0, hk, RetryTransport.loop, hk2]
  constructor
  · intro resp err tr h
    rw [h]
    rfl
  · intro le tr h
    rw [h]
    dsimp only
    rw [after_after]

/-- A pass under a live context with the request cloned begins with the base call. -/
theorem attempt_starts_with_call (r : RetryTransport) (env : Env) (req : Request) (a : Nat)
    (hctx : env.ctxErr a = none) (hclone : cloneForRetry req (env.getBodyErr a) = none) :
    ∃ rest, (r.attempt env req a).trace = Event.call a :: rest := by
  have hb : ∀ le, ∃ rest, (r.backoffStep env a le).trace = Event.call a :: rest := by
    intro le
    unfold RetryTransport.backoffStep
    split
    · exact ⟨_, rfl⟩
    · dsimp only
      split <;> exact ⟨_, rfl⟩
  unfold RetryTransport.attempt
  simp only [hctx, hclone]
  split
  · split
    · exact ⟨_, rfl⟩
    · split
      · split <;> exact ⟨_, rfl⟩
      · exact hb _
  · split
    · exact ⟨_, rfl⟩
    · exact hb _

/-- So does the rest of the loop from that attempt on. -/
theorem loop_starts_with_call (r : RetryTransport) (env : Env) (req : Request) (a n : Nat)
    (le : Option GoError) (hn : 0 < n)
    (hctx : env.ctxErr a = none) (hclone : cloneForRetry req (env.getBodyErr a) = none) :
    ∃ post, (r.loop env req n a le).trace = Event.call a :: post := by
  obtain ⟨k, hk⟩ : ∃ k, n = k + 1 := ⟨n - 1, by omega⟩
  obtain ⟨rest, hrest⟩ := attempt_starts_with_call r env req a hctx hclone
  rw [hk, RetryTransport.loop]
  cases h : r.attempt env req a with
  | done resp err tr =>
    rw [h] at hrest
    exact ⟨rest, hrest⟩
  | again le1 tr =>
    rw [h] at hrest
    simp only [Step.trace] at hrest
    subst hrest
    exact ⟨_, rfl⟩

end transport

namespace transport

/-- The events of the end of the loop body before the last attempt: the call and the backoff
sleep, whether or not the context ends during it. -/
theorem backoffStep_trace (r : RetryTransport) (env : Env) (a : Nat) (le : Option GoError)
    (hne : (a : Int) ≠ r.MaxRetries) :
    (r.backoffStep env a le).trace =
      [Event.call a, Event.sleep (backoff r.BaseDelay r.MaxDelay a (env.rnd a))] := by
  unfold RetryTransport.backoffStep
  rw [if_neg hne]
  dsimp only
  split <;> rfl

/-- The end of the loop body on the last attempt returns the recorded error after the call. -/
theorem backoffStep_last (r : RetryTransport) (env : Env) (a : Nat) (le : Option GoError)
    (h : (a : Int) = r.MaxRetries) :
    r.backoffStep env a le = Step.done none le [Event.call a] := by
  unfold RetryTransport.backoffStep
  rw [if_pos h]

/-- The trace of `Do` when the loop comes to attempt `a`: the events of the passes before, those
of the pass for `a`, and what follows. -/
theorem do_trace_at (r : RetryTransport) (env : Env) (req : Request) (a : Nat)
    (hreach : ∀ i, i < a → ∃ le tr, r.attempt env req i = Step.again le tr)
    (ha : (a : Int) ≤ r.MaxRetries) :
    ∃ post, (r.Do env req).trace = r.before env req a ++ (r.attempt env req a).trace ++ post := by
  obtain ⟨hdone, hagain⟩ := do_at r env req a hreach ha
  cases h : r.attempt env req a with
  | done resp err tr =>
    rw [hdone resp err tr h]
    exact ⟨[], by simp [Step.trace]⟩
  | again le tr =>
    rw [hagain le tr h]
    exact ⟨_, rfl⟩

/-- C21: when the loop of `RetryTransport.Do` comes to attempt `a` (after `a` base calls), the
base is invoked there and returns a 429 response: if its `Retry-After` header parses as a
positive integer `n` and more retries remain (`a < MaxRetries`), `Do` sleeps exactly
`min(n, 60)` seconds after that call, performs no backoff sleep for the attempt and goes on with
the loop from attempt `a + 1`, whose base call is the next event (when the context is still
live and the request is cloned there); if the context ends during the sleep, `Do` returns the
context's error.  If the header is absent, not an integer or not positive and retries remain,
the sleep after the call is the backoff sleep, not a `Retry-After` sleep; and on the last
allowed attempt `Do` returns the `retryable status=429` error after the call, with no sleep. -/
theorem retry_after_sleep (r : RetryTransport) (env : Env) (req : Request) (a : Nat)
    (resp : Response)
    (hreach : ∀ i, i < a → ∃ le tr, r.attempt env req i = Step.again le tr)
    (ha : (a : Int) ≤ r.MaxRetries) (hctx : env.ctxErr a = none)
    (hclone : cloneForRetry req (env.getBodyErr a) = none)
    (hbase : env.base a = ⟨some resp, none⟩) (h429 : resp.StatusCode = 429) :
    baseCalls (r.before env req a) = a ∧
    (∀ n, atoi resp.RetryAfter = some n → 0 < n → (a : Int) < r.MaxRetries →
      (env.sleepErr a = none →
        r.Do env req = (r.loop env req (r.MaxRetries - a).toNat (a + 1)
            (some (errorf "retryable status=429"))).after
          (r.before env req a ++ [Event.call a, Event.sleep (min n 60 * second)]) ∧
        (env.ctxErr (a + 1) = none → cloneForRetry req (env.getBodyErr (a + 1)) = none →
          ∃ post, (r.Do env req).trace = r.before env req a ++
            [Event.call a, Event.sleep (min n 60 * second), Event.call (a + 1)] ++ post)) ∧
      (∀ e, env.sleepErr a = some e →
        r.Do env req = ⟨none, some e,
          r.before env req a ++ [Event.call a, Event.sleep (min n 60 * second)]⟩)) ∧
    ((resp.RetryAfter = "" ∨ atoi resp.RetryAfter = none ∨
        (∃ n, atoi resp.RetryAfter = some n ∧ n ≤ 0)) → (a : Int) < r.MaxRetries →
      (∃ post, (r.Do env req).trace = r.before env req a ++
        [Event.call a, Event.sleep (backoff r.BaseDelay r.MaxDelay a (env.rnd a))] ++ post) ∧
      (env.sleepErr a = none →
        r.Do env req = (r.loop env req (r.MaxRetries - a).toNat (a + 1)
            (some (errorf "retryable status=429"))).after
          (r.before env req a ++
            [Event.call a, Event.sleep (backoff r.BaseDelay r.MaxDelay a (env.rnd a))]))) ∧
    ((a : Int) = r.MaxRetries →
      r.Do env req = ⟨none, some (errorf "retryable status=429"),
        r.before env req a ++ [Event.call a]⟩) := by
  obtain ⟨hdone, hagain⟩ := do_at r env req a hreach ha
  obtain ⟨hra, hbo⟩ := attempt_too_many_requests r env req a resp hctx hclone hbase h429
  refine ⟨before_baseCalls r env req a hreach, ?_, ?_, ?_⟩
  · intro n hn hpos hlt
    obtain ⟨h1, h2⟩ := hra n hn hpos hlt
    constructor
    · intro hs
      have hdo := hagain _ _ (h1 hs)
      refine ⟨hdo, ?_⟩
      intro hc hcl
      obtain ⟨post, hpost⟩ := loop_starts_with_call r env req (a + 1)
        (r.MaxRetries - a).toNat (some (errorf "retryable status=429")) (by omega) hc hcl
      refine ⟨post, ?_⟩
      rw [hdo]
      show (r.before env req a ++ [Event.call a, Event.sleep (min n 60 * second)]) ++
        (r.loop env req (r.MaxRetries - a).toNat (a + 1)
          (some (errorf "retryable status=429"))).trace = _
      rw [hpost]
      simp only [List.append_assoc, List.cons_append, List.nil_append]
    · intro e he
      exact hdone _ _ _ (h2 e he)
  · intro hbad hlt
    have hstep : r.attempt env req a =
        r.backoffStep env a (some (errorf "retryable status=429")) := by
      apply hbo
      rcases hbad with h | h | h
      · exact Or.inl h
      · exact Or.inr (Or.inl h)
      · exact Or.inr (Or.inr (Or.inl h))
    constructor
    · obtain ⟨post, hpost⟩ := do_trace_at r env req a hreach ha
      rw [hstep, backoffStep_trace r env a _ (by omega)] at hpost
      exact ⟨post, hpost⟩
    · intro hs
      rw [backoffStep_sleeps r env a _ hs (by omega)] at hstep
      exact hagain _ _ hstep
  · intro hlast
    have hstep := hbo (Or.inr (Or.inr (Or.inr (by omega))))
    rw [backoffStep_last r env a _ hlast] at hstep
    exact hdone _ _ _ hstep

/-- C21 on a base that answers 429 with `Retry-After: 2` first: with three retries `Do` makes
the first call, sleeps 2 s and makes the second call; with no retry it returns the
`retryable status=429` error after the one call. -/
theorem retry_after_sleep_witness :
    (∃ post, (RetryTransport.Do ⟨3, 0, 0⟩ alwaysRetryable ⟨false, false⟩).trace =
      [Event.call 0, Event.sleep (2 * second), Event.call 1] ++ post) ∧
    RetryTransport.Do ⟨0, 0, 0⟩ alwaysRetryable ⟨false, false⟩ =
      ⟨none, some (errorf "retryable status=429"), [Event.call 0]⟩ :=
  ⟨(((retry_after_sleep ⟨3, 0, 0⟩ alwaysRetryable ⟨false, false⟩ 0 ⟨429, "2"⟩
      (fun i hi => absurd hi (Nat.not_lt_zero i)) (by decide) rfl rfl rfl rfl).2.1
      2 rfl (by decide) (by decide)).1 rfl).2 rfl rfl,
    (retry_after_sleep ⟨0, 0, 0⟩ alwaysRetryable ⟨false, false⟩ 0 ⟨429, "2"⟩
      (fun i hi => absurd hi (Nat.not_lt_zero i)) (by decide) rfl rfl rfl rfl).2.2.2 rfl⟩

end transport

namespace transport

/-- C22, as amended: when the loop of `RetryTransport.Do` comes to attempt `a` (after `a` base
calls), the base is invoked there and returns an error that is not a cancellation or deadline
error, the error is treated as retryable exactly when it is a `net.Error`.  For a `net.Error`
with attempts remaining, `Do` sleeps the backoff delay after the call and, unless the context
ends during that sleep, records the error and goes on with the loop from attempt `a + 1`, whose
base call is the next event (when the context is still live and the request is cloned there);
on the last attempt `Do` returns the recorded error.  An error that is not a `net.Error` is
returned to the caller at once: the call of attempt `a` is the last event. -/
theorem only_net_errors_are_retried (r : RetryTransport) (env : Env) (req : Request) (a : Nat)
    (e : GoError)
    (hreach : ∀ i, i < a → ∃ le tr, r.attempt env req i = Step.again le tr)
    (ha : (a : Int) ≤ r.MaxRetries) (hctx : env.ctxErr a = none)
    (hclone : cloneForRetry req (env.getBodyErr a) = none)
    (hbase : (env.base a).err = some e)
    (hnotctx : e.isCanceled = false ∧ e.isDeadlineExceeded = false) :
    baseCalls (r.before env req a) = a ∧
    (e.isNetError = true → (a : Int) < r.MaxRetries →
      (∃ post, (r.Do env req).trace = r.before env req a ++
        [Event.call a, Event.sleep (backoff r.BaseDelay r.MaxDelay a (env.rnd a))] ++ post) ∧
      (env.sleepErr a = none →
        r.Do env req = (r.loop env req (r.MaxRetries - a).toNat (a + 1) (some e)).after
          (r.before env req a ++
            [Event.call a, Event.sleep (backoff r.BaseDelay r.MaxDelay a (env.rnd a))]) ∧
        (env.ctxErr (a + 1) = none → cloneForRetry req (env.getBodyErr (a + 1)) = none →
          ∃ post, (r.Do env req).trace = r.before env req a ++
            [Event.call a, Event.sleep (backoff r.BaseDelay r.MaxDelay a (env.rnd a)),
              Event.call (a + 1)] ++ post))) ∧
    (e.isNetError = true → (a : Int) = r.MaxRetries →
      r.Do env req = ⟨none, some e, r.before env req a ++ [Event.call a]⟩) ∧
    (e.isNetError = false →
      r.Do env req = ⟨none, some e, r.before env req a ++ [Event.call a]⟩) := by
  obtain ⟨hdone, hagain⟩ := do_at r env req a hreach ha
  have hretried : e.isNetError = true →
      r.attempt env req a = r.backoffStep env a (some e) := by
    intro hnet
    exact attempt_error_retried r env req a e hctx hclone hbase
      (by simp [shouldRetryError, hnotctx.1, hnotctx.2, hnet])
  refine ⟨before_baseCalls r env req a hreach, ?_, ?_, ?_⟩
  · intro hnet hlt
    have hstep := hretried hnet
    constructor
    · obtain ⟨post, hpost⟩ := do_trace_at r env req a hreach ha
      rw [hstep, backoffStep_trace r env a _ (by omega)] at hpost
      exact ⟨post, hpost⟩
    · intro hs
      rw [backoffStep_sleeps r env a _ hs (by omega)] at hstep
      have hdo := hagain _ _ hstep
      refine ⟨hdo, ?_⟩
      intro hc hcl
      obtain ⟨post, hpost⟩ := loop_starts_with_call r env req (a + 1)
        (r.MaxRetries - a).toNat (some e) (by omega) hc hcl
      refine ⟨post, ?_⟩
      rw [hdo]
      show (r.before env req a ++
          [Event.call a, Event.sleep (backoff r.BaseDelay r.MaxDelay a (env.rnd a))]) ++
        (r.loop env req (r.MaxRetries - a).toNat (a + 1) (some e)).trace = _
      rw [hpost]
      simp only [List.append_assoc, List.cons_append, List.nil_append]
  · intro hnet hlast
    have hstep := hretried hnet
    rw [backoffStep_last r env a _ hlast] at hstep
    exact hdone _ _ _ hstep
  · intro hnet
    exact hdone _ _ _ (attempt_error_not_retried r env req a e hctx hclone hbase
      (by simp [shouldRetryError, hnotctx.1, hnotctx.2, hnet]))

/-- C22, as amended, with three retries: after a refused connection (a `net.Error`) `Do` sleeps
and invokes the base again; a malformed response (not a `net.Error`) is returned after the one
call. -/
theorem only_net_errors_are_retried_witness :
    (∃ d post, (RetryTransport.Do ⟨3, 0, 0⟩ alwaysNetError ⟨false, false⟩).trace =
      [Event.call 0, Event.sleep d, Event.call 1] ++ post) ∧
    RetryTransport.Do ⟨3, 0, 0⟩ alwaysPlainError ⟨false, false⟩ =
      ⟨none, some (errorf "malformed HTTP response"), [Event.call 0]⟩ :=
  ⟨⟨_, (((only_net_errors_are_retried ⟨3, 0, 0⟩ alwaysNetError ⟨false, false⟩ 0 _
      (fun i hi => absurd hi (Nat.not_lt_zero i)) (by decide) rfl rfl rfl ⟨rfl, rfl⟩).2.1
      rfl (by decide)).2 rfl).2 rfl rfl⟩,
    (only_net_errors_are_retried ⟨3, 0, 0⟩ alwaysPlainError ⟨false, false⟩ 0 _
      (fun i hi => absurd hi (Nat.not_lt_zero i)) (by decide) rfl rfl rfl ⟨rfl, rfl⟩).2.2.2 rfl⟩

end transport

namespace transport

/-- The pass in which the base is invoked and answers with a retryable status other than 429
ends with the backoff step, the status recorded. -/
theorem attempt_server_error (r : RetryTransport) (env : Env) (req : Request) (a : Nat)
    (resp : Response) (hctx : env.ctxErr a = none)
    (hclone : cloneForRetry req (env.getBodyErr a) = none)
    (hbase : env.base a = ⟨some resp, none⟩) (hs : shouldRetryStatus resp.StatusCode = true)
    (hne : resp.StatusCode ≠ 429) :
    r.attempt env req a = r.backoffStep env a
      (some (errorf ("retryable status=" ++ toString resp.StatusCode))) := by
  unfold RetryTransport.attempt
  simp only [hctx, hclone, hbase, hs, Bool.not_true, Bool.false_eq_true, if_false]
  rw [if_neg (fun h => hne h.1)]

/-- The events before attempt 1 are those of the pass for attempt 0. -/
theorem before_one (r : RetryTransport) (env : Env) (req : Request) :
    r.before env req 1 = (r.attempt env req 0).trace := by
  simp [RetryTransport.before]

/-- C12 fails as stated, in two ways.  At `R = 1` and `M = 1 s`, with a base that answers 429
with `Retry-After: 60`, the run is call, wait of 60 s, call, and 60 s exceeds
`R * M * 1.5 = 1.5 s`.  At `R = 1` and base and maximum delay `M = 3002399751580333 ns`, with a
base that answers 503 and the largest jitter draw, the `float64` product `M * 1.5` rounds up to
4503599627370500 ns, and the wait exceeds `R * M * 1.5`. -/
theorem retry_after_exceeds_delay_bound :
    (RetryTransport.Do ⟨1, 100 * millisecond, 1 * second⟩ alwaysRetryAfter60
      ⟨false, false⟩).trace = [Event.call 0, Event.sleep (60 * second), Event.call 1] ∧
    ((1 : Int) : ℚ) * ((1 * second : Int) : ℚ) * (3 / 2) <
      (slept (RetryTransport.Do ⟨1, 100 * millisecond, 1 * second⟩ alwaysRetryAfter60
        ⟨false, false⟩).trace : ℚ) ∧
    (RetryTransport.Do ⟨1, 3002399751580333, 3002399751580333⟩ unavailableTopJitter
      ⟨false, false⟩).trace = [Event.call 0, Event.sleep 4503599627370500, Event.call 1] ∧
    ((1 : Int) : ℚ) * ((3002399751580333 : Int) : ℚ) * (3 / 2) <
      (slept (RetryTransport.Do ⟨1, 3002399751580333, 3002399751580333⟩ unavailableTopJitter
        ⟨false, false⟩).trace : ℚ) := by
  have h : slept (RetryTransport.Do ⟨1, 100 * millisecond, 1 * second⟩ alwaysRetryAfter60
      ⟨false, false⟩).trace = 60 * second := by decide
  have hb : backoff 3002399751580333 3002399751580333 0 (1 - 1 / 2 ^ 53) = 4503599627370500 :=
    backoff_value 3002399751580333 3002399751580333 0 (1 - 1 / 2 ^ 53) 3002399751580333
      4503599627370500 3002399751580333 (3 / 2) 4503599627370500
      (by decide) (by decide) (by decide)
      (by exact_mod_cast float64_intCast 3002399751580333 (by norm_num) (by norm_num))
      float64_top
      (by
        rw [float64_eq _ 52 4503599627370500 (by norm_num)
          (by rw [abs_of_pos (by norm_num)]; norm_num)
          (by rw [abs_of_pos (by norm_num)]; norm_num)
          (by
            rw [roundHalfEven_tie_up _ 4503599627370499 (by norm_num) (by norm_num)]
            norm_num)]
        norm_num)
      (by exact_mod_cast truncToInt_intCast 4503599627370500) (by norm_num)
  have hctx : ∀ i, unavailableTopJitter.ctxErr i = none := fun _ => rfl
  have hcl : ∀ i, cloneForRetry ⟨false, false⟩ (unavailableTopJitter.getBodyErr i) = none :=
    fun _ => rfl
  have hbase : ∀ i, unavailableTopJitter.base i = ⟨some ⟨503, ""⟩, none⟩ := fun _ => rfl
  have hsl : ∀ i, unavailableTopJitter.sleepErr i = none := fun _ => rfl
  have hrnd : ∀ i, unavailableTopJitter.rnd i = 1 - 1 / 2 ^ 53 := fun i => by
    simp only [unavailableTopJitter]
  have h0 : (RetryTransport.mk 1 3002399751580333 3002399751580333).attempt
      unavailableTopJitter ⟨false, false⟩ 0 =
      Step.again (some (errorf "retryable status=503"))
        [Event.call 0, Event.sleep 4503599627370500] := by
    rw [attempt_server_error ⟨1, 3002399751580333, 3002399751580333⟩ unavailableTopJitter
      ⟨false, false⟩ 0 ⟨503, ""⟩ (hctx 0) (hcl 0) (hbase 0) (by decide) (by decide),
      backoffStep_sleeps _ unavailableTopJitter 0 _ (hsl 0) (by decide), hrnd 0]
    dsimp only
    rw [hb]
    rfl
  have h1 : (RetryTransport.mk 1 3002399751580333 3002399751580333).attempt
      unavailableTopJitter ⟨false, false⟩ 1 =
      Step.done none (some (errorf "retryable status=503")) [Event.call 1] := by
    rw [attempt_server_error ⟨1, 3002399751580333, 3002399751580333⟩ unavailableTopJitter
      ⟨false, false⟩ 1 ⟨503, ""⟩ (hctx 1) (hcl 1) (hbase 1) (by decide) (by decide),
      backoffStep_last _ unavailableTopJitter 1 _ (by decide)]
    rfl
  have htr : (RetryTransport.Do ⟨1, 3002399751580333, 3002399751580333⟩ unavailableTopJitter
      ⟨false, false⟩).trace = [Event.call 0, Event.sleep 4503599627370500, Event.call 1] := by
    have hreach : ∀ i, i < 1 → ∃ le tr,
        (RetryTransport.mk 1 3002399751580333 3002399751580333).attempt
          unavailableTopJitter ⟨false, false⟩ i = Step.again le tr := by
      intro i hi
      have : i = 0 := by omega
      subst this
      exact ⟨_, _, h0⟩
    rw [(do_at _ unavailableTopJitter ⟨false, false⟩ 1 hreach (by decide)).1 _ _ _ h1]
    rw [before_one, h0]
    rfl
  refine ⟨by decide, ?_, htr, ?_⟩
  · rw [h]
    norm_num [second]
  · rw [htr]
    norm_num [slept, sleeps]

end transport

namespace usecases

/-- An iteration of the page loop that fetches a non-empty page runs the normalization loop on
the entries that pass the leaf filter. -/
theorem pageLoop_step (sprintV : ℚ → String) (s : CategoryProductsService) (env : FetchEnv)
    (storeID : Int) (slug f : String) (raw : List Product) (n page : Nat)
    (out : List ModelsProduct) (total : Nat) (hctx : env.ctxErr page = none)
    (hlist : env.ListProducts storeID slug page s.perPage s.offersLimit = Except.ok raw)
    (hne : raw ≠ []) :
    pageLoop sprintV s env storeID slug f (n + 1) page out total =
      GetResult.afterPage page
        (match appendPage sprintV s.baseURL (passing f raw) out total with
        | Except.error err => ⟨none, some err, []⟩
        | Except.ok (out, total) =>
          if (raw.length : Int) < s.perPage then ⟨some out, none, []⟩
          else pageLoop sprintV s env storeID slug f n (page + 1) out total) := by
  rw [pageLoop]
  simp only [hctx, hlist]
  rw [if_neg (by simpa using hne), leafFilter_eq_passing]

/-- C6: for every fetched page `raw` and every non-empty leaf filter `f`, the entries that
`GetByDepartmentSlug` passes on to normalization are exactly the entries of the page that pass
the test `tagged f`, in their original order: the slice left by the in-place filtering loop is
`raw.filter (tagged f)`, every iteration of the page loop that fetches the non-empty page `raw`
runs the normalization loop `appendPage` on that list, and the products of a successful run are
the non-empty normalized entries of the lists `filter (tagged f)` of the pages called, in
order.  An entry passes the test exactly when its `Raw` map is not nil and holds under
`_department_slug` a string equal to `f` (so entries with no tag, a non-string tag, a different
tag or a nil map are dropped).  With the empty filter no entry is dropped: the normalization
loop runs on `raw` itself. -/
theorem leaf_filter_keeps_exactly_tagged (sprintV : ℚ → String) (s : CategoryProductsService)
    (env : FetchEnv) (storeID : Int) (slug f : String) (raw : List Product) (hf : f ≠ "") :
    leafFilter f raw = raw.filter (tagged f) ∧
    (∀ p : Product, tagged f p = true ↔
      ∃ m, p.Raw = some m ∧ m.lookup "_department_slug" = some (JSON.string f)) ∧
    leafFilter "" raw = raw ∧
    (∀ (n page : Nat) (out : List ModelsProduct) (total : Nat), env.ctxErr page = none →
      env.ListProducts storeID slug page s.perPage s.offersLimit = Except.ok raw → raw ≠ [] →
      pageLoop sprintV s env storeID slug f (n + 1) page out total =
        GetResult.afterPage page
          (match appendPage sprintV s.baseURL (raw.filter (tagged f)) out total with
          | Except.error err => ⟨none, some err, []⟩
          | Except.ok (out, total) =>
            if (raw.length : Int) < s.perPage then ⟨some out, none, []⟩
            else pageLoop sprintV s env storeID slug f n (page + 1) out total) ∧
      pageLoop sprintV s env storeID slug "" (n + 1) page out total =
        GetResult.afterPage page
          (match appendPage sprintV s.baseURL raw out total with
          | Except.error err => ⟨none, some err, []⟩
          | Except.ok (out, total) =>
            if (raw.length : Int) < s.perPage then ⟨some out, none, []⟩
            else pageLoop sprintV s env storeID slug "" n (page + 1) out total)) ∧
    (∀ o, (GetByDepartmentSlug sprintV s env storeID slug f).products = some o →
      o = ((GetByDepartmentSlug sprintV s env storeID slug f).pages.map
        (fun q => (((rawAt s env storeID slug q).filter (tagged f)).map
          (FromProduct sprintV s.baseURL)).filter (fun dp => !entirelyEmpty dp))).flatten) ∧
    (∀ o, (GetByDepartmentSlug sprintV s env storeID slug "").products = some o →
      o = ((GetByDepartmentSlug sprintV s env storeID slug "").pages.map
        (fun q => ((rawAt s env storeID slug q).map
          (FromProduct sprintV s.baseURL)).filter (fun dp => !entirelyEmpty dp))).flatten) := by
  have hrun : ∀ g o, (GetByDepartmentSlug sprintV s env storeID slug g).products = some o →
      o = ((GetByDepartmentSlug sprintV s env storeID slug g).pages.map
        (fun q => normalizedPage sprintV s.baseURL g (rawAt s env storeID slug q))).flatten := by
    intro g o ho
    obtain ⟨h1, _, h3⟩ := getByDepartmentSlug_products sprintV s env storeID slug g
    have hp := (h1 (h3 o ho).2).1
    rw [hp] at ho
    exact (Option.some.inj ho).symm
  refine ⟨leafFilter_eq_filter f raw hf, tagged_iff f, by simp [leafFilter], ?_, ?_, ?_⟩
  · intro n page out total hctx hlist hne
    constructor
    · have := pageLoop_step sprintV s env storeID slug f raw n page out total hctx hlist hne
      simpa only [passing, if_neg hf] using this
    · have := pageLoop_step sprintV s env storeID slug "" raw n page out total hctx hlist hne
      simpa only [passing, if_true] using this
  · intro o ho
    have := hrun f o ho
    simpa only [normalizedPage, passing, if_neg hf] using this
  · intro o ho
    have := hrun "" o ho
    simpa only [normalizedPage, passing, if_true] using this

/-- C6 on a page with entries tagged `a` and `b`, an entry without a tag, one with a number as
tag and one with a nil map: the filter `b` keeps the two entries tagged `b`, in order, and
`GetByDepartmentSlug` returns the products of these two; without a filter it returns those of
all entries but the one with a nil map, which normalizes to an empty product. -/
theorem leaf_filter_keeps_exactly_tagged_witness :
    leafFilter "b" [entry "1" "a", entry "2" "b", untagged "3", numberTagged "4", nilEntry,
      entry "5" "b", entry "6" "a"] = [entry "2" "b", entry "5" "b"] ∧
    (GetByDepartmentSlug (fun _ => "") (service 500) tagsUpstream 86 "fruit" "b").products =
      some [⟨"2", "", ""⟩, ⟨"5", "", ""⟩] ∧
    (GetByDepartmentSlug (fun _ => "") (service 500) tagsUpstream 86 "fruit" "").products =
      some [⟨"1", "", ""⟩, ⟨"2", "", ""⟩, ⟨"3", "", ""⟩, ⟨"4", "", ""⟩, ⟨"5", "", ""⟩,
        ⟨"6", "", ""⟩] := by
  have h := leaf_filter_keeps_exactly_tagged (fun _ => "") (service 500) tagsUpstream 86 "fruit"
    "b" [entry "1" "a", entry "2" "b", untagged "3", numberTagged "4", nilEntry, entry "5" "b",
      entry "6" "a"] (by decide)
  refine ⟨?_, by decide, by decide⟩
  rw [h.1]
  rfl

end usecases

end kuperparser
